import Mathlib

/-!
The two-pass OBJ loader of `src/src/objtest.c`.

A shallow embedding of `FirstPass`, `MallocModel`, `SecondPass`, `ReadOBJModel`,
`FreeModel` and `RenderOBJModel`, and of the glue that calls them (`init`, `cleanup`,
`showmodel_init`, `showmodel_update`).

* A file is the list of its characters.  A line buffer is the list of the bytes written
  into it so far (the terminating NUL included); what lies beyond has never been written.
* Every function whose C behaviour can be undefined returns an `Option`; `none` stands for
  undefined behaviour (a store through a null or out-of-bounds pointer, a read of a buffer
  that was never written, a `%d` value or a counter that does not fit an `int`).
* The `%f` conversion and the constants `0.0`, `1.0` are parameters (`FloatOps`).
* Text written to `stderr` is modelled as a list of `Msg`; `printf` output is not modelled,
  except that the four cursors printed by `SecondPass` are part of its result.
* `malloc` and `calloc` answer from a list of Booleans (`true`: granted), one per call.
* Definitions come first (the C library, the data model, the functions of the source, then
  the vocabulary of the statements); the theorems follow.
-/

namespace ObjTest

/-! ## The C library -/

/-- The byte that terminates a C string. -/
def NUL : Char := Char.ofNat 0

/-- Largest value of a C `int` (32 bits). -/
def INT_MAX : Int := 2147483647

/-- Smallest value of a C `int` (32 bits). -/
def INT_MIN : Int := -2147483648

/-- The `isspace` test of the C locale: space, `\t`, `\n`, `\v`, `\f`, `\r`. -/
def isspace (c : Char) : Bool :=
  c.toNat = 32 || (9 ≤ c.toNat && c.toNat ≤ 13)

/-- The `isdigit` test. -/
def isdigit (c : Char) : Bool :=
  48 ≤ c.toNat && c.toNat ≤ 57

/-- White space skipped by a conversion or by a blank in a format. -/
def skipSpace : List Char → List Char
  | [] => []
  | c :: s => if isspace c then skipSpace s else c :: s

/-- Reads the longest run of decimal digits, accumulating its value. -/
def scanDigits : Nat → List Char → Nat × List Char
  | acc, [] => (acc, [])
  | acc, c :: s => if isdigit c then scanDigits (10 * acc + (c.toNat - 48)) s else (acc, c :: s)

/-- The digits of an unsigned decimal number: at least one digit is required. -/
def scanNat : List Char → Option (Nat × List Char)
  | [] => none
  | c :: s => if isdigit c then some (scanDigits 0 (c :: s)) else none

/-- The `%d` conversion: white space, an optional sign, decimal digits.  `none` is a
matching failure or the end of the input. -/
def scan_d (s : List Char) : Option (Int × List Char) :=
  match skipSpace s with
  | [] => none
  | c :: r =>
    if c = '-' then (scanNat r).map (fun p => (-(p.1 : Int), p.2))
    else if c = '+' then (scanNat r).map (fun p => ((p.1 : Int), p.2))
    else (scanNat (c :: r)).map (fun p => ((p.1 : Int), p.2))

/-- The directives of the integer formats used by the loader. -/
inductive Directive where
  | d : Directive
  | lit : Char → Directive
  deriving DecidableEq, Repr

/-- The format `"%d/%d/%d"`. -/
def fmt_vtn : List Directive := [.d, .lit '/', .d, .lit '/', .d]

/-- The format `"%d//%d"`. -/
def fmt_vn : List Directive := [.d, .lit '/', .lit '/', .d]

/-- The format `"%d/%d"`. -/
def fmt_vt : List Directive := [.d, .lit '/', .d]

/-- The format `"%d"`. -/
def fmt_v : List Directive := [.d]

/-- The function `sscanf` on an integer format: the list of the values converted, in order
(its length is the value `sscanf` returns, `EOF` counting as no conversion: the source only
compares the result with 1, 2 and 3).  `none`: a value does not fit an `int`. -/
def sscanf_d : List Directive → List Char → Option (List Int)
  | [], _ => some []
  | .d :: fmt, s =>
    match scan_d s with
    | none => some []
    | some (v, r) =>
      if INT_MIN ≤ v ∧ v ≤ INT_MAX then (sscanf_d fmt r).map (fun l => v :: l) else none
  | .lit c :: fmt, s =>
    match s with
    | [] => some []
    | c' :: r => if c' = c then sscanf_d fmt r else some []

/-- The floating-point side of the C library: the `%f` conversion on an input that starts
with no white space, and the constants `0.0` and `1.0`. -/
structure FloatOps (F : Type) where
  strtof : List Char → Option (F × List Char)
  zero : F
  one : F

/-- The function `sscanf` on the formats `"%f"`, `"%f %f"`, `"%f %f %f"`, `"%f %f %f %f"`
(`n` conversions separated by blanks): the list of the values converted. -/
def sscanf_f {F : Type} (ops : FloatOps F) : Nat → List Char → List F
  | 0, _ => []
  | n + 1, s =>
    match ops.strtof (skipSpace s) with
    | none => []
    | some (x, r) => x :: sscanf_f ops n (skipSpace r)

/-- The characters `fgets` transfers: at most `n`, stopping after a newline.  The result is
the characters read, the rest of the stream and whether the end of the file was hit. -/
def getChars : Nat → List Char → List Char × List Char × Bool
  | 0, s => ([], s, false)
  | _ + 1, [] => ([], [], true)
  | n + 1, c :: s =>
    if c = '\n' then ([c], s, false)
    else ((c :: (getChars n s).1), (getChars n s).2.1, (getChars n s).2.2)

/-- The results of the successive `fgets (buf, size, fp)` calls of a loop
`while (!feof (fp)) { fgets (buf, size, fp); ... }` on a freshly opened or rewound stream:
`some l` when `l` was read, `none` when `fgets` read nothing and returned `NULL`. -/
def readsAux (size : Nat) : Nat → List Char → List (Option (List Char))
  | 0, _ => []
  | fuel + 1, s =>
    (if (getChars (size - 1) s).1 = [] then none else some (getChars (size - 1) s).1) ::
      (if (getChars (size - 1) s).2.2 then [] else readsAux size fuel (getChars (size - 1) s).2.1)

/-- The reads of the whole loop: one more iteration than the file has characters is always
enough (`readsAux_fuel`). -/
def reads (size : Nat) (file : List Char) : List (Option (List Char)) :=
  readsAux size (file.length + 1) file

/-- The effect of one `fgets` on the line buffer: the characters read and a NUL overwrite
the start of the buffer; a failed `fgets` leaves it unchanged. -/
def fgets_store (r : Option (List Char)) (buf : List Char) : List Char :=
  match r with
  | none => buf
  | some l => l ++ NUL :: buf.drop (l.length + 1)

/-- The C string that starts at `buf + k`; `none` when no NUL follows in the bytes written
so far. -/
def cstrAt (buf : List Char) (k : Nat) : Option (List Char) :=
  if NUL ∈ buf.drop k then some ((buf.drop k).takeWhile (fun c => c ≠ NUL)) else none

/-- An `int` counter incremented by `++`; `none` on overflow. -/
def incr (x : Int) : Option Int :=
  if x < INT_MAX then some (x + 1) else none

/-! ## The data model (`struct obj_face_t`, `struct obj_model_t`) -/

/-- Modelled from the spec: `tinygl/gl.h` is not among the sources; the spec names three
distinct primitive tags (triangle, quad, general polygon), given here the values of the
OpenGL enumeration. -/
def GL_TRIANGLES : Nat := 4

/-- Modelled from the spec: `tinygl/gl.h` is not among the sources (see `GL_TRIANGLES`). -/
def GL_QUADS : Nat := 7

/-- Modelled from the spec: `tinygl/gl.h` is not among the sources (see `GL_TRIANGLES`). -/
def GL_POLYGON : Nat := 9

/-- An `int *` array on the heap: `none` is the null pointer; a cell holding `none` has
never been written (its value is indeterminate). -/
abbrev IntArray := Option (List (Option Int))

/-- The translation of `struct obj_face_t`. -/
structure obj_face_t where
  type : Nat
  num_elems : Int
  vert_indices : IntArray
  uvw_indices : IntArray
  norm_indices : IntArray
  deriving DecidableEq, Repr

/-- A `float[k]` array inside a vertex, texture coordinate or normal; a component holding
`none` has never been written. -/
abbrev Vec (F : Type) := List (Option F)

/-- The translation of `struct obj_model_t`; a pointer field is `none` when null. -/
structure obj_model_t (F : Type) where
  num_verts : Int
  num_texCoords : Int
  num_normals : Int
  num_faces : Int
  has_texCoords : Int
  has_normals : Int
  vertices : Option (List (Vec F))
  texCoords : Option (List (Vec F))
  normals : Option (List (Vec F))
  faces : Option (List obj_face_t)
  deriving DecidableEq, Repr

/-- The model after `memset (mdl, 0, sizeof (struct obj_model_t))`. -/
def zeroModel (F : Type) : obj_model_t F :=
  ⟨0, 0, 0, 0, 0, 0, none, none, none, none⟩

/-- The face in memory returned by `calloc`. -/
def zeroFace : obj_face_t := ⟨0, 0, none, none, none⟩

/-- The lines the loader writes to `stderr`. -/
inductive Msg where
  /-- The line `Error: couldn't open "<filename>"!` -/
  | cannotOpen : String → Msg
  /-- The line `Error: found face with no vertex!` -/
  | faceWithNoVertex : Msg
  /-- The line `error: contradiction between collected info!` -/
  | contradiction : Msg
  /-- The line `error: no vertex found!` -/
  | noVertex : Msg
  /-- The line `Error reading vertex data!` -/
  | vertexData : Msg
  /-- The line `Error reading texture coordinates!` -/
  | texCoordData : Msg
  /-- The line `Error reading normal vectors!` -/
  | normalData : Msg
  /-- The line `Error: a face must have at least 3 vertices!` -/
  | faceTooSmall : Msg
  deriving DecidableEq, Repr

/-! ## `FirstPass` -/

/-- The body of the `case 'f'` of `FirstPass`, on the string at `buf + 2`. -/
def FirstPass_face {F : Type} (s : List Char) (mdl : obj_model_t F) (err : List Msg) :
    Option (obj_model_t F × List Msg) := do
  let r1 ← sscanf_d fmt_vtn s
  if r1.length = 3 then
    let k ← incr mdl.num_faces
    some ({ mdl with num_faces := k, has_texCoords := 1, has_normals := 1 }, err)
  else
    let r2 ← sscanf_d fmt_vn s
    if r2.length = 2 then
      let k ← incr mdl.num_faces
      some ({ mdl with num_faces := k, has_texCoords := 0, has_normals := 1 }, err)
    else
      let r3 ← sscanf_d fmt_vt s
      if r3.length = 2 then
        let k ← incr mdl.num_faces
        some ({ mdl with num_faces := k, has_texCoords := 1, has_normals := 0 }, err)
      else
        let r4 ← sscanf_d fmt_v s
        if r4.length = 1 then
          let k ← incr mdl.num_faces
          some ({ mdl with num_faces := k, has_texCoords := 0, has_normals := 0 }, err)
        else
          some (mdl, err ++ [Msg.faceWithNoVertex])

/-- The `switch (buf[0])` of `FirstPass`, on the line buffer as `fgets` left it. -/
def FirstPass_line {F : Type} (buf : List Char) (mdl : obj_model_t F) (err : List Msg) :
    Option (obj_model_t F × List Msg) := do
  let c0 ← buf[0]?
  if c0 = 'v' then
    let c1 ← buf[1]?
    if c1 = ' ' then
      let k ← incr mdl.num_verts
      some ({ mdl with num_verts := k }, err)
    else if c1 = 't' then
      let k ← incr mdl.num_texCoords
      some ({ mdl with num_texCoords := k }, err)
    else if c1 = 'n' then
      let k ← incr mdl.num_normals
      some ({ mdl with num_normals := k }, err)
    else
      some (mdl, err)
  else if c0 = 'f' then
    let s ← cstrAt buf 2
    FirstPass_face s mdl err
  else
    some (mdl, err)

/-- The `while (!feof (fp))` loop of `FirstPass`, over the results of its `fgets` calls. -/
def FirstPass_loop {F : Type} :
    List (Option (List Char)) → List Char → obj_model_t F → List Msg →
      Option (obj_model_t F × List Msg)
  | [], _, mdl, err => some (mdl, err)
  | r :: rs, buf, mdl, err =>
    match FirstPass_line (fgets_store r buf) mdl err with
    | none => none
    | some (mdl1, err1) => FirstPass_loop rs (fgets_store r buf) mdl1 err1

/-- The checks that follow the loop of `FirstPass`, and its return value. -/
def FirstPass_check {F : Type} (mdl : obj_model_t F) (err : List Msg) :
    Int × obj_model_t F × List Msg :=
  if (mdl.has_texCoords ≠ 0 ∧ mdl.num_texCoords = 0) ∨
      (mdl.has_normals ≠ 0 ∧ mdl.num_normals = 0) then
    (0, mdl, err ++ [Msg.contradiction])
  else if mdl.num_verts = 0 then
    (0, mdl, err ++ [Msg.noVertex])
  else
    (1, mdl, err)

/-- The function `FirstPass (fp, mdl)` on a stream positioned at the start of `file`: the
value returned, the model and the lines written to `stderr`.  The line buffer `buf[256]`
starts with nothing written. -/
def FirstPass {F : Type} (file : List Char) (mdl : obj_model_t F) :
    Option (Int × obj_model_t F × List Msg) :=
  (FirstPass_loop (reads 256 file) [] mdl []).map (fun p => FirstPass_check p.1 p.2)

/-! ## `MallocModel` and `FreeModel` -/

/-- One call of `malloc` or `calloc`: the next answer of the allocator (`true`: the block
is granted); an exhausted list grants every request. -/
def malloc (heap : List Bool) : Bool × List Bool :=
  match heap with
  | [] => (true, [])
  | b :: h => (b, h)

/-- An allocation `malloc (size * n)` for an `int` count `n`: `k` fresh cells `init`, or the
null pointer; a negative count is a request larger than the address space and is refused. -/
def allocArray {α : Type} (init : α) (n : Int) (heap : List Bool) : Option (List α) × List Bool :=
  if (malloc heap).1 = true ∧ 0 ≤ n then (some (List.replicate n.toNat init), (malloc heap).2)
  else (none, (malloc heap).2)

/-- The last allocation of `MallocModel`: `if (mdl->num_faces) { mdl->faces = calloc (...);
if (!mdl->faces) return 0; } return 1;`. -/
def MallocModel_faces {F : Type} (mdl : obj_model_t F) (heap : List Bool) :
    Int × obj_model_t F × List Bool :=
  if mdl.num_faces ≠ 0 then
    match allocArray zeroFace mdl.num_faces heap with
    | (none, h) => (0, { mdl with faces := none }, h)
    | (some a, h) => (1, { mdl with faces := some a }, h)
  else (1, mdl, heap)

/-- The allocation of the normals in `MallocModel`, and what follows it. -/
def MallocModel_normals {F : Type} (mdl : obj_model_t F) (heap : List Bool) :
    Int × obj_model_t F × List Bool :=
  if mdl.num_normals ≠ 0 then
    match allocArray (List.replicate 3 (none : Option F)) mdl.num_normals heap with
    | (none, h) => (0, { mdl with normals := none }, h)
    | (some a, h) => MallocModel_faces { mdl with normals := some a } h
  else MallocModel_faces mdl heap

/-- The allocation of the texture coordinates in `MallocModel`, and what follows it. -/
def MallocModel_texCoords {F : Type} (mdl : obj_model_t F) (heap : List Bool) :
    Int × obj_model_t F × List Bool :=
  if mdl.num_texCoords ≠ 0 then
    match allocArray (List.replicate 3 (none : Option F)) mdl.num_texCoords heap with
    | (none, h) => (0, { mdl with texCoords := none }, h)
    | (some a, h) => MallocModel_normals { mdl with texCoords := some a } h
  else MallocModel_normals mdl heap

/-- The function `MallocModel (mdl)`: the value returned, the model and the allocator.  Each
array is allocated when its count is not 0; a refused allocation stores the null pointer and
returns 0. -/
def MallocModel {F : Type} (mdl : obj_model_t F) (heap : List Bool) :
    Int × obj_model_t F × List Bool :=
  if mdl.num_verts ≠ 0 then
    match allocArray (List.replicate 4 (none : Option F)) mdl.num_verts heap with
    | (none, h) => (0, { mdl with vertices := none }, h)
    | (some a, h) => MallocModel_texCoords { mdl with vertices := some a } h
  else MallocModel_texCoords mdl heap

/-- The function `FreeModel (mdl)` for a non-null `mdl`: every array is released and its
pointer set to null.  `none`: the loop over the faces reads `faces[i]` for an `i < num_faces`
beyond the array. -/
def FreeModel {F : Type} (mdl : obj_model_t F) : Option (obj_model_t F) :=
  match mdl.faces with
  | none => some { mdl with vertices := none, texCoords := none, normals := none }
  | some fs =>
    if mdl.num_faces.toNat ≤ fs.length then
      some { mdl with vertices := none, texCoords := none, normals := none, faces := none }
    else none

/-! ## `SecondPass` -/

/-- The state of `SecondPass`: the model, the four cursors `pvert`, `puvw`, `pnorm`, `pface`
as offsets from the start of their arrays, the allocator and the lines written to
`stderr`. -/
structure Pass2 (F : Type) where
  mdl : obj_model_t F
  pvert : Nat
  puvw : Nat
  pnorm : Nat
  pface : Nat
  heap : List Bool
  err : List Msg
  deriving DecidableEq, Repr

/-- The store `p->c[k] = x` into the `p`-th element of an array of vectors; `none` when the
array pointer is null or `p` is beyond the array. -/
def storeComp {F : Type} (arr : Option (List (Vec F))) (p k : Nat) (x : F) :
    Option (List (Vec F)) :=
  match arr with
  | none => none
  | some l =>
    match l[p]? with
    | none => none
    | some cell => some (l.set p (cell.set k (some x)))

/-- The stores made by one `sscanf` of floats: the `j`-th value converted goes to component
`k + j` of the `p`-th element. -/
def storeFloats {F : Type} (p : Nat) :
    Nat → List F → Option (List (Vec F)) → Option (Option (List (Vec F)))
  | _, [], arr => some arr
  | k, x :: xs, arr =>
    match storeComp arr p k x with
    | none => none
    | some l => storeFloats p (k + 1) xs (some l)

/-- The vertex branch (`buf[1] == ' '`) of `SecondPass` on the string at `buf + 2`.  The
Boolean of the result is `false` when the function returns 0. -/
def SecondPass_vertex {F : Type} (ops : FloatOps F) (s : List Char) (st : Pass2 F) :
    Option (Bool × Pass2 F) := do
  let a1 ← storeFloats st.pvert 0 (sscanf_f ops 4 s) st.mdl.vertices
  if (sscanf_f ops 4 s).length ≠ 4 then
    let a2 ← storeFloats st.pvert 0 (sscanf_f ops 3 s) a1
    if (sscanf_f ops 3 s).length ≠ 3 then
      some (false, { st with mdl := { st.mdl with vertices := a2 },
                             err := st.err ++ [Msg.vertexData] })
    else
      let a3 ← storeComp a2 st.pvert 3 ops.one
      some (true, { st with mdl := { st.mdl with vertices := some a3 },
                            pvert := st.pvert + 1 })
  else
    some (true, { st with mdl := { st.mdl with vertices := a1 }, pvert := st.pvert + 1 })

/-- The texture-coordinate branch (`buf[1] == 't'`) of `SecondPass`. -/
def SecondPass_texCoord {F : Type} (ops : FloatOps F) (s : List Char) (st : Pass2 F) :
    Option (Bool × Pass2 F) := do
  let a1 ← storeFloats st.puvw 0 (sscanf_f ops 3 s) st.mdl.texCoords
  if (sscanf_f ops 3 s).length ≠ 3 then
    let a2 ← storeFloats st.puvw 0 (sscanf_f ops 2 s) a1
    if (sscanf_f ops 2 s).length ≠ 2 then
      let a3 ← storeFloats st.puvw 0 (sscanf_f ops 1 s) a2
      if (sscanf_f ops 1 s).length ≠ 1 then
        some (false, { st with mdl := { st.mdl with texCoords := a3 },
                               err := st.err ++ [Msg.texCoordData] })
      else
        let a4 ← storeComp a3 st.puvw 1 ops.zero
        let a5 ← storeComp (some a4) st.puvw 2 ops.zero
        some (true, { st with mdl := { st.mdl with texCoords := some a5 },
                              puvw := st.puvw + 1 })
    else
      let a3 ← storeComp a2 st.puvw 2 ops.zero
      some (true, { st with mdl := { st.mdl with texCoords := some a3 },
                            puvw := st.puvw + 1 })
  else
    some (true, { st with mdl := { st.mdl with texCoords := a1 }, puvw := st.puvw + 1 })

/-- The normal branch (`buf[1] == 'n'`) of `SecondPass`. -/
def SecondPass_normal {F : Type} (ops : FloatOps F) (s : List Char) (st : Pass2 F) :
    Option (Bool × Pass2 F) := do
  let a1 ← storeFloats st.pnorm 0 (sscanf_f ops 3 s) st.mdl.normals
  if (sscanf_f ops 3 s).length ≠ 3 then
    some (false, { st with mdl := { st.mdl with normals := a1 },
                           err := st.err ++ [Msg.normalData] })
  else
    some (true, { st with mdl := { st.mdl with normals := a1 }, pnorm := st.pnorm + 1 })

/-- The three index arrays of a face, as targets of a conversion. -/
inductive IdxField where
  | vert : IdxField
  | uvw : IdxField
  | norm : IdxField
  deriving DecidableEq, Repr

/-- The array of a face that a target names. -/
def obj_face_t.indices (f : obj_face_t) : IdxField → IntArray
  | .vert => f.vert_indices
  | .uvw => f.uvw_indices
  | .norm => f.norm_indices

/-- The face with one of its arrays replaced. -/
def obj_face_t.setIndices (f : obj_face_t) : IdxField → IntArray → obj_face_t
  | .vert, a => { f with vert_indices := a }
  | .uvw, a => { f with uvw_indices := a }
  | .norm, a => { f with norm_indices := a }

/-- The store `arr[i] = v`; `none` when `arr` is null or `i` is beyond the array. -/
def storeInt (arr : IntArray) (i : Nat) (v : Int) : Option IntArray :=
  match arr with
  | none => none
  | some l => if i < l.length then some (some (l.set i (some v))) else none

/-- The stores made by one `sscanf` of integers whose pointer arguments are the cells `i` of
the arrays `targets`: one store for each value converted. -/
def storeArgs : List IdxField → List Int → Nat → obj_face_t → Option obj_face_t
  | fld :: flds, v :: vs, i, f =>
    match storeInt (f.indices fld) i v with
    | none => none
    | some a => storeArgs flds vs i (f.setIndices fld a)
  | _, _, _, f => some f

/-- One call `sscanf (pbuf, fmt, &pface->..[i], ...)`: the value returned and the face. -/
def sscanf_face (fmt : List Directive) (targets : List IdxField) (pbuf : List Char) (i : Nat)
    (f : obj_face_t) : Option (Nat × obj_face_t) :=
  match sscanf_d fmt pbuf with
  | none => none
  | some r => (storeArgs targets r i f).map (fun g => (r.length, g))

/-- The statement `arr[i]--`.  A cell never written keeps its indeterminate value; `none`
when `arr` is null, `i` is beyond the array, or the cell holds `INT_MIN`. -/
def decrAt (arr : IntArray) (i : Nat) : Option IntArray :=
  match arr with
  | none => none
  | some l =>
    match l[i]? with
    | none => none
    | some none => some (some l)
    | some (some v) => if INT_MIN < v then some (some (l.set i (some (v - 1)))) else none

/-- The statements `pbuf = strchr (pbuf, ' '); pbuf++;`: the string after the first space
of `pbuf`; `none` when there is no space (the null pointer is incremented and read). -/
def afterSpace : List Char → Option (List Char)
  | [] => none
  | c :: s => if c = ' ' then some s else afterSpace s

/-- The cascade of `sscanf` calls that reads one face entry at `pbuf` into the cells `i`. -/
def SecondPass_entry (pbuf : List Char) (i : Nat) (f : obj_face_t) : Option obj_face_t := do
  let r1 ← sscanf_face fmt_vtn [.vert, .uvw, .norm] pbuf i f
  if r1.1 ≠ 3 then
    let r2 ← sscanf_face fmt_vn [.vert, .norm] pbuf i r1.2
    if r2.1 ≠ 2 then
      let r3 ← sscanf_face fmt_vt [.vert, .uvw] pbuf i r2.2
      if r3.1 ≠ 2 then
        let r4 ← sscanf_face fmt_v [.vert] pbuf i r3.2
        some r4.2
      else some r3.2
    else some r2.2
  else some r1.2

/-- The three decrements that follow the cascade ("indices must start at 0"). -/
def SecondPass_decr (has_texCoords has_normals : Int) (i : Nat) (f : obj_face_t) :
    Option obj_face_t :=
  match decrAt f.vert_indices i with
  | none => none
  | some a =>
    match (if has_texCoords ≠ 0 then decrAt f.uvw_indices i else some f.uvw_indices) with
    | none => none
    | some b =>
      match (if has_normals ≠ 0 then decrAt f.norm_indices i else some f.norm_indices) with
      | none => none
      | some c => some { f with vert_indices := a, uvw_indices := b, norm_indices := c }

/-- The loop `for (i = 0; i < pface->num_elems; ++i)` of `SecondPass` with `n` iterations
left, `pbuf` pointing into the line. -/
def SecondPass_entries (has_texCoords has_normals : Int) :
    Nat → Nat → List Char → obj_face_t → Option obj_face_t
  | 0, _, _, f => some f
  | n + 1, i, pbuf, f =>
    match afterSpace pbuf with
    | none => none
    | some p =>
      match SecondPass_entry p i f with
      | none => none
      | some f1 =>
        match SecondPass_decr has_texCoords has_normals i f1 with
        | none => none
        | some f2 => SecondPass_entries has_texCoords has_normals n (i + 1) p f2

/-- The primitive type chosen for a face of `n >= 3` corners. -/
def faceType (n : Nat) : Nat :=
  if n = 3 then GL_TRIANGLES else if n = 4 then GL_QUADS else GL_POLYGON

/-- The `case 'f'` of `SecondPass` on the line `s` held by the buffer.  Every statement
`pface->... = ...` is a store into `faces[pface]`. -/
def SecondPass_face {F : Type} (s : List Char) (st : Pass2 F) : Option (Bool × Pass2 F) :=
  match st.mdl.faces with
  | none => none
  | some fs =>
    match fs[st.pface]? with
    | none => none
    | some f0 =>
      if s.count ' ' < 3 then
        some (false, { st with
          mdl := { st.mdl with
            faces := some (fs.set st.pface { f0 with num_elems := (s.count ' ' : Nat) }) },
          err := st.err ++ [Msg.faceTooSmall] })
      else
        let a1 := allocArray (none : Option Int) (s.count ' ' : Nat) st.heap
        let a2 := if st.mdl.has_texCoords ≠ 0 then allocArray (none : Option Int) (s.count ' ' : Nat) a1.2
          else (f0.uvw_indices, a1.2)
        let a3 := if st.mdl.has_normals ≠ 0 then allocArray (none : Option Int) (s.count ' ' : Nat) a2.2
          else (f0.norm_indices, a2.2)
        match SecondPass_entries st.mdl.has_texCoords st.mdl.has_normals (s.count ' ') 0 s
            ⟨faceType (s.count ' '), (s.count ' ' : Nat), a1.1, a2.1, a3.1⟩ with
        | none => none
        | some f =>
          some (true, { st with
            mdl := { st.mdl with faces := some (fs.set st.pface f) },
            pface := st.pface + 1, heap := a3.2 })

/-- The `switch (buf[0])` of `SecondPass`, on the line buffer as `fgets` left it. -/
def SecondPass_line {F : Type} (ops : FloatOps F) (buf : List Char) (st : Pass2 F) :
    Option (Bool × Pass2 F) := do
  let c0 ← buf[0]?
  if c0 = 'v' then
    let c1 ← buf[1]?
    if c1 = ' ' then
      let s ← cstrAt buf 2
      SecondPass_vertex ops s st
    else if c1 = 't' then
      let s ← cstrAt buf 2
      SecondPass_texCoord ops s st
    else if c1 = 'n' then
      let s ← cstrAt buf 2
      SecondPass_normal ops s st
    else
      some (true, st)
  else if c0 = 'f' then
    let s ← cstrAt buf 0
    SecondPass_face s st
  else
    some (true, st)

/-- The `while (!feof (fp))` loop of `SecondPass`, over the results of its `fgets` calls;
the value returned is 0 when a line made the function return, 1 at the end of the file. -/
def SecondPass_loop {F : Type} (ops : FloatOps F) :
    List (Option (List Char)) → List Char → Pass2 F → Option (Int × Pass2 F)
  | [], _, st => some (1, st)
  | r :: rs, buf, st =>
    match SecondPass_line ops (fgets_store r buf) st with
    | none => none
    | some (false, st1) => some (0, st1)
    | some (true, st1) => SecondPass_loop ops rs (fgets_store r buf) st1

/-- The function `SecondPass (fp, mdl)` on a stream rewound to the start of `file`: the
value returned and the final state, whose cursors are the four numbers the function prints
as "second pass results".  The line buffer `buf[128]` starts with nothing written. -/
def SecondPass {F : Type} (ops : FloatOps F) (file : List Char) (mdl : obj_model_t F)
    (heap : List Bool) : Option (Int × Pass2 F) :=
  SecondPass_loop ops (reads 128 file) [] ⟨mdl, 0, 0, 0, 0, heap, []⟩

/-! ## `ReadOBJModel` -/

/-- What a call of `ReadOBJModel` leaves behind: the value returned, the model, the lines
written to `stderr` and, when `SecondPass` ran to its end, the numbers of vertices, texture
coordinates, normals and faces it reports having read. -/
structure Loaded (F : Type) where
  ret : Int
  mdl : obj_model_t F
  err : List Msg
  read : Option (Nat × Nat × Nat × Nat)
  deriving DecidableEq, Repr

/-- The function `ReadOBJModel (filename, mdl)`.  The file system `fs` gives the content of
the files that `fopen` can open. -/
def ReadOBJModel {F : Type} (ops : FloatOps F) (fs : String → Option (List Char))
    (heap : List Bool) (filename : String) (mdl : obj_model_t F) : Option (Loaded F) :=
  match fs filename with
  | none => some ⟨0, mdl, [Msg.cannotOpen filename], none⟩
  | some file =>
    match FirstPass file (zeroModel F) with
    | none => none
    | some (r1, m1, e1) =>
      if r1 = 0 then some ⟨0, m1, e1, none⟩
      else
        if (MallocModel m1 heap).1 = 0 then
          (FreeModel (MallocModel m1 heap).2.1).map (fun m => ⟨0, m, e1, none⟩)
        else
          match SecondPass ops file (MallocModel m1 heap).2.1 (MallocModel m1 heap).2.2 with
          | none => none
          | some (r3, st) =>
            if r3 = 0 then (FreeModel st.mdl).map (fun m => ⟨0, m, e1 ++ st.err, none⟩)
            else some ⟨1, st.mdl, e1 ++ st.err, some (st.pvert, st.puvw, st.pnorm, st.pface)⟩

/-! ## `RenderOBJModel` -/

/-- The calls `RenderOBJModel` makes to the drawing interface; a float argument that was
read from a component never written is `none`. -/
inductive GLCall (F : Type) where
  | glBegin : Nat → GLCall F
  | glTexCoord4f : Option F → Option F → Option F → Option F → GLCall F
  | glNormal3fv : Option F → Option F → Option F → GLCall F
  | glVertex4f : Option F → Option F → Option F → Option F → GLCall F
  | glEnd : GLCall F
  deriving DecidableEq, Repr

/-- The read `arr[idx[j]]` of the element whose index is held by cell `j` of the index array
`idx`; `none` when a pointer is null, a subscript is out of bounds or the index was never
written. -/
def fetch {α : Type} (arr : Option (List α)) (idx : IntArray) (j : Nat) : Option α :=
  match idx with
  | none => none
  | some l =>
    match l[j]? with
    | some (some k) =>
      if 0 ≤ k then
        match arr with
        | none => none
        | some a => a[k.toNat]?
      else none
    | _ => none

/-- The component `v[k]` of a vector. -/
def comp {F : Type} (v : Vec F) (k : Nat) : Option F :=
  (v[k]?).join

/-- The body of the inner loop of `RenderOBJModel` for corner `j` of face `f`. -/
def RenderOBJModel_corner {F : Type} (ops : FloatOps F) (mdl : obj_model_t F) (f : obj_face_t)
    (j : Nat) : Option (List (GLCall F)) :=
  match (if mdl.has_texCoords ≠ 0 then
      (fetch mdl.texCoords f.uvw_indices j).map
        (fun v => [GLCall.glTexCoord4f (comp v 0) (comp v 1) (comp v 2) (some ops.one)])
    else some []) with
  | none => none
  | some c1 =>
    match (if mdl.has_normals ≠ 0 then
        (fetch mdl.normals f.norm_indices j).map
          (fun v => [GLCall.glNormal3fv (comp v 0) (comp v 1) (comp v 2)])
      else some []) with
    | none => none
    | some c2 =>
      match fetch mdl.vertices f.vert_indices j with
      | none => none
      | some v =>
        some (c1 ++ c2 ++ [GLCall.glVertex4f (comp v 0) (comp v 1) (comp v 2) (comp v 3)])

/-- The inner loop `for (j = 0; j < mdl->faces[i].num_elems; ++j)` with `n` iterations
left. -/
def RenderOBJModel_corners {F : Type} (ops : FloatOps F) (mdl : obj_model_t F) (f : obj_face_t) :
    Nat → Nat → Option (List (GLCall F))
  | 0, _ => some []
  | n + 1, j =>
    match RenderOBJModel_corner ops mdl f j with
    | none => none
    | some c => (RenderOBJModel_corners ops mdl f n (j + 1)).map (fun cs => c ++ cs)

/-- The outer loop `for (i = 0; i < mdl->num_faces; ++i)` with `n` iterations left. -/
def RenderOBJModel_faces {F : Type} (ops : FloatOps F) (mdl : obj_model_t F) :
    Nat → Nat → Option (List (GLCall F))
  | 0, _ => some []
  | n + 1, i =>
    match mdl.faces with
    | none => none
    | some fs =>
      match fs[i]? with
      | none => none
      | some f =>
        match RenderOBJModel_corners ops mdl f f.num_elems.toNat 0 with
        | none => none
        | some cs =>
          (RenderOBJModel_faces ops mdl n (i + 1)).map
            (fun r => GLCall.glBegin f.type :: cs ++ GLCall.glEnd :: r)

/-- The function `RenderOBJModel (mdl)`: the calls it makes, in order; `none` when it reads
outside an array or through a null pointer. -/
def RenderOBJModel {F : Type} (ops : FloatOps F) (mdl : obj_model_t F) :
    Option (List (GLCall F)) :=
  RenderOBJModel_faces ops mdl mdl.num_faces.toNat 0

/-- The concatenation of call sequences, defined when each of them is. -/
def collect {α : Type} : List (Option (List α)) → Option (List α)
  | [] => some []
  | none :: _ => none
  | some a :: r => (collect r).map (fun l => a ++ l)

/-- Follows the spec's words: the calls for one corner in stored order are an optional
texcoord emission, an optional normal emission, then the vertex position emission. -/
def cornerCalls {F : Type} (ops : FloatOps F) (mdl : obj_model_t F) (f : obj_face_t) (j : Nat) :
    Option (List (GLCall F)) :=
  match (if mdl.has_texCoords ≠ 0 then (fetch mdl.texCoords f.uvw_indices j).map some
      else some none),
    (if mdl.has_normals ≠ 0 then (fetch mdl.normals f.norm_indices j).map some else some none),
    fetch mdl.vertices f.vert_indices j with
  | some t, some n, some v =>
    some ((t.map (fun u => GLCall.glTexCoord4f (comp u 0) (comp u 1) (comp u 2)
        (some ops.one))).toList ++
      (n.map (fun u => GLCall.glNormal3fv (comp u 0) (comp u 1) (comp u 2))).toList ++
      [GLCall.glVertex4f (comp v 0) (comp v 1) (comp v 2) (comp v 3)])
  | _, _, _ => none

/-- Follows the spec's words: per face, one begin-primitive/end-primitive bracket containing
the calls of its corners `0 .. num_elems - 1`. -/
def faceCalls {F : Type} (ops : FloatOps F) (mdl : obj_model_t F) (i : Nat) :
    Option (List (GLCall F)) :=
  match mdl.faces with
  | none => none
  | some fs =>
    match fs[i]? with
    | none => none
    | some f =>
      (collect ((List.range f.num_elems.toNat).map (cornerCalls ops mdl f))).map
        (fun cs => GLCall.glBegin f.type :: cs ++ [GLCall.glEnd])

/-- Follows the spec's words: the brackets of the faces `0 .. num_faces - 1`, in order, and
nothing else. -/
def drawCalls {F : Type} (ops : FloatOps F) (mdl : obj_model_t F) : Option (List (GLCall F)) :=
  collect ((List.range mdl.num_faces.toNat).map (faceCalls ops mdl))

/-! ## Concrete inputs -/

/-- A `%f` conversion for inputs whose numbers are written as integers (no fraction, no
exponent): on such inputs it reads the characters `%f` reads; values are integers. -/
def intOps : FloatOps Int := ⟨scan_d, 0, 1⟩

/-- A file system that holds the single file `model.obj`. -/
def oneFile (content : List Char) : String → Option (List Char) :=
  fun name => if name = "model.obj" then some content else none

/-- A line of 255 characters `#` followed, without a newline, by a vertex line. -/
def longCommentFile : List Char :=
  List.replicate 255 '#' ++ "v 1 2 3".toList

/-- A vertex line, then a line of 255 characters `#` followed by a face line. -/
def hiddenFaceFile : List Char :=
  "v 1 2 3\n".toList ++ List.replicate 255 '#' ++ "f 1 1 1".toList

/-- A vertex line, then a face line of 70 entries `1` (141 characters). -/
def longFaceFile : List Char :=
  "v 1 2 3\nf".toList ++ (List.replicate 70 " 1".toList).flatten

/-! ## Face lines as text -/

/-- The value of a string of decimal digits. -/
def decimalValue (ds : List Char) : Nat :=
  ds.foldl (fun a c => 10 * a + (c.toNat - 48)) 0

/-- A face entry as it is written in the file: the digits of its vertex index, of its
texture-coordinate index and of its normal index (the last two are ignored by the forms
that do not show them). -/
structure EntryText where
  v : List Char
  t : List Char
  n : List Char

/-- A written index: a non-empty string of decimal digits whose value fits an `int`. -/
def IsIndex (ds : List Char) : Prop :=
  ds ≠ [] ∧ (∀ c ∈ ds, isdigit c = true) ∧ (decimalValue ds : Int) ≤ INT_MAX

instance (ds : List Char) : Decidable (IsIndex ds) :=
  inferInstanceAs (Decidable (ds ≠ [] ∧ (∀ c ∈ ds, isdigit c = true) ∧
    (decimalValue ds : Int) ≤ INT_MAX))

/-- The text of an entry in the form that matches the presence flags: `v/t/n` when both are
set, `v/t` for texture coordinates only, `v//n` for normals only, `v` for neither. -/
def entryText (has_texCoords has_normals : Int) (e : EntryText) : List Char :=
  if has_texCoords ≠ 0 then
    (if has_normals ≠ 0 then e.v ++ '/' :: (e.t ++ '/' :: e.n) else e.v ++ '/' :: e.t)
  else
    (if has_normals ≠ 0 then e.v ++ '/' :: '/' :: e.n else e.v)

/-- The entries of a face line, each preceded by exactly one space. -/
def entriesText (has_texCoords has_normals : Int) (es : List EntryText) : List Char :=
  (es.map (fun e => ' ' :: entryText has_texCoords has_normals e)).flatten

/-- The face line `f e1 e2 ... ek`, without its newline. -/
def faceLineText (has_texCoords has_normals : Int) (es : List EntryText) : List Char :=
  'f' :: entriesText has_texCoords has_normals es

/-- The indices that the form of an entry shows are written indices. -/
def EntryOK (has_texCoords has_normals : Int) (e : EntryText) : Prop :=
  IsIndex e.v ∧ (has_texCoords ≠ 0 → IsIndex e.t) ∧ (has_normals ≠ 0 → IsIndex e.n)

instance (has_texCoords has_normals : Int) (e : EntryText) :
    Decidable (EntryOK has_texCoords has_normals e) :=
  inferInstanceAs (Decidable (IsIndex e.v ∧ (has_texCoords ≠ 0 → IsIndex e.t) ∧
    (has_normals ≠ 0 → IsIndex e.n)))

/-- The allocator grants its next `k` requests. -/
def Grants (k : Nat) (heap : List Bool) : Prop :=
  ∀ b ∈ heap.take k, b = true

instance (k : Nat) (heap : List Bool) : Decidable (Grants k heap) :=
  inferInstanceAs (Decidable (∀ b ∈ heap.take k, b = true))

/-- What may follow an entry: the end of the string or a character that is neither a digit
nor a slash. -/
def EntryEnd (s : List Char) : Prop :=
  ∀ c ∈ s.head?, isdigit c = false ∧ c ≠ '/'

/-- The array `a` with cell `i` set to `x`. -/
def setIdx (a : IntArray) (i : Nat) (x : Int) : IntArray :=
  a.map (fun l => l.set i (some x))

/-- The array `a` is allocated and has a cell `i`. -/
def Cell (a : IntArray) (i : Nat) : Prop :=
  ∃ l, a = some l ∧ i < l.length

/-- The array `a` is allocated and has at least `n` cells. -/
def Arr (a : IntArray) (n : Nat) : Prop :=
  ∃ l, a = some l ∧ n ≤ l.length

/-- The face after the entries `es` have been read into the cells `i`, `i + 1`, ... and
decremented. -/
def writeEntries (has_texCoords has_normals : Int) : Nat → List EntryText → obj_face_t → obj_face_t
  | _, [], f => f
  | i, e :: es, f =>
    writeEntries has_texCoords has_normals (i + 1) es
      { f with
        vert_indices := setIdx f.vert_indices i ((decimalValue e.v : Int) - 1),
        uvw_indices := if has_texCoords ≠ 0 then
            setIdx f.uvw_indices i ((decimalValue e.t : Int) - 1)
          else f.uvw_indices,
        norm_indices := if has_normals ≠ 0 then
            setIdx f.norm_indices i ((decimalValue e.n : Int) - 1)
          else f.norm_indices }

/-- The entries of the face line `f 1 2 3`. -/
def triEntries : List EntryText :=
  [⟨['1'], [], []⟩, ⟨['2'], [], []⟩, ⟨['3'], [], []⟩]

/-- A state of `SecondPass` about to read the only face of a model of three vertices that
has neither texture coordinates nor normals. -/
def triState : Pass2 Int :=
  ⟨{ zeroModel Int with num_verts := 3, num_faces := 1, faces := some [zeroFace] },
    3, 0, 0, 0, [], []⟩

/-! ## Lines of a file -/

/-- The first line of a text, its newline included, and what follows it. -/
def takeLine : List Char → List Char × List Char
  | [] => ([], [])
  | c :: s => if c = '\n' then ([c], s) else (c :: (takeLine s).1, (takeLine s).2)

/-- The lines of a file, each with its newline; the last line may have none. -/
def lines : List Char → List (List Char)
  | [] => []
  | c :: s =>
    if c = '\n' then [c] :: lines s
    else
      match lines s with
      | [] => [[c]]
      | l :: ls => (c :: l) :: ls

/-- Every line of the file, its newline included, has at most `n` characters. -/
def LinesFit (n : Nat) (file : List Char) : Prop :=
  ∀ l ∈ lines file, l.length ≤ n

instance (n : Nat) (file : List Char) : Decidable (LinesFit n file) :=
  inferInstanceAs (Decidable (∀ l ∈ lines file, l.length ≤ n))

/-- The `fgets` result that ends the loop after the lines have been read: a failed `fgets`
(`[none]`) when the file is empty, ends with a newline, or its last line fills the buffer
of `size` bytes exactly; nothing otherwise. -/
def lastRead (size : Nat) (file : List Char) : List (Option (List Char)) :=
  match (lines file).getLast? with
  | none => [none]
  | some l => if l.getLast? = some '\n' ∨ l.length = size - 1 then [none] else []

/-- How the two passes classify a line buffer by its first two bytes. -/
inductive LineKind where
  | vertex : LineKind
  | texCoord : LineKind
  | normal : LineKind
  | face : LineKind
  | other : LineKind
  deriving DecidableEq, Repr

/-- The branch of `switch (buf[0])` (and of the tests on `buf[1]`) that a buffer takes. -/
def lineKind (buf : List Char) : LineKind :=
  match buf[0]? with
  | none => .other
  | some c0 =>
    if c0 = 'v' then
      match buf[1]? with
      | none => .other
      | some c1 =>
        if c1 = ' ' then .vertex
        else if c1 = 't' then .texCoord
        else if c1 = 'n' then .normal
        else .other
    else if c0 = 'f' then .face
    else .other

/-- The number of elements of a heap array (0 for the null pointer). -/
def arrLen {α : Type} (a : Option (List α)) : Nat :=
  match a with
  | none => 0
  | some l => l.length

/-- The line buffer after the successive `fgets` results `rs`. -/
def bufAfter (rs : List (Option (List Char))) (buf : List Char) : List Char :=
  rs.foldl (fun b r => fgets_store r b) buf

/-- Two faces have the same type, the same `num_elems` and index arrays of the same sizes
(null or not alike). -/
def SameShape (f f1 : obj_face_t) : Prop :=
  f1.type = f.type ∧ f1.num_elems = f.num_elems ∧
  f1.vert_indices.map List.length = f.vert_indices.map List.length ∧
  f1.uvw_indices.map List.length = f.uvw_indices.map List.length ∧
  f1.norm_indices.map List.length = f.norm_indices.map List.length

/-- The shape of a face `f` that `SecondPass` has written over the face `f0`: at least three
corners, the primitive type of its number of corners, a vertex index array of that size, and
texture and normal index arrays of that size when the flag is set, untouched otherwise. -/
def FaceShape (has_texCoords has_normals : Int) (f0 f : obj_face_t) : Prop :=
  ∃ n : Nat, 3 ≤ n ∧ f.num_elems = (n : Int) ∧ f.type = faceType n ∧
    f.vert_indices.map List.length = some n ∧
    (if has_texCoords ≠ 0 then f.uvw_indices.map List.length = some n
      else f.uvw_indices.map List.length = f0.uvw_indices.map List.length) ∧
    (if has_normals ≠ 0 then f.norm_indices.map List.length = some n
      else f.norm_indices.map List.length = f0.norm_indices.map List.length)

/-- The model fields that `SecondPass` never assigns are equal in two models. -/
def SameCounts {F : Type} (m m1 : obj_model_t F) : Prop :=
  m1.num_verts = m.num_verts ∧ m1.num_texCoords = m.num_texCoords ∧
  m1.num_normals = m.num_normals ∧ m1.num_faces = m.num_faces ∧
  m1.has_texCoords = m.has_texCoords ∧ m1.has_normals = m.has_normals

/-- The four arrays of two models have the same numbers of elements. -/
def SameSizes {F : Type} (m m1 : obj_model_t F) : Prop :=
  arrLen m1.vertices = arrLen m.vertices ∧ arrLen m1.texCoords = arrLen m.texCoords ∧
  arrLen m1.normals = arrLen m.normals ∧ arrLen m1.faces = arrLen m.faces

/-- What a successful `MallocModel` leaves in a model `m` whose pointers were null: the
counts and flags of `m`, arrays of the counted sizes, and zeroed faces. -/
def Allocated {F : Type} (m m2 : obj_model_t F) : Prop :=
  SameCounts m m2 ∧
  arrLen m2.vertices = m.num_verts.toNat ∧ arrLen m2.texCoords = m.num_texCoords.toNat ∧
  arrLen m2.normals = m.num_normals.toNat ∧ arrLen m2.faces = m.num_faces.toNat ∧
  (∀ fs, m2.faces = some fs → ∀ f ∈ fs, f = zeroFace)

/-- Every line buffer that the loop of a pass sees over the `fgets` results `rs`, starting
from the buffer `buf`, satisfies `Q`. -/
def AllBufs (Q : List Char → Prop) : List (Option (List Char)) → List Char → Prop
  | [], _ => True
  | r :: rs, buf => Q (fgets_store r buf) ∧ AllBufs Q rs (fgets_store r buf)

/-- The faces before the cursor `pface` satisfy `P`; the faces from the cursor on are as
`calloc` left them. -/
def FacesDone {F : Type} (P : obj_face_t → Prop) (st : Pass2 F) : Prop :=
  ∀ fs, st.mdl.faces = some fs →
    (∀ i f, i < st.pface → fs[i]? = some f → P f) ∧
    (∀ i f, st.pface ≤ i → fs[i]? = some f → f = zeroFace)

/-- The entry `e` is written in the form that matches the flags of the model `m`, and each
index it shows lies between 1 and the count of the elements it refers to. -/
def EntryInRange {F : Type} (m : obj_model_t F) (e : EntryText) : Prop :=
  EntryOK m.has_texCoords m.has_normals e ∧
  1 ≤ decimalValue e.v ∧ (decimalValue e.v : Int) ≤ m.num_verts ∧
  (m.has_texCoords ≠ 0 → 1 ≤ decimalValue e.t ∧ (decimalValue e.t : Int) ≤ m.num_texCoords) ∧
  (m.has_normals ≠ 0 → 1 ≤ decimalValue e.n ∧ (decimalValue e.n : Int) ≤ m.num_normals)

instance {F : Type} (m : obj_model_t F) (e : EntryText) : Decidable (EntryInRange m e) :=
  inferInstanceAs (Decidable (EntryOK m.has_texCoords m.has_normals e ∧
    1 ≤ decimalValue e.v ∧ (decimalValue e.v : Int) ≤ m.num_verts ∧
    (m.has_texCoords ≠ 0 →
      1 ≤ decimalValue e.t ∧ (decimalValue e.t : Int) ≤ m.num_texCoords) ∧
    (m.has_normals ≠ 0 → 1 ≤ decimalValue e.n ∧ (decimalValue e.n : Int) ≤ m.num_normals)))

/-- Cell `j` of the index array `a` holds a written index `k` with `0 <= k < count`. -/
def IndexInRange (a : IntArray) (j : Nat) (count : Int) : Prop :=
  ∃ k : Int, a.bind (fun l => l[j]?) = some (some k) ∧ 0 ≤ k ∧ k < count

/-- Every stored index of the face `f` is in range for the model `m`. -/
def IndicesInRange {F : Type} (m : obj_model_t F) (f : obj_face_t) : Prop :=
  ∀ j : Nat, (j : Int) < f.num_elems →
    IndexInRange f.vert_indices j m.num_verts ∧
    (m.has_texCoords ≠ 0 → IndexInRange f.uvw_indices j m.num_texCoords) ∧
    (m.has_normals ≠ 0 → IndexInRange f.norm_indices j m.num_normals)

/-- A line of the file that is a face line `f e1 ... ek` (one space before each entry, an
optional newline after the last) whose entries are in range for the model `m`. -/
def FaceLineInRange {F : Type} (m : obj_model_t F) (l : List Char) : Prop :=
  ∃ es tail, l = faceLineText m.has_texCoords m.has_normals es ++ tail ∧
    (tail = [] ∨ tail = ['\n']) ∧ ∀ e ∈ es, EntryInRange m e

/-- A line buffer that is still unwritten or holds a line of the file. -/
def HoldsLine (file : List Char) (buf : List Char) : Prop :=
  buf = [] ∨ ∃ l rest, l ∈ lines file ∧ buf = l ++ NUL :: rest

/-! ## More concrete inputs -/

/-- A file of one vertex, one texture coordinate, one normal and one triangle (no newline
after the face line). -/
def texturedFile : List Char :=
  "v 0 0 0\nvt 0 0\nvn 0 0 1\nf 1/1/1 1/1/1 1/1/1".toList

/-- What `ReadOBJModel` leaves after loading `texturedFile`. -/
def texturedLoaded : Loaded Int :=
  ⟨1,
    { num_verts := 1, num_texCoords := 1, num_normals := 1, num_faces := 1,
      has_texCoords := 1, has_normals := 1,
      vertices := some [[some 0, some 0, some 0, some 1]],
      texCoords := some [[some 0, some 0, some 0]],
      normals := some [[some 0, some 0, some 1]],
      faces := some [⟨GL_TRIANGLES, 3, some [some 0, some 0, some 0],
        some [some 0, some 0, some 0], some [some 0, some 0, some 0]⟩] },
    [], some (1, 1, 1, 1)⟩

/-- The entries of the face line of `texturedFile`. -/
def texturedEntries : List EntryText :=
  [⟨['1'], ['1'], ['1']⟩, ⟨['1'], ['1'], ['1']⟩, ⟨['1'], ['1'], ['1']⟩]

/-- A file of one vertex and a triangle that refers to the vertices 5, 6 and 7. -/
def danglingFile : List Char :=
  "v 0 0 0\nf 5 6 7".toList

/-- What `ReadOBJModel` leaves after loading `danglingFile`. -/
def danglingLoaded : Loaded Int :=
  ⟨1,
    { zeroModel Int with
      num_verts := 1, num_faces := 1,
      vertices := some [[some 0, some 0, some 0, some 1]],
      faces := some [⟨GL_TRIANGLES, 3, some [some 4, some 5, some 6], none, none⟩] },
    [], some (1, 0, 0, 1)⟩

/-- What `ReadOBJModel` leaves after loading `longCommentFile`: one vertex counted, none
written. -/
def longCommentLoaded : Loaded Int :=
  ⟨1, { zeroModel Int with num_verts := 1, vertices := some [[none, none, none, none]] },
    [], some (0, 0, 0, 0)⟩

/-- What `ReadOBJModel` leaves after loading `hiddenFaceFile`: one face counted, none
written. -/
def hiddenFaceLoaded : Loaded Int :=
  ⟨1,
    { zeroModel Int with
      num_verts := 1, num_faces := 1,
      vertices := some [[some 1, some 2, some 3, some 1]],
      faces := some [zeroFace] },
    [], some (1, 0, 0, 0)⟩

/-- A file of one vertex and the face line `f 1 2 ` (two entries and a trailing space). -/
def trailingSpaceFile : List Char :=
  "v 0 0 0\nf 1 2 ".toList

/-- What `ReadOBJModel` leaves after loading `trailingSpaceFile`: a triangle whose third
index was never written. -/
def trailingSpaceLoaded : Loaded Int :=
  ⟨1,
    { zeroModel Int with
      num_verts := 1, num_faces := 1,
      vertices := some [[some 0, some 0, some 0, some 1]],
      faces := some [⟨GL_TRIANGLES, 3, some [some 0, some 1, none], none, none⟩] },
    [], some (1, 0, 0, 1)⟩

/-! ## The display glue (`init`, `showmodel_init`, `showmodel_update`) -/

/-- The names of the constants of `tinygl/gl.h` and `tinygl/zbuffer.h` that the glue passes
to the library.  The headers are not among the sources, so each name stands for itself. -/
inductive GLName where
  | GL_SMOOTH : GLName
  | GL_DEPTH_TEST : GLName
  | GL_LIGHTING : GLName
  | GL_LIGHT0 : GLName
  | GL_POSITION : GLName
  | GL_COLOR_BUFFER_BIT : GLName
  | GL_DEPTH_BUFFER_BIT : GLName
  | ZB_MODE_5R6G5B : GLName
  deriving DecidableEq, Repr

/-- The calls that the glue makes to the TinyGL library, with their arguments; a float
literal of the source is given by its value.  The calls of `RenderOBJModel` are the
constructor `draw`. -/
inductive GlueCall (F : Type) where
  /-- The call `ZB_open (w, h, mode, 0, NULL, NULL, cbuf)`. -/
  | ZB_open : Int → Int → GLName → Nat → GlueCall F
  /-- The call `glInit (frameBuffer)`. -/
  | glInit : GlueCall F
  | glClearColor : ℚ → ℚ → ℚ → ℚ → GlueCall F
  | glViewport : Int → Int → Int → Int → GlueCall F
  | glShadeModel : GLName → GlueCall F
  | glEnable : GLName → GlueCall F
  | glLightfv : GLName → GLName → List ℚ → GlueCall F
  /-- The call `glClear (a | b)`. -/
  | glClear : GLName → GLName → GlueCall F
  | glLoadIdentity : GlueCall F
  | glTranslatef : ℚ → ℚ → ℚ → GlueCall F
  | draw : GLCall F → GlueCall F

/-- The global variables of `objtest.c` (`objfile`, `frameBuffer`) and the calls made to the
library so far.  The frame buffer is known by the width, the height and the pixel buffer it
was opened with; `none` before `ZB_open`. -/
structure Globals (F : Type) where
  objfile : obj_model_t F
  frameBuffer : Option (Int × Int × Nat)
  calls : List (GlueCall F)

/-- The globals when the program starts: static storage is zero-initialised. -/
def startGlobals (F : Type) : Globals F := ⟨zeroModel F, none, []⟩

/-- The function `init (filename)`.  The statement that loads the model,
`if (!ReadOBJModel (filename, &objfile)) exit (EXIT_FAILURE);`, is commented out in the
source: `filename` is not used. -/
def init {F : Type} (_filename : String) (g : Globals F) : Globals F :=
  { g with calls := g.calls ++
      [GlueCall.glClearColor 0.5 0.5 0.5 1.0,
       GlueCall.glShadeModel GLName.GL_SMOOTH,
       GlueCall.glEnable GLName.GL_DEPTH_TEST,
       GlueCall.glEnable GLName.GL_LIGHTING,
       GlueCall.glEnable GLName.GL_LIGHT0,
       GlueCall.glLightfv GLName.GL_LIGHT0 GLName.GL_POSITION [5.0, 10.0, 0.0, 1.0]] }

/-- The function `showmodel_init (w, h, cbuf, filename)`; `cbuf` is the address of the pixel
buffer. -/
def showmodel_init {F : Type} (w h : Int) (cbuf : Nat) (filename : String) (g : Globals F) :
    Globals F :=
  init filename
    { g with
      frameBuffer := some (w, h, cbuf),
      calls := g.calls ++
        [GlueCall.ZB_open w h GLName.ZB_MODE_5R6G5B cbuf,
         GlueCall.glInit,
         GlueCall.glClearColor 0.0 0.0 0.0 0.0,
         GlueCall.glViewport 0 0 w h] }

/-- The function `showmodel_update ()`; `none` when `RenderOBJModel` reads outside an
array. -/
def showmodel_update {F : Type} (ops : FloatOps F) (g : Globals F) : Option (Globals F) :=
  (RenderOBJModel ops g.objfile).map (fun cs =>
    { g with calls := g.calls ++
        [GlueCall.glClear GLName.GL_COLOR_BUFFER_BIT GLName.GL_DEPTH_BUFFER_BIT,
         GlueCall.glLoadIdentity,
         GlueCall.glTranslatef 0.0 0.0 (-15.0)] ++ cs.map GlueCall.draw })

/-- The function `cleanup ()`. -/
def cleanup {F : Type} (g : Globals F) : Option (Globals F) :=
  (FreeModel g.objfile).map (fun m => { g with objfile := m })

/-- A call is one of the drawing calls of `RenderOBJModel` (begin, texcoord, normal, vertex,
end). -/
def GlueCall.isDraw {F : Type} : GlueCall F → Bool
  | .draw _ => true
  | _ => false

/-- A model with one counted face, as `FreeModel` finds it after a load. -/
def freedModel : obj_model_t Int :=
  { zeroModel Int with
    num_verts := 1, num_faces := 1,
    vertices := some [[some 0, some 0, some 0, some 1]],
    faces := some [⟨GL_TRIANGLES, 3, some [some 0, some 0, some 0], none, none⟩] }

/-- A file of one vertex and a face line with two entries. -/
def twoEntryFile : List Char :=
  "v 0 0 0\nf 1 2".toList

/-- What `ReadOBJModel` leaves after failing on `twoEntryFile` in `SecondPass`. -/
def twoEntryLoaded : Loaded Int :=
  ⟨0, { zeroModel Int with num_verts := 1, num_faces := 1 }, [Msg.faceTooSmall], none⟩

/-- What `ReadOBJModel` leaves after failing on the file `f 1 2 3` in `FirstPass`. -/
def noVertexLoaded : Loaded Int :=
  ⟨0, { zeroModel Int with num_faces := 1 }, [Msg.noVertex], none⟩

/-- What `ReadOBJModel` leaves after failing on the file `v 0 0 0`, `f 1 1 1` in
`MallocModel`, the second allocation being refused. -/
def refusedLoaded : Loaded Int :=
  ⟨0, { zeroModel Int with num_verts := 1, num_faces := 1 }, [], none⟩

/-! ## The form of a face line -/

/-- Follows the spec's words: the first of the patterns `v/t/n`, `v//n`, `v/t`, `v`, tried
in that order, that matches the first entry at `s`, given by the presence flags
`(has_texCoords, has_normals)` it stands for (both; normals only; texture coordinates only;
neither); `none` when no pattern matches. -/
def faceForm (s : List Char) : Option (Int × Int) :=
  if (sscanf_d fmt_vtn s).map List.length = some 3 then some (1, 1)
  else if (sscanf_d fmt_vn s).map List.length = some 2 then some (0, 1)
  else if (sscanf_d fmt_vt s).map List.length = some 2 then some (1, 0)
  else if (sscanf_d fmt_v s).map List.length = some 1 then some (0, 0)
  else none

/-- The form of the line held by the buffer of `FirstPass`: that of its first entry (the
string at `buf + 2`) when the line begins with `f`; `none` for any other line and for a face
line that matches no pattern. -/
def faceLineForm (buf : List Char) : Option (Int × Int) :=
  if lineKind buf = .face then (cstrAt buf 2).bind faceForm else none

/-- A file whose first face line has the form `v/t/n` and whose second has the form `v`. -/
def mixedFile : List Char :=
  "v 0 0 0\nvt 0 0\nvn 0 0 1\nf 1/1/1 1/1/1 1/1/1\nf 1 1 1".toList

/-- The model that `FirstPass` leaves for `mixedFile`. -/
def mixedCounted : obj_model_t Int :=
  { zeroModel Int with num_verts := 1, num_texCoords := 1, num_normals := 1, num_faces := 2 }

/-- The lines of `mixedFile` that precede its last line, as `fgets` returns them. -/
def mixedHead : List (Option (List Char)) :=
  [some "v 0 0 0\n".toList, some "vt 0 0\n".toList, some "vn 0 0 1\n".toList,
    some "f 1/1/1 1/1/1 1/1/1\n".toList]

/-- A file of one line without a newline: the vertex line `v 1 2 3` followed by 120 spaces,
127 characters in all, which fill the 128-byte buffer of `SecondPass` exactly. -/
def exactFitFile : List Char :=
  "v 1 2 3".toList ++ List.replicate 120 ' '

/-- The model after `FirstPass` and `MallocModel` on `exactFitFile`: one vertex counted, an
array of one vertex allocated. -/
def exactFitAllocated : obj_model_t Int :=
  { zeroModel Int with num_verts := 1, vertices := some [[none, none, none, none]] }

/-- The state of `SecondPass` on `exactFitFile` after its first `fgets`: the vertex is
written and the cursor `pvert` is at the end of the array. -/
def exactFitState : Pass2 Int :=
  ⟨{ exactFitAllocated with vertices := some [[some 1, some 2, some 3, some 1]] },
    1, 0, 0, 0, [], []⟩

/-- A file of one vertex and one triangle. -/
def plainFile : List Char :=
  "v 0 0 0\nf 1 1 1".toList

/-- What `ReadOBJModel` leaves after loading `plainFile`. -/
def plainLoaded : Loaded Int :=
  ⟨1,
    { zeroModel Int with
      num_verts := 1, num_faces := 1,
      vertices := some [[some 0, some 0, some 0, some 1]],
      faces := some [⟨GL_TRIANGLES, 3, some [some 0, some 0, some 0], none, none⟩] },
    [], some (1, 0, 0, 1)⟩

/-- A line (without its newline) of 255 characters `#` followed by `v 9 9 9`: its first
character is `#`, and it is longer than the buffers of both passes. -/
def longLine : List Char :=
  List.replicate 255 '#' ++ "v 9 9 9".toList

/-- What `ReadOBJModel` leaves after loading `plainFile` preceded by the line `longLine`:
two vertices counted, one written. -/
def longLineLoaded : Loaded Int :=
  ⟨1,
    { zeroModel Int with
      num_verts := 2, num_faces := 1,
      vertices := some [[some 0, some 0, some 0, some 1], [none, none, none, none]],
      faces := some [⟨GL_TRIANGLES, 3, some [some 0, some 0, some 0], none, none⟩] },
    [], some (1, 0, 0, 1)⟩

/-! ## Vertex, texture-coordinate and normal lines -/

/-- The vector `cell` after the values `xs` have been stored into its components `k`,
`k + 1`, ... -/
def setFrom {F : Type} : Nat → List F → Vec F → Vec F
  | _, [], cell => cell
  | k, x :: xs, cell => setFrom (k + 1) xs (cell.set k (some x))

/-- A state of `SecondPass` about to read the only vertex of a model. -/
def vertState : Pass2 Int :=
  ⟨{ zeroModel Int with num_verts := 1, vertices := some [[none, none, none, none]] },
    0, 0, 0, 0, [], []⟩

/-- A state of `SecondPass` about to read the only texture coordinate of a model. -/
def texState : Pass2 Int :=
  ⟨{ zeroModel Int with num_texCoords := 1, texCoords := some [[none, none, none]] },
    0, 0, 0, 0, [], []⟩

/-- A state of `SecondPass` about to read the only normal of a model. -/
def normState : Pass2 Int :=
  ⟨{ zeroModel Int with num_normals := 1, normals := some [[none, none, none]] },
    0, 0, 0, 0, [], []⟩

/-- What `ReadOBJModel` leaves after failing on the one-line file `v 1 2`. -/
def shortVertexLoaded : Loaded Int :=
  ⟨0, { zeroModel Int with num_verts := 1 }, [Msg.vertexData], none⟩

/-- What `ReadOBJModel` leaves after failing on the file `v 0 0 0`, `vt`. -/
def noTexCoordLoaded : Loaded Int :=
  ⟨0, { zeroModel Int with num_verts := 1, num_texCoords := 1 }, [Msg.texCoordData], none⟩

/-- What `ReadOBJModel` leaves after failing on the file `v 0 0 0`, `vn 1 2`. -/
def shortNormalLoaded : Loaded Int :=
  ⟨0, { zeroModel Int with num_verts := 1, num_normals := 1 }, [Msg.normalData], none⟩

/-- A file whose normal line carries four numbers. -/
def fourNormalFile : List Char :=
  "v 0 0 0\nvn 0 0 1 5\nf 1//1 1//1 1//1".toList

/-- What `ReadOBJModel` leaves after loading `fourNormalFile`. -/
def fourNormalLoaded : Loaded Int :=
  ⟨1,
    { zeroModel Int with
      num_verts := 1, num_normals := 1, num_faces := 1, has_normals := 1,
      vertices := some [[some 0, some 0, some 0, some 1]],
      normals := some [[some 0, some 0, some 1]],
      faces := some [⟨GL_TRIANGLES, 3, some [some 0, some 0, some 0], none,
        some [some 0, some 0, some 0]⟩] },
    [], some (1, 0, 1, 1)⟩

/-! ## Lines read whole -/

/-- The string at `buf + 2` when the line buffer holds the line `l`: the characters of `l`
from the third on (up to a NUL character, should the line hold one). -/
def lineArg (l : List Char) : List Char :=
  (l.drop 2).takeWhile (fun c => c ≠ NUL)

/-- The last line of the file ends with a newline or has fewer than `n` characters. -/
def LastLineShort (n : Nat) (file : List Char) : Prop :=
  ∀ l, (lines file).getLast? = some l → l.getLast? = some '\n' ∨ l.length < n

instance (n : Nat) (file : List Char) : Decidable (LastLineShort n file) :=
  inferInstanceAs (Decidable (∀ l, (lines file).getLast? = some l →
    l.getLast? = some '\n' ∨ l.length < n))

/-- The file is not empty and every line of it, its newline included, has at most `n`
characters: `fgets` with a buffer of `n + 1` bytes reads each line whole, and the buffer is
written before the first line is examined. -/
def WholeLines (n : Nat) (file : List Char) : Prop :=
  file ≠ [] ∧ LinesFit n file

instance (n : Nat) (file : List Char) : Decidable (WholeLines n file) :=
  inferInstanceAs (Decidable (file ≠ [] ∧ LinesFit n file))

/-- Follows the spec's words: the form of a line of the file, given by the presence flags
of the pattern that its first entry matches when the line begins with `f`; `none` for any
other line and for a face line whose first entry matches no pattern. -/
def lineForm (l : List Char) : Option (Int × Int) :=
  if l.head? = some 'f' then faceForm (lineArg l) else none

/-- Every line of the file that begins with `f` has a first entry that matches one of the
patterns `v/t/n`, `v//n`, `v/t`, `v` (it begins with an integer): `FirstPass` counts it. -/
def FaceLinesCounted (file : List Char) : Prop :=
  ∀ l ∈ lines file, l.head? = some 'f' → lineForm l ≠ none

instance (file : List Char) : Decidable (FaceLinesCounted file) :=
  inferInstanceAs (Decidable (∀ l ∈ lines file, l.head? = some 'f' → lineForm l ≠ none))

/-- A vertex line of 130 characters: `v 1 2`, 119 more spaces, then `12345`. -/
def longVertexLine : List Char :=
  "v 1 2 ".toList ++ List.replicate 119 ' ' ++ "12345".toList

/-- A texture-coordinate line of 128 characters: `vt 5`, 121 more spaces, then `25`. -/
def longTexLine : List Char :=
  "vt 5 ".toList ++ List.replicate 121 ' ' ++ "25".toList

/-- A normal line of 128 characters: `vn 0 0`, 120 more spaces, then `1`. -/
def longNormalLine : List Char :=
  "vn 0 0 ".toList ++ List.replicate 120 ' ' ++ "1".toList

/-- What `ReadOBJModel` leaves after loading the one-line file `longVertexLine`. -/
def longVertexLoaded : Loaded Int :=
  ⟨1,
    { zeroModel Int with
      num_verts := 1,
      vertices := some [[some 1, some 2, some 12, some 1]] },
    [], some (1, 0, 0, 0)⟩

/-- What `ReadOBJModel` leaves after loading the file `v 0 0 0`, `longTexLine`. -/
def longTexLoaded : Loaded Int :=
  ⟨1,
    { zeroModel Int with
      num_verts := 1, num_texCoords := 1,
      vertices := some [[some 0, some 0, some 0, some 1]],
      texCoords := some [[some 5, some 2, some 0]] },
    [], some (1, 1, 0, 0)⟩

/-- A file whose only line that begins with `f` has the form `v`; its last line is 255
characters `#` followed by `f 1/1/1 1/1/1 1/1/1`. -/
def pseudoFaceFile : List Char :=
  "v 0 0 0\nvt 0 0\nvn 0 0 1\nf 1 1 1\n".toList ++ List.replicate 255 '#' ++
    "f 1/1/1 1/1/1 1/1/1".toList

/-- The model that `FirstPass` leaves for `pseudoFaceFile`. -/
def pseudoCounted : obj_model_t Int :=
  { zeroModel Int with
    num_verts := 1, num_texCoords := 1, num_normals := 1, num_faces := 2,
    has_texCoords := 1, has_normals := 1 }

/-- The model that `FirstPass` leaves for the file `v 0 0 0`, `f`. -/
def bareCounted : obj_model_t Int :=
  { zeroModel Int with
    num_verts := 1, num_faces := 1 }

/-! ## Theorems -/

/-! ### `RenderOBJModel` -/

theorem RenderOBJModel_corner_eq {F : Type} (ops : FloatOps F) (mdl : obj_model_t F)
    (f : obj_face_t) (j : Nat) :
    RenderOBJModel_corner ops mdl f j = cornerCalls ops mdl f j := by
  unfold RenderOBJModel_corner cornerCalls
  split_ifs <;>
    cases fetch mdl.texCoords f.uvw_indices j <;>
    cases fetch mdl.normals f.norm_indices j <;>
    cases fetch mdl.vertices f.vert_indices j <;> rfl

theorem RenderOBJModel_corners_eq {F : Type} (ops : FloatOps F) (mdl : obj_model_t F)
    (f : obj_face_t) :
    ∀ (n j : Nat), RenderOBJModel_corners ops mdl f n j =
      collect ((List.range' j n).map (cornerCalls ops mdl f)) := by
  intro n
  induction n with
  | zero => intro j; rfl
  | succ n ih =>
    intro j
    rw [RenderOBJModel_corners, RenderOBJModel_corner_eq, ih (j + 1), List.range'_succ,
      List.map_cons]
    cases cornerCalls ops mdl f j <;> rfl

theorem RenderOBJModel_faces_succ {F : Type} (ops : FloatOps F) (mdl : obj_model_t F)
    (n i : Nat) :
    RenderOBJModel_faces ops mdl (n + 1) i =
      match faceCalls ops mdl i with
      | none => none
      | some b => (RenderOBJModel_faces ops mdl n (i + 1)).map (fun r => b ++ r) := by
  rw [RenderOBJModel_faces]
  unfold faceCalls
  cases mdl.faces with
  | none => rfl
  | some fs =>
    dsimp only
    cases fs[i]? with
    | none => rfl
    | some f =>
      dsimp only
      rw [RenderOBJModel_corners_eq, List.range_eq_range']
      cases collect ((List.range' 0 f.num_elems.toNat).map (cornerCalls ops mdl f)) with
      | none => rfl
      | some cs =>
        cases RenderOBJModel_faces ops mdl n (i + 1) with
        | none => rfl
        | some r => simp

theorem RenderOBJModel_faces_eq {F : Type} (ops : FloatOps F) (mdl : obj_model_t F) :
    ∀ (n i : Nat), RenderOBJModel_faces ops mdl n i =
      collect ((List.range' i n).map (faceCalls ops mdl)) := by
  intro n
  induction n with
  | zero => intro i; rfl
  | succ n ih =>
    intro i
    rw [RenderOBJModel_faces_succ, List.range'_succ, List.map_cons, ih (i + 1)]
    cases faceCalls ops mdl i <;> rfl

/-- C9: for every model, the calls `RenderOBJModel` makes are exactly, for each face
`0 .. num_faces - 1` in order, `glBegin (type)`, then for each corner `0 .. num_elems - 1`
an optional texcoord call `(u, v, w, 1)`, an optional normal call and the vertex call, then
`glEnd ()`; both sides are undefined on the same models (a read outside an array). -/
theorem RenderOBJModel_calls {F : Type} (ops : FloatOps F) (mdl : obj_model_t F) :
    RenderOBJModel ops mdl = drawCalls ops mdl := by
  unfold RenderOBJModel drawCalls
  rw [RenderOBJModel_faces_eq, List.range_eq_range']

/-! ### `FirstPass`: the final checks -/

/-- C4: once the scan of `FirstPass` has accumulated the model `m`, the function returns 0
exactly when a presence flag is set with a zero count or `num_verts` is 0, and 1 otherwise;
the model returned is `m` in both cases; the contradiction message is the one written
whenever a flag is set with a zero count, also when there is no vertex. -/
theorem FirstPass_verdict {F : Type} (file : List Char) (mdl m : obj_model_t F) (err : List Msg)
    (h : FirstPass_loop (reads 256 file) [] mdl [] = some (m, err)) :
    ∃ r, FirstPass file mdl = some r ∧ r.2.1 = m ∧
      (r.1 = 0 ↔ ((m.has_texCoords ≠ 0 ∧ m.num_texCoords = 0) ∨
        (m.has_normals ≠ 0 ∧ m.num_normals = 0) ∨ m.num_verts = 0)) ∧
      (r.1 ≠ 0 → r.1 = 1 ∧ r.2.2 = err) ∧
      (((m.has_texCoords ≠ 0 ∧ m.num_texCoords = 0) ∨ (m.has_normals ≠ 0 ∧ m.num_normals = 0)) →
        r.2.2 = err ++ [Msg.contradiction]) ∧
      (¬ ((m.has_texCoords ≠ 0 ∧ m.num_texCoords = 0) ∨
          (m.has_normals ≠ 0 ∧ m.num_normals = 0)) → m.num_verts = 0 →
        r.2.2 = err ++ [Msg.noVertex]) := by
  refine ⟨FirstPass_check m err, ?_, ?_⟩
  · simp [FirstPass, h]
  · unfold FirstPass_check
    by_cases h1 : (m.has_texCoords ≠ 0 ∧ m.num_texCoords = 0) ∨
        (m.has_normals ≠ 0 ∧ m.num_normals = 0)
    · rw [if_pos h1]
      refine ⟨rfl, ?_, ?_, ?_, ?_⟩
      · simp only [true_iff]
        rcases h1 with h1 | h1
        · exact Or.inl h1
        · exact Or.inr (Or.inl h1)
      · intro h0; exact absurd rfl h0
      · intro _; rfl
      · intro h2; exact absurd h1 h2
    · rw [if_neg h1]
      by_cases h2 : m.num_verts = 0
      · rw [if_pos h2]
        refine ⟨rfl, ?_, ?_, ?_, ?_⟩
        · simp only [true_iff]; exact Or.inr (Or.inr h2)
        · intro h0; exact absurd rfl h0
        · intro h3; exact absurd h3 h1
        · intro _ _; rfl
      · rw [if_neg h2]
        refine ⟨rfl, ?_, ?_, ?_, ?_⟩
        · constructor
          · intro h0; exact absurd h0 (show ¬ ((1 : Int) = 0) by decide)
          · intro h3
            rcases h3 with h3 | h3 | h3
            · exact absurd (Or.inl h3) h1
            · exact absurd (Or.inr h3) h1
            · exact absurd h3 h2
        · intro _; exact ⟨rfl, rfl⟩
        · intro h3; exact absurd h3 h1
        · intro _ h3; exact absurd h3 h2

/-- Witness of C4 on the file `v 0 0 0` (one line, no newline). -/
theorem FirstPass_verdict_witness :
    ∃ r, FirstPass "v 0 0 0".toList (zeroModel Int) = some r ∧
      r.2.1 = { zeroModel Int with num_verts := 1 } ∧
      (r.1 = 0 ↔ (((0 : Int) ≠ 0 ∧ (0 : Int) = 0) ∨ ((0 : Int) ≠ 0 ∧ (0 : Int) = 0) ∨
        (1 : Int) = 0)) ∧
      (r.1 ≠ 0 → r.1 = 1 ∧ r.2.2 = []) ∧
      ((((0 : Int) ≠ 0 ∧ (0 : Int) = 0) ∨ ((0 : Int) ≠ 0 ∧ (0 : Int) = 0)) →
        r.2.2 = [] ++ [Msg.contradiction]) ∧
      (¬ (((0 : Int) ≠ 0 ∧ (0 : Int) = 0) ∨ ((0 : Int) ≠ 0 ∧ (0 : Int) = 0)) → (1 : Int) = 0 →
        r.2.2 = [] ++ [Msg.noVertex]) :=
  FirstPass_verdict "v 0 0 0".toList (zeroModel Int) { zeroModel Int with num_verts := 1 } []
    (by decide)

/-! ### `ReadOBJModel`: a file that cannot be opened -/

/-- C10: for every prior model `m` and every path that `fopen` cannot open, `ReadOBJModel`
returns 0 and leaves the model equal to `m`. -/
theorem ReadOBJModel_cannot_open {F : Type} (ops : FloatOps F)
    (fs : String → Option (List Char)) (heap : List Bool) (filename : String)
    (m : obj_model_t F) (h : fs filename = none) :
    ∃ r, ReadOBJModel ops fs heap filename m = some r ∧ r.ret = 0 ∧ r.mdl = m := by
  refine ⟨⟨0, m, [Msg.cannotOpen filename], none⟩, ?_, rfl, rfl⟩
  unfold ReadOBJModel
  rw [h]

/-- Witness of C10: the file system holds `model.obj` only and the path is `missing.obj`. -/
theorem ReadOBJModel_cannot_open_witness :
    ∃ r, ReadOBJModel intOps (oneFile "v 0 0 0".toList) [] "missing.obj"
        { zeroModel Int with num_verts := 5 } = some r ∧
      r.ret = 0 ∧ r.mdl = { zeroModel Int with num_verts := 5 } :=
  ReadOBJModel_cannot_open intOps (oneFile "v 0 0 0".toList) [] "missing.obj"
    { zeroModel Int with num_verts := 5 } (by decide)

/-! ### Reading a face line -/

theorem isdigit_bounds {c : Char} (h : isdigit c = true) : 48 ≤ c.toNat ∧ c.toNat ≤ 57 := by
  simpa [isdigit] using h

theorem isdigit_not_space {c : Char} (h : isdigit c = true) : isspace c = false := by
  have hb := isdigit_bounds h
  simp only [isspace, Bool.or_eq_false_iff, Bool.and_eq_false_iff, decide_eq_false_iff_not]
  constructor
  · omega
  · right; omega

theorem isdigit_ne {c d : Char} (h : isdigit c = true) (hd : isdigit d = false) : c ≠ d := by
  intro hcd; subst hcd; rw [h] at hd; exact Bool.noConfusion hd

theorem scanDigits_append (ds rest : List Char) (hds : ∀ c ∈ ds, isdigit c = true)
    (hrest : ∀ c ∈ rest.head?, isdigit c = false) :
    ∀ acc, scanDigits acc (ds ++ rest) =
      (ds.foldl (fun a c => 10 * a + (c.toNat - 48)) acc, rest) := by
  induction ds with
  | nil =>
    intro acc
    cases rest with
    | nil => rfl
    | cons c r =>
      have : isdigit c = false := hrest c (by simp)
      simp [scanDigits, this]
  | cons d ds ih =>
    intro acc
    have hd : isdigit d = true := hds d (by simp)
    simp only [List.cons_append, scanDigits, hd, if_true, List.foldl_cons]
    exact ih (fun c hc => hds c (by simp [hc])) _

theorem scan_d_digits (ds rest : List Char) (hne : ds ≠ []) (hds : ∀ c ∈ ds, isdigit c = true)
    (hrest : ∀ c ∈ rest.head?, isdigit c = false) :
    scan_d (ds ++ rest) = some ((decimalValue ds : Int), rest) := by
  cases ds with
  | nil => exact absurd rfl hne
  | cons d ds =>
    have hd : isdigit d = true := hds d (by simp)
    have h1 : d ≠ '-' := isdigit_ne hd (by decide)
    have h2 : d ≠ '+' := isdigit_ne hd (by decide)
    have h3 := scanDigits_append (d :: ds) rest hds hrest 0
    simp only [List.cons_append] at h3
    unfold scan_d
    simp only [List.cons_append, skipSpace, isdigit_not_space hd, Bool.false_eq_true, if_false]
    rw [if_neg h1, if_neg h2]
    simp only [scanNat, hd, if_true, Option.map_some', decimalValue, List.append_eq, h3]

theorem scan_d_not_digit (s : List Char) (h : ∀ c ∈ s.head?, isdigit c = false ∧ isspace c = false ∧ c ≠ '-' ∧ c ≠ '+') :
    scan_d s = none := by
  cases s with
  | nil => rfl
  | cons c r =>
    obtain ⟨h1, h2, h3, h4⟩ := h c (by simp)
    simp [scan_d, skipSpace, h2, h3, h4, scanNat, h1]

theorem sscanf_d_conv (fmt : List Directive) (ds rest : List Char) (h : IsIndex ds)
    (hrest : ∀ c ∈ rest.head?, isdigit c = false) :
    sscanf_d (.d :: fmt) (ds ++ rest) =
      (sscanf_d fmt rest).map (fun l => (decimalValue ds : Int) :: l) := by
  obtain ⟨h1, h2, h3⟩ := h
  have h4 : INT_MIN ≤ (decimalValue ds : Int) := by
    have : (0 : Int) ≤ (decimalValue ds : Int) := Int.ofNat_nonneg _
    unfold INT_MIN; omega
  rw [sscanf_d, scan_d_digits ds rest h1 h2 hrest]
  simp only [h3, h4, and_self, if_true]

theorem sscanf_d_lit (fmt : List Directive) (c : Char) (rest : List Char) :
    sscanf_d (.lit c :: fmt) (c :: rest) = sscanf_d fmt rest := by
  simp [sscanf_d]

theorem sscanf_d_lit_ne (fmt : List Directive) (c : Char) (s : List Char)
    (h : ∀ x ∈ s.head?, x ≠ c) : sscanf_d (.lit c :: fmt) s = some [] := by
  cases s with
  | nil => rfl
  | cons x r =>
    have : x ≠ c := h x (by simp)
    simp [sscanf_d, this]

theorem sscanf_d_conv_fail (fmt : List Directive) (s : List Char) (h : scan_d s = none) :
    sscanf_d (.d :: fmt) s = some [] := by
  rw [sscanf_d, h]

theorem scan_d_slash (r : List Char) : scan_d ('/' :: r) = none := by
  apply scan_d_not_digit
  intro c hc
  simp only [List.head?_cons, Option.mem_def, Option.some.injEq] at hc
  subst hc
  decide

theorem head_slash_not_digit (r : List Char) : ∀ c ∈ ('/' :: r).head?, isdigit c = false := by
  intro c hc
  simp only [List.head?_cons, Option.mem_def, Option.some.injEq] at hc
  subst hc; decide

theorem EntryEnd.not_digit {s : List Char} (h : EntryEnd s) : ∀ c ∈ s.head?, isdigit c = false :=
  fun c hc => (h c hc).1

theorem EntryEnd.not_slash {s : List Char} (h : EntryEnd s) : ∀ c ∈ s.head?, c ≠ '/' :=
  fun c hc => (h c hc).2

theorem IsIndex.head_ne_slash {ds : List Char} (h : IsIndex ds) (rest : List Char) :
    ∀ c ∈ (ds ++ rest).head?, c ≠ '/' := by
  obtain ⟨h1, h2, _⟩ := h
  cases ds with
  | nil => exact absurd rfl h1
  | cons d ds =>
    intro c hc
    simp only [List.cons_append, List.head?_cons, Option.mem_def, Option.some.injEq] at hc
    subst hc
    exact isdigit_ne (h2 d (by simp)) (by decide)

theorem sscanf_vtn_v {v after : List Char} (hv : IsIndex v) (ha : EntryEnd after) :
    sscanf_d fmt_vtn (v ++ after) = some [(decimalValue v : Int)] := by
  rw [fmt_vtn, sscanf_d_conv _ _ _ hv ha.not_digit, sscanf_d_lit_ne _ _ _ ha.not_slash]; rfl

theorem sscanf_vn_v {v after : List Char} (hv : IsIndex v) (ha : EntryEnd after) :
    sscanf_d fmt_vn (v ++ after) = some [(decimalValue v : Int)] := by
  rw [fmt_vn, sscanf_d_conv _ _ _ hv ha.not_digit, sscanf_d_lit_ne _ _ _ ha.not_slash]; rfl

theorem sscanf_vt_v {v after : List Char} (hv : IsIndex v) (ha : EntryEnd after) :
    sscanf_d fmt_vt (v ++ after) = some [(decimalValue v : Int)] := by
  rw [fmt_vt, sscanf_d_conv _ _ _ hv ha.not_digit, sscanf_d_lit_ne _ _ _ ha.not_slash]; rfl

theorem sscanf_v_v {v after : List Char} (hv : IsIndex v) (ha : EntryEnd after) :
    sscanf_d fmt_v (v ++ after) = some [(decimalValue v : Int)] := by
  rw [fmt_v, sscanf_d_conv _ _ _ hv ha.not_digit]; rfl

theorem sscanf_vtn_vt {v t after : List Char} (hv : IsIndex v) (ht : IsIndex t)
    (ha : EntryEnd after) :
    sscanf_d fmt_vtn (v ++ '/' :: (t ++ after)) =
      some [(decimalValue v : Int), (decimalValue t : Int)] := by
  rw [fmt_vtn, sscanf_d_conv _ _ _ hv (head_slash_not_digit _), sscanf_d_lit,
    sscanf_d_conv _ _ _ ht ha.not_digit, sscanf_d_lit_ne _ _ _ ha.not_slash]; rfl

theorem sscanf_vn_vt {v t : List Char} (after : List Char) (hv : IsIndex v) (ht : IsIndex t) :
    sscanf_d fmt_vn (v ++ '/' :: (t ++ after)) = some [(decimalValue v : Int)] := by
  rw [fmt_vn, sscanf_d_conv _ _ _ hv (head_slash_not_digit _), sscanf_d_lit,
    sscanf_d_lit_ne _ _ _ (ht.head_ne_slash after)]; rfl

theorem sscanf_vt_vt {v t after : List Char} (hv : IsIndex v) (ht : IsIndex t)
    (ha : EntryEnd after) :
    sscanf_d fmt_vt (v ++ '/' :: (t ++ after)) =
      some [(decimalValue v : Int), (decimalValue t : Int)] := by
  rw [fmt_vt, sscanf_d_conv _ _ _ hv (head_slash_not_digit _), sscanf_d_lit,
    sscanf_d_conv _ _ _ ht ha.not_digit]; rfl

theorem sscanf_vtn_vtn {v t n after : List Char} (hv : IsIndex v) (ht : IsIndex t)
    (hn : IsIndex n) (ha : EntryEnd after) :
    sscanf_d fmt_vtn (v ++ '/' :: (t ++ '/' :: (n ++ after))) =
      some [(decimalValue v : Int), (decimalValue t : Int), (decimalValue n : Int)] := by
  rw [fmt_vtn, sscanf_d_conv _ _ _ hv (head_slash_not_digit _), sscanf_d_lit,
    sscanf_d_conv _ _ _ ht (head_slash_not_digit _), sscanf_d_lit,
    sscanf_d_conv _ _ _ hn ha.not_digit]; rfl

theorem sscanf_vtn_vn {v : List Char} (r : List Char) (hv : IsIndex v) :
    sscanf_d fmt_vtn (v ++ '/' :: '/' :: r) = some [(decimalValue v : Int)] := by
  rw [fmt_vtn, sscanf_d_conv _ _ _ hv (head_slash_not_digit _), sscanf_d_lit,
    sscanf_d_conv_fail _ _ (scan_d_slash _)]; rfl

theorem sscanf_vn_vn {v n after : List Char} (hv : IsIndex v) (hn : IsIndex n)
    (ha : EntryEnd after) :
    sscanf_d fmt_vn (v ++ '/' :: '/' :: (n ++ after)) =
      some [(decimalValue v : Int), (decimalValue n : Int)] := by
  rw [fmt_vn, sscanf_d_conv _ _ _ hv (head_slash_not_digit _), sscanf_d_lit, sscanf_d_lit,
    sscanf_d_conv _ _ _ hn ha.not_digit]; rfl

theorem cell_setIdx {a : IntArray} {i : Nat} (h : Cell a i) (x : Int) : Cell (setIdx a i x) i := by
  obtain ⟨l, rfl, hi⟩ := h
  exact ⟨l.set i (some x), rfl, by simpa using hi⟩

theorem storeInt_cell {a : IntArray} {i : Nat} (h : Cell a i) (x : Int) :
    storeInt a i x = some (setIdx a i x) := by
  obtain ⟨l, rfl, hi⟩ := h
  simp [storeInt, hi, setIdx]

theorem decrAt_setIdx {a : IntArray} {i : Nat} (h : Cell a i) (x : Int) (hx : INT_MIN < x) :
    decrAt (setIdx a i x) i = some (setIdx a i (x - 1)) := by
  obtain ⟨l, rfl, hi⟩ := h
  simp [decrAt, setIdx, hi, hx]

theorem setIdx_setIdx (a : IntArray) (i : Nat) (x y : Int) :
    setIdx (setIdx a i x) i y = setIdx a i y := by
  cases a with
  | none => rfl
  | some l => simp [setIdx]

theorem decimalValue_gt (ds : List Char) : INT_MIN < (decimalValue ds : Int) := by
  have : (0 : Int) ≤ (decimalValue ds : Int) := Int.ofNat_nonneg _
  unfold INT_MIN; omega

theorem entry_step (ht hn : Int) (e : EntryText) (after : List Char) (i : Nat) (f : obj_face_t)
    (hv : IsIndex e.v) (htx : ht ≠ 0 → IsIndex e.t) (hnx : hn ≠ 0 → IsIndex e.n)
    (ha : EntryEnd after)
    (hfv : Cell f.vert_indices i)
    (hfu : ht ≠ 0 → Cell f.uvw_indices i)
    (hfn : hn ≠ 0 → Cell f.norm_indices i) :
    (SecondPass_entry (entryText ht hn e ++ after) i f).bind (SecondPass_decr ht hn i) =
      some { f with
        vert_indices := setIdx f.vert_indices i ((decimalValue e.v : Int) - 1),
        uvw_indices := if ht ≠ 0 then setIdx f.uvw_indices i ((decimalValue e.t : Int) - 1)
          else f.uvw_indices,
        norm_indices := if hn ≠ 0 then setIdx f.norm_indices i ((decimalValue e.n : Int) - 1)
          else f.norm_indices } := by
  by_cases h1 : ht ≠ 0
  · have hu := hfu h1
    by_cases h2 : hn ≠ 0
    · have hn' := hfn h2
      simp [entryText, h1, h2, SecondPass_entry, sscanf_face,
        sscanf_vtn_vtn hv (htx h1) (hnx h2) ha, storeArgs,
        obj_face_t.indices, obj_face_t.setIndices, storeInt_cell hfv, storeInt_cell hu,
        storeInt_cell hn', SecondPass_decr, decrAt_setIdx hfv _ (decimalValue_gt _),
        decrAt_setIdx hu _ (decimalValue_gt _), decrAt_setIdx hn' _ (decimalValue_gt _)]
    · simp [entryText, h1, h2, SecondPass_entry, sscanf_face,
        sscanf_vtn_vt hv (htx h1) ha,
        sscanf_vn_vt after hv (htx h1), sscanf_vt_vt hv (htx h1) ha, storeArgs,
        obj_face_t.indices, obj_face_t.setIndices, storeInt_cell hfv, storeInt_cell hu,
        storeInt_cell (cell_setIdx hfv _), storeInt_cell (cell_setIdx hu _), setIdx_setIdx,
        SecondPass_decr, decrAt_setIdx hfv _ (decimalValue_gt _),
        decrAt_setIdx hu _ (decimalValue_gt _)]
  · by_cases h2 : hn ≠ 0
    · have hn' := hfn h2
      simp [entryText, h1, h2, SecondPass_entry, sscanf_face,
        sscanf_vtn_vn _ hv, sscanf_vn_vn hv (hnx h2) ha, storeArgs,
        obj_face_t.indices, obj_face_t.setIndices, storeInt_cell hfv, storeInt_cell hn',
        storeInt_cell (cell_setIdx hfv _), storeInt_cell (cell_setIdx hn' _), setIdx_setIdx,
        SecondPass_decr, decrAt_setIdx hfv _ (decimalValue_gt _),
        decrAt_setIdx hn' _ (decimalValue_gt _)]
    · simp [entryText, h1, h2, SecondPass_entry, sscanf_face,
        sscanf_vtn_v hv ha, sscanf_vn_v hv ha, sscanf_vt_v hv ha, sscanf_v_v hv ha, storeArgs,
        obj_face_t.indices, obj_face_t.setIndices, storeInt_cell hfv,
        storeInt_cell (cell_setIdx hfv _), setIdx_setIdx,
        SecondPass_decr, decrAt_setIdx hfv _ (decimalValue_gt _)]

theorem arr_cell {a : IntArray} {n i : Nat} (h : Arr a n) (hi : i < n) : Cell a i := by
  obtain ⟨l, hl, hn⟩ := h
  exact ⟨l, hl, by omega⟩

theorem arr_setIdx {a : IntArray} {n : Nat} (h : Arr a n) (i : Nat) (x : Int) :
    Arr (setIdx a i x) n := by
  obtain ⟨l, rfl, hn⟩ := h
  exact ⟨l.set i (some x), rfl, by simpa using hn⟩

theorem afterSpace_append (pre rest : List Char) (h : ' ' ∉ pre) :
    afterSpace (pre ++ ' ' :: rest) = some rest := by
  induction pre with
  | nil => simp [afterSpace]
  | cons c pre ih =>
    have hc : c ≠ ' ' := fun hc => h (by simp [hc])
    simp only [List.cons_append, afterSpace, if_neg hc]
    exact ih (fun hm => h (by simp [hm]))

theorem IsIndex.no_space {ds : List Char} (h : IsIndex ds) : ' ' ∉ ds := by
  intro hm
  have := h.2.1 _ hm
  exact absurd this (by decide)

theorem entryText_no_space {has_t has_n : Int} {e : EntryText} (h : EntryOK has_t has_n e) :
    ' ' ∉ entryText has_t has_n e := by
  obtain ⟨hv, ht, hn⟩ := h
  unfold entryText
  have d : ¬ (' ' = '/') := by decide
  split_ifs with h1 h2 h2
  · have := hv.no_space; have := (ht h1).no_space; have := (hn h2).no_space
    simp [*]
  · have := hv.no_space; have := (ht h1).no_space
    simp [*]
  · have := hv.no_space; have := (hn h2).no_space
    simp [*]
  · exact hv.no_space

theorem entryEnd_entriesText (has_t has_n : Int) (es : List EntryText) (tail : List Char)
    (ht : EntryEnd tail) : EntryEnd (entriesText has_t has_n es ++ tail) := by
  cases es with
  | nil => simpa [entriesText] using ht
  | cons e es =>
    intro c hc
    simp only [entriesText, List.map_cons, List.flatten_cons, List.cons_append,
      List.head?_cons, Option.mem_def, Option.some.injEq] at hc
    subst hc
    decide

theorem entries_loop (has_t has_n : Int) (tail : List Char) (htail : EntryEnd tail) :
    ∀ (es : List EntryText) (i : Nat) (pre : List Char) (f : obj_face_t),
      ' ' ∉ pre → (∀ e ∈ es, EntryOK has_t has_n e) →
      Arr f.vert_indices (i + es.length) →
      (has_t ≠ 0 → Arr f.uvw_indices (i + es.length)) →
      (has_n ≠ 0 → Arr f.norm_indices (i + es.length)) →
      SecondPass_entries has_t has_n es.length i (pre ++ (entriesText has_t has_n es ++ tail)) f =
        some (writeEntries has_t has_n i es f) := by
  intro es
  induction es with
  | nil => intro i pre f _ _ _ _ _; rfl
  | cons e es ih =>
    intro i pre f hpre hes hv hu hn
    have he : EntryOK has_t has_n e := hes e (by simp)
    have hlen : i < i + (e :: es).length := by simp
    have key := entry_step has_t has_n e (entriesText has_t has_n es ++ tail) i f he.1 he.2.1
      he.2.2 (entryEnd_entriesText has_t has_n es tail htail) (arr_cell hv hlen)
      (fun h => arr_cell (hu h) hlen) (fun h => arr_cell (hn h) hlen)
    have htxt : pre ++ (entriesText has_t has_n (e :: es) ++ tail) =
        pre ++ ' ' :: (entryText has_t has_n e ++ (entriesText has_t has_n es ++ tail)) := by
      simp [entriesText]
    rw [List.length_cons, SecondPass_entries, htxt, afterSpace_append _ _ hpre]
    dsimp only
    cases h1 : SecondPass_entry (entryText has_t has_n e ++ (entriesText has_t has_n es ++ tail)) i f with
    | none => rw [h1] at key; exact absurd key (by simp)
    | some f1 =>
      rw [h1] at key
      simp only [Option.some_bind] at key
      dsimp only
      rw [key]
      dsimp only
      have hlen2 : i + 1 + es.length = i + (e :: es).length := by simp; omega
      rw [ih (i + 1) (entryText has_t has_n e) _ (entryText_no_space he)
        (fun x hx => hes x (by simp [hx]))]
      · rfl
      · rw [hlen2]; exact arr_setIdx hv _ _
      · intro h; rw [hlen2]; simp only [if_pos h]; exact arr_setIdx (hu h) _ _
      · intro h; rw [hlen2]; simp only [if_pos h]; exact arr_setIdx (hn h) _ _

theorem grants_malloc {k : Nat} {heap : List Bool} (h : Grants (k + 1) heap) :
    (malloc heap).1 = true ∧ Grants k (malloc heap).2 := by
  cases heap with
  | nil => exact ⟨rfl, fun b hb => by simp [malloc] at hb⟩
  | cons a r =>
    constructor
    · exact h a (by simp)
    · intro b hb
      exact h b (by simp only [malloc] at hb; simp [List.take_succ_cons, hb])

theorem grants_mono {k : Nat} {heap : List Bool} (h : Grants (k + 1) heap) : Grants k heap := by
  intro b hb
  apply h b
  have : (List.take k heap).Sublist (List.take (k + 1) heap) := by
    rw [List.take_succ]
    exact List.sublist_append_left _ _
  exact this.subset hb

theorem allocArray_grant {α : Type} (init : α) (n : Nat) {k : Nat} {heap : List Bool}
    (h : Grants (k + 1) heap) :
    (allocArray init (n : Int) heap).1 = some (List.replicate n init) ∧
      Grants k (allocArray init (n : Int) heap).2 := by
  have h1 := grants_malloc h
  unfold allocArray
  rw [if_pos ⟨h1.1, Int.ofNat_nonneg n⟩]
  exact ⟨by simp, h1.2⟩

theorem mem_entryText {has_t has_n : Int} {e : EntryText} (h : EntryOK has_t has_n e)
    {c : Char} (hc : c ∈ entryText has_t has_n e) : isdigit c = true ∨ c = '/' := by
  obtain ⟨hv, ht, hn⟩ := h
  unfold entryText at hc
  split_ifs at hc with h1 h2 h2
  · simp only [List.mem_append, List.mem_cons] at hc
    rcases hc with hc | hc | hc | hc | hc
    · exact Or.inl (hv.2.1 c hc)
    · exact Or.inr hc
    · exact Or.inl ((ht h1).2.1 c hc)
    · exact Or.inr hc
    · exact Or.inl ((hn h2).2.1 c hc)
  · simp only [List.mem_append, List.mem_cons] at hc
    rcases hc with hc | hc | hc
    · exact Or.inl (hv.2.1 c hc)
    · exact Or.inr hc
    · exact Or.inl ((ht h1).2.1 c hc)
  · simp only [List.mem_append, List.mem_cons] at hc
    rcases hc with hc | hc | hc | hc
    · exact Or.inl (hv.2.1 c hc)
    · exact Or.inr hc
    · exact Or.inr hc
    · exact Or.inl ((hn h2).2.1 c hc)
  · exact Or.inl (hv.2.1 c hc)

theorem count_space_entryText {has_t has_n : Int} {e : EntryText} (h : EntryOK has_t has_n e) :
    (entryText has_t has_n e).count ' ' = 0 := by
  rw [List.count_eq_zero]
  exact entryText_no_space h

theorem count_space_entriesText (has_t has_n : Int) :
    ∀ es : List EntryText, (∀ e ∈ es, EntryOK has_t has_n e) →
      (entriesText has_t has_n es).count ' ' = es.length := by
  intro es
  induction es with
  | nil => intro _; rfl
  | cons e es ih =>
    intro h
    have he := h e (by simp)
    have := ih (fun x hx => h x (by simp [hx]))
    simp only [entriesText] at this
    simp [entriesText, List.count_cons, List.count_append, count_space_entryText he, this]

theorem nul_not_mem_entriesText (has_t has_n : Int) :
    ∀ es : List EntryText, (∀ e ∈ es, EntryOK has_t has_n e) →
      NUL ∉ entriesText has_t has_n es := by
  intro es
  induction es with
  | nil => intro _; simp [entriesText]
  | cons e es ih =>
    intro h hm
    have he := h e (by simp)
    simp only [entriesText, List.map_cons, List.flatten_cons, List.cons_append, List.mem_cons,
      List.mem_append] at hm
    rcases hm with hm | hm | hm
    · exact absurd hm (by decide)
    · rcases mem_entryText he hm with h1 | h1
      · exact absurd h1 (by decide)
      · exact absurd h1 (by decide)
    · exact ih (fun x hx => h x (by simp [hx])) hm

theorem takeWhile_ne_append (l r : List Char) (c : Char) (h : c ∉ l) :
    (l ++ c :: r).takeWhile (fun x => x ≠ c) = l := by
  induction l with
  | nil => simp
  | cons a l ih =>
    have ha : a ≠ c := fun hac => h (by simp [hac])
    simp only [List.cons_append, List.takeWhile_cons, ne_eq, ha, not_false_eq_true, decide_True,
      if_true, List.cons.injEq, true_and]
    exact ih (fun hm => h (by simp [hm]))

theorem cstrAt_zero (l r : List Char) (h : NUL ∉ l) : cstrAt (l ++ NUL :: r) 0 = some l := by
  unfold cstrAt
  rw [List.drop_zero, if_pos (by simp), takeWhile_ne_append l r NUL h]

theorem writeEntries_type (has_t has_n : Int) :
    ∀ (es : List EntryText) (i : Nat) (f : obj_face_t),
      (writeEntries has_t has_n i es f).type = f.type ∧
      (writeEntries has_t has_n i es f).num_elems = f.num_elems := by
  intro es
  induction es with
  | nil => intro i f; exact ⟨rfl, rfl⟩
  | cons e es ih => intro i f; rw [writeEntries]; exact ih _ _

theorem set_length_append {α : Type} (D R : List α) (a x : α) :
    (D ++ a :: R).set D.length x = D ++ x :: R := by
  induction D with
  | nil => rfl
  | cons d D ih => simp [ih]

theorem writeEntries_vert (has_t has_n : Int) :
    ∀ (es : List EntryText) (D R : List (Option Int)) (f : obj_face_t),
      f.vert_indices = some (D ++ R) → es.length ≤ R.length →
      (writeEntries has_t has_n D.length es f).vert_indices =
        some (D ++ es.map (fun e => some ((decimalValue e.v : Int) - 1)) ++ R.drop es.length) := by
  intro es
  induction es with
  | nil => intro D R f h _; simpa [writeEntries] using h
  | cons e es ih =>
    intro D R f h hlen
    cases R with
    | nil => simp at hlen
    | cons a R =>
      rw [writeEntries]
      have := ih (D ++ [some ((decimalValue e.v : Int) - 1)]) R
        { f with
          vert_indices := setIdx f.vert_indices D.length ((decimalValue e.v : Int) - 1),
          uvw_indices := if has_t ≠ 0 then
              setIdx f.uvw_indices D.length ((decimalValue e.t : Int) - 1)
            else f.uvw_indices,
          norm_indices := if has_n ≠ 0 then
              setIdx f.norm_indices D.length ((decimalValue e.n : Int) - 1)
            else f.norm_indices }
        (by simp [h, setIdx, set_length_append]) (by simpa using hlen)
      simp only [List.length_append, List.length_singleton] at this
      rw [this]
      simp

theorem writeEntries_uvw (has_t has_n : Int) (ht : has_t ≠ 0) :
    ∀ (es : List EntryText) (D R : List (Option Int)) (f : obj_face_t),
      f.uvw_indices = some (D ++ R) → es.length ≤ R.length →
      (writeEntries has_t has_n D.length es f).uvw_indices =
        some (D ++ es.map (fun e => some ((decimalValue e.t : Int) - 1)) ++ R.drop es.length) := by
  intro es
  induction es with
  | nil => intro D R f h _; simpa [writeEntries] using h
  | cons e es ih =>
    intro D R f h hlen
    cases R with
    | nil => simp at hlen
    | cons a R =>
      rw [writeEntries]
      have := ih (D ++ [some ((decimalValue e.t : Int) - 1)]) R
        { f with
          vert_indices := setIdx f.vert_indices D.length ((decimalValue e.v : Int) - 1),
          uvw_indices := if has_t ≠ 0 then
              setIdx f.uvw_indices D.length ((decimalValue e.t : Int) - 1)
            else f.uvw_indices,
          norm_indices := if has_n ≠ 0 then
              setIdx f.norm_indices D.length ((decimalValue e.n : Int) - 1)
            else f.norm_indices }
        (by simp [h, setIdx, set_length_append, ht]) (by simpa using hlen)
      simp only [List.length_append, List.length_singleton] at this
      rw [this]
      simp

theorem writeEntries_norm (has_t has_n : Int) (hn : has_n ≠ 0) :
    ∀ (es : List EntryText) (D R : List (Option Int)) (f : obj_face_t),
      f.norm_indices = some (D ++ R) → es.length ≤ R.length →
      (writeEntries has_t has_n D.length es f).norm_indices =
        some (D ++ es.map (fun e => some ((decimalValue e.n : Int) - 1)) ++ R.drop es.length) := by
  intro es
  induction es with
  | nil => intro D R f h _; simpa [writeEntries] using h
  | cons e es ih =>
    intro D R f h hlen
    cases R with
    | nil => simp at hlen
    | cons a R =>
      rw [writeEntries]
      have := ih (D ++ [some ((decimalValue e.n : Int) - 1)]) R
        { f with
          vert_indices := setIdx f.vert_indices D.length ((decimalValue e.v : Int) - 1),
          uvw_indices := if has_t ≠ 0 then
              setIdx f.uvw_indices D.length ((decimalValue e.t : Int) - 1)
            else f.uvw_indices,
          norm_indices := if has_n ≠ 0 then
              setIdx f.norm_indices D.length ((decimalValue e.n : Int) - 1)
            else f.norm_indices }
        (by simp [h, setIdx, set_length_append, hn]) (by simpa using hlen)
      simp only [List.length_append, List.length_singleton] at this
      rw [this]
      simp

theorem writeEntries_uvw_off (has_n : Int) :
    ∀ (es : List EntryText) (i : Nat) (f : obj_face_t),
      (writeEntries 0 has_n i es f).uvw_indices = f.uvw_indices := by
  intro es
  induction es with
  | nil => intro i f; rfl
  | cons e es ih => intro i f; rw [writeEntries, ih]; simp

theorem writeEntries_norm_off (has_t : Int) :
    ∀ (es : List EntryText) (i : Nat) (f : obj_face_t),
      (writeEntries has_t 0 i es f).norm_indices = f.norm_indices := by
  intro es
  induction es with
  | nil => intro i f; rfl
  | cons e es ih => intro i f; rw [writeEntries, ih]; simp

theorem SecondPass_face_text {F : Type} (es : List EntryText) (tail : List Char) (st : Pass2 F)
    (fs : List obj_face_t) (f0 : obj_face_t)
    (hk : 3 ≤ es.length)
    (hes : ∀ e ∈ es, EntryOK st.mdl.has_texCoords st.mdl.has_normals e)
    (htail : EntryEnd tail) (hsp : ' ' ∉ tail)
    (hfs : st.mdl.faces = some fs) (hf0 : fs[st.pface]? = some f0)
    (hheap : Grants 3 st.heap) :
    ∃ heap, SecondPass_face
        (faceLineText st.mdl.has_texCoords st.mdl.has_normals es ++ tail) st =
      some (true, { st with
        mdl := { st.mdl with faces := some (fs.set st.pface
          (writeEntries st.mdl.has_texCoords st.mdl.has_normals 0 es
            ⟨faceType es.length, (es.length : Nat),
              some (List.replicate es.length none),
              if st.mdl.has_texCoords ≠ 0 then some (List.replicate es.length none)
                else f0.uvw_indices,
              if st.mdl.has_normals ≠ 0 then some (List.replicate es.length none)
                else f0.norm_indices⟩)) },
        pface := st.pface + 1, heap := heap }) := by
  have hcount : (faceLineText st.mdl.has_texCoords st.mdl.has_normals es ++ tail).count ' ' =
      es.length := by
    have h1 := count_space_entriesText _ _ es hes
    have h2 : tail.count ' ' = 0 := List.count_eq_zero.mpr hsp
    have h3 : ('f' == ' ') = false := by decide
    simp [faceLineText, List.count_cons, List.count_append, h1, h2, h3]
  have a1 := allocArray_grant (none : Option Int) es.length hheap
  unfold SecondPass_face
  rw [hfs]; dsimp only
  rw [hf0]; dsimp only
  rw [hcount, if_neg (by omega)]
  rw [a1.1]
  have hloop := fun f hv hu hn => entries_loop st.mdl.has_texCoords st.mdl.has_normals tail htail es 0 ['f'] f
    (by decide) hes hv hu hn
  simp only [List.singleton_append, zero_add] at hloop
  by_cases h1 : st.mdl.has_texCoords ≠ 0
  · have a2 := allocArray_grant (none : Option Int) es.length a1.2
    by_cases h2 : st.mdl.has_normals ≠ 0
    · have a3 := allocArray_grant (none : Option Int) es.length a2.2
      simp only [if_pos h1, if_pos h2, a2.1, a3.1]
      rw [faceLineText, List.cons_append, hloop _ ⟨_, rfl, by simp⟩ (fun _ => ⟨_, rfl, by simp⟩)
        (fun _ => ⟨_, rfl, by simp⟩)]
      exact ⟨_, rfl⟩
    · simp only [if_pos h1, if_neg h2, a2.1]
      rw [faceLineText, List.cons_append, hloop _ ⟨_, rfl, by simp⟩ (fun _ => ⟨_, rfl, by simp⟩)
        (fun h => absurd h h2)]
      exact ⟨_, rfl⟩
  · by_cases h2 : st.mdl.has_normals ≠ 0
    · have a3 := allocArray_grant (none : Option Int) es.length (grants_mono a1.2)
      simp only [if_neg h1, if_pos h2, a3.1]
      rw [faceLineText, List.cons_append, hloop _ ⟨_, rfl, by simp⟩ (fun h => absurd h h1)
        (fun _ => ⟨_, rfl, by simp⟩)]
      exact ⟨_, rfl⟩
    · simp only [if_neg h1, if_neg h2]
      rw [faceLineText, List.cons_append, hloop _ ⟨_, rfl, by simp⟩ (fun h => absurd h h1)
        (fun h => absurd h h2)]
      exact ⟨_, rfl⟩

theorem fgets_store_face_line {F : Type} (ops : FloatOps F) (line buf : List Char) (st : Pass2 F)
    (hf : line.head? = some 'f') (hnul : NUL ∉ line) :
    SecondPass_line ops (fgets_store (some line) buf) st = SecondPass_face line st := by
  cases line with
  | nil => simp at hf
  | cons c r =>
    simp only [List.head?_cons, Option.some.injEq] at hf
    subst hf
    have h0 : (fgets_store (some ('f' :: r)) buf)[0]? = some 'f' := by
      simp [fgets_store]
    have hc := cstrAt_zero ('f' :: r) (List.drop (('f' :: r).length + 1) buf) hnul
    have hv : ¬ ('f' = 'v') := by decide
    unfold SecondPass_line
    simp only [h0, Option.bind_eq_bind, Option.some_bind, if_neg hv, if_true]
    have hb : fgets_store (some ('f' :: r)) buf =
        ('f' :: r) ++ NUL :: List.drop (('f' :: r).length + 1) buf := rfl
    rw [hb, hc]
    rfl

/-- C3 (amended): a face line `f e1 ... ek` read whole into the line buffer, with `k >= 3`
entries each preceded by one space and followed by nothing but an optional newline, each
entry in the form that matches the presence flags with indices that fit an `int`, is loaded
(when the allocator grants the index arrays) as a face of `k` corners that stores, in corner
order, the source indices minus one: `vert_indices[j] = v_j - 1`, and `uvw_indices[j] =
t_j - 1`, `norm_indices[j] = n_j - 1` when the corresponding flag is set. -/
theorem SecondPass_face_line_indices {F : Type} (ops : FloatOps F) (es : List EntryText)
    (tail buf : List Char) (st : Pass2 F) (fs : List obj_face_t) (f0 : obj_face_t)
    (hk : 3 ≤ es.length)
    (hes : ∀ e ∈ es, EntryOK st.mdl.has_texCoords st.mdl.has_normals e)
    (htail : tail = [] ∨ tail = ['\n'])
    (hfs : st.mdl.faces = some fs) (hf0 : fs[st.pface]? = some f0)
    (hheap : Grants 3 st.heap) :
    ∃ st1 f,
      SecondPass_line ops
        (fgets_store
          (some (faceLineText st.mdl.has_texCoords st.mdl.has_normals es ++ tail)) buf) st =
        some (true, st1) ∧
      st1.mdl.faces = some (fs.set st.pface f) ∧ st1.pface = st.pface + 1 ∧
      f.num_elems = (es.length : Nat) ∧
      f.vert_indices = some (es.map (fun e => some ((decimalValue e.v : Int) - 1))) ∧
      (st.mdl.has_texCoords ≠ 0 →
        f.uvw_indices = some (es.map (fun e => some ((decimalValue e.t : Int) - 1)))) ∧
      (st.mdl.has_normals ≠ 0 →
        f.norm_indices = some (es.map (fun e => some ((decimalValue e.n : Int) - 1)))) := by
  have htail1 : EntryEnd tail := by
    rcases htail with h | h <;> subst h
    · intro c hc; simp at hc
    · intro c hc
      simp only [List.head?_cons, Option.mem_def, Option.some.injEq] at hc
      subst hc; decide
  have htail2 : ' ' ∉ tail := by
    rcases htail with h | h <;> subst h
    · simp
    · decide
  have htail3 : NUL ∉ tail := by
    rcases htail with h | h <;> subst h
    · simp
    · decide
  have hnul : NUL ∉ faceLineText st.mdl.has_texCoords st.mdl.has_normals es ++ tail := by
    intro hm
    simp only [faceLineText, List.cons_append, List.mem_cons, List.mem_append] at hm
    rcases hm with hm | hm | hm
    · exact absurd hm (by decide)
    · exact nul_not_mem_entriesText _ _ es hes hm
    · exact htail3 hm
  obtain ⟨heap, hface⟩ := SecondPass_face_text es tail st fs f0 hk hes htail1 htail2 hfs hf0 hheap
  rw [fgets_store_face_line ops _ buf st (by simp [faceLineText]) hnul, hface]
  refine ⟨_, _, rfl, rfl, rfl, ?_, ?_, ?_, ?_⟩
  · exact (writeEntries_type _ _ es 0 _).2
  · have := writeEntries_vert st.mdl.has_texCoords st.mdl.has_normals es [] (List.replicate es.length none)
      ⟨faceType es.length, (es.length : Nat), some (List.replicate es.length none),
        if st.mdl.has_texCoords ≠ 0 then some (List.replicate es.length none) else f0.uvw_indices,
        if st.mdl.has_normals ≠ 0 then some (List.replicate es.length none) else f0.norm_indices⟩
      (by simp) (by simp)
    simpa using this
  · intro h
    have := writeEntries_uvw st.mdl.has_texCoords st.mdl.has_normals h es []
      (List.replicate es.length none)
      ⟨faceType es.length, (es.length : Nat), some (List.replicate es.length none),
        if st.mdl.has_texCoords ≠ 0 then some (List.replicate es.length none) else f0.uvw_indices,
        if st.mdl.has_normals ≠ 0 then some (List.replicate es.length none) else f0.norm_indices⟩
      (by simp [h]) (by simp)
    simpa using this
  · intro h
    have := writeEntries_norm st.mdl.has_texCoords st.mdl.has_normals h es []
      (List.replicate es.length none)
      ⟨faceType es.length, (es.length : Nat), some (List.replicate es.length none),
        if st.mdl.has_texCoords ≠ 0 then some (List.replicate es.length none) else f0.uvw_indices,
        if st.mdl.has_normals ≠ 0 then some (List.replicate es.length none) else f0.norm_indices⟩
      (by simp [h]) (by simp)
    simpa using this

/-- Witness of C3 (amended): the line `f 1 2 3` with its newline yields the vertex indices
0, 1, 2. -/
theorem SecondPass_face_line_indices_witness :
    ∃ st1 f,
      SecondPass_line intOps
        (fgets_store
          (some (faceLineText triState.mdl.has_texCoords triState.mdl.has_normals triEntries ++
            ['\n'])) []) triState =
        some (true, st1) ∧
      st1.mdl.faces = some ([zeroFace].set triState.pface f) ∧
      st1.pface = triState.pface + 1 ∧
      f.num_elems = (triEntries.length : Nat) ∧
      f.vert_indices = some (triEntries.map (fun e => some ((decimalValue e.v : Int) - 1))) ∧
      (triState.mdl.has_texCoords ≠ 0 →
        f.uvw_indices = some (triEntries.map (fun e => some ((decimalValue e.t : Int) - 1)))) ∧
      (triState.mdl.has_normals ≠ 0 →
        f.norm_indices = some (triEntries.map (fun e => some ((decimalValue e.n : Int) - 1)))) :=
  SecondPass_face_line_indices intOps triEntries ['\n'] [] triState [zeroFace] zeroFace
    (by decide) (by decide) (Or.inr rfl) rfl rfl (by decide)

/-- C3 (counterexample): a face line of 70 entries `1` (141 characters) is loaded as a face
of 63 corners, and the line `f 1  2 3` (two spaces) as a quad with the indices 0, 1, 1, 2. -/
theorem face_line_indices_counterexample :
    (∃ r f, ReadOBJModel intOps (oneFile longFaceFile) [] "model.obj" (zeroModel Int) = some r ∧
      r.ret = 1 ∧ r.mdl.faces = some [f] ∧
      f.vert_indices = some (List.replicate 63 (some 0)) ∧
      f.vert_indices ≠ some ((List.replicate 70 (1 : Int)).map (fun v => some (v - 1)))) ∧
    (∃ st1 f, SecondPass_line intOps (fgets_store (some "f 1  2 3\n".toList) []) triState =
        some (true, st1) ∧
      st1.mdl.faces = some [f] ∧ f.num_elems = 4 ∧
      f.vert_indices = some [some 0, some 1, some 1, some 2] ∧
      f.vert_indices ≠ some [some (1 - 1), some (2 - 1), some (3 - 1)]) :=
  ⟨⟨⟨1, { zeroModel Int with
          num_verts := 1, num_faces := 1,
          vertices := some [[some 1, some 2, some 3, some 1]],
          faces := some [⟨GL_POLYGON, 63, some (List.replicate 63 (some 0)), none, none⟩] },
        [], some (1, 0, 0, 1)⟩,
      ⟨GL_POLYGON, 63, some (List.replicate 63 (some 0)), none, none⟩,
      by decide!, rfl, rfl, rfl, by decide⟩,
    ⟨⟨{ triState.mdl with
          faces := some [⟨GL_QUADS, 4, some [some 0, some 1, some 1, some 2], none, none⟩] },
        3, 0, 0, 1, [], []⟩,
      ⟨GL_QUADS, 4, some [some 0, some 1, some 1, some 2], none, none⟩,
      by decide!, rfl, rfl, rfl, by decide⟩⟩

/-! ### The reads of the two loops -/


theorem takeLine_append (s : List Char) : (takeLine s).1 ++ (takeLine s).2 = s := by
  induction s with
  | nil => rfl
  | cons c s ih =>
    unfold takeLine
    split_ifs with h
    · rfl
    · simp [ih]

theorem takeLine_ne_nil (c : Char) (s : List Char) : (takeLine (c :: s)).1 ≠ [] := by
  unfold takeLine
  split_ifs <;> simp

theorem lines_eq_takeLine (c : Char) (s : List Char) :
    lines (c :: s) = (takeLine (c :: s)).1 :: lines (takeLine (c :: s)).2 := by
  induction s generalizing c with
  | nil =>
    unfold lines takeLine
    split_ifs <;> simp [lines, takeLine]
  | cons d s ih =>
    rw [lines, takeLine]
    split_ifs with h
    · rfl
    · rw [ih d]

theorem getChars_takeLine :
    ∀ (n : Nat) (s : List Char), (takeLine s).1.length ≤ n →
      getChars n s = ((takeLine s).1, (takeLine s).2, decide ('\n' ∉ s ∧ s.length < n)) := by
  intro n s
  induction s generalizing n with
  | nil =>
    intro _
    cases n with
    | zero => rfl
    | succ n => simp [getChars, takeLine]
  | cons c s ih =>
    intro h
    cases n with
    | zero =>
      have := takeLine_ne_nil c s
      simp only [Nat.le_zero_eq, List.length_eq_zero] at h
      exact absurd h this
    | succ n =>
      rw [getChars, takeLine]
      by_cases hc : c = '\n'
      · simp [hc]
      · rw [if_neg hc, if_neg hc]
        have h' : (takeLine s).1.length ≤ n := by
          rw [takeLine, if_neg hc] at h
          simpa using h
        rw [ih n h']
        have hc' : ¬ ('\n' = c) := fun e => hc e.symm
        simp [hc']


theorem lines_nil_iff (s : List Char) : lines s = [] ↔ s = [] := by
  cases s with
  | nil => simp [lines]
  | cons c s => rw [lines_eq_takeLine]; simp

theorem takeLine_snd_length (c : Char) (s : List Char) :
    (takeLine (c :: s)).2.length < (c :: s).length := by
  have h1 := takeLine_append (c :: s)
  have h2 := takeLine_ne_nil c s
  have h3 : ((takeLine (c :: s)).1 ++ (takeLine (c :: s)).2).length = (c :: s).length := by
    rw [h1]
  rw [List.length_append] at h3
  have : 0 < (takeLine (c :: s)).1.length := List.length_pos.mpr h2
  omega

theorem takeLine_no_newline (s : List Char) (h : '\n' ∉ s) : takeLine s = (s, []) := by
  induction s with
  | nil => rfl
  | cons c s ih =>
    have hc : c ≠ '\n' := fun e => h (by simp [e])
    rw [takeLine, if_neg hc, ih (fun hm => h (by simp [hm]))]

theorem takeLine_newline (s : List Char) (h : '\n' ∈ s) :
    (takeLine s).1.getLast? = some '\n' := by
  induction s with
  | nil => simp at h
  | cons c s ih =>
    rw [takeLine]
    by_cases hc : c = '\n'
    · simp [hc]
    · rw [if_neg hc]
      have hs : '\n' ∈ s := by
        rcases List.mem_cons.mp h with e | e
        · exact absurd e.symm hc
        · exact e
      have h1 := ih hs
      cases hl : (takeLine s).1 with
      | nil => rw [hl] at h1; simp at h1
      | cons a r => rw [hl] at h1; simpa [List.getLast?_cons_cons] using h1

theorem getLast?_no_newline (s : List Char) (h : '\n' ∉ s) : s.getLast? ≠ some '\n' := by
  intro e
  exact h (List.mem_of_getLast?_eq_some e)

theorem lastRead_cons_lines (size : Nat) (c : Char) (s : List Char)
    (h : (takeLine (c :: s)).2 ≠ []) :
    lastRead size (c :: s) = lastRead size (takeLine (c :: s)).2 := by
  unfold lastRead
  rw [lines_eq_takeLine]
  cases hl : lines (takeLine (c :: s)).2 with
  | nil => exact absurd ((lines_nil_iff _).mp hl) h
  | cons l ls => rw [List.getLast?_cons_cons]

theorem lastRead_single (size : Nat) (c : Char) (s : List Char)
    (h : (takeLine (c :: s)).2 = []) :
    lastRead size (c :: s) =
      if (takeLine (c :: s)).1.getLast? = some '\n' ∨ (takeLine (c :: s)).1.length = size - 1
      then [none] else [] := by
  unfold lastRead
  rw [lines_eq_takeLine, h]
  rfl

theorem readsAux_nil (size fuel : Nat) (hsize : 2 ≤ size) :
    readsAux size (fuel + 1) [] = [none] := by
  obtain ⟨k, hk⟩ : ∃ k, size - 1 = k + 1 := ⟨size - 2, by omega⟩
  simp [readsAux, hk, getChars]

theorem readsAux_eq (size : Nat) (hsize : 2 ≤ size) :
    ∀ (fuel : Nat) (s : List Char), s.length + 1 ≤ fuel → LinesFit (size - 1) s →
      readsAux size fuel s = (lines s).map some ++ lastRead size s := by
  intro fuel
  induction fuel with
  | zero => intro s h; omega
  | succ fuel ih =>
    intro s hfuel hfit
    cases s with
    | nil => rw [readsAux_nil size fuel hsize]; rfl
    | cons c s =>
      have hl : (takeLine (c :: s)).1.length ≤ size - 1 :=
        hfit _ (by rw [lines_eq_takeLine]; simp)
      have hfit' : LinesFit (size - 1) (takeLine (c :: s)).2 := by
        intro l hl'
        exact hfit l (by rw [lines_eq_takeLine]; simp [hl'])
      have hne := takeLine_ne_nil c s
      rw [readsAux, getChars_takeLine _ _ hl, lines_eq_takeLine]
      simp only [hne, if_false, List.map_cons, List.cons_append, List.cons.injEq, true_and]
      by_cases hnl : '\n' ∈ c :: s
      · have hflag : decide ('\n' ∉ c :: s ∧ (c :: s).length < size - 1) = false := by
          simp [hnl]
        rw [hflag]
        simp only [Bool.false_eq_true, if_false]
        rw [ih _ (by have := takeLine_snd_length c s; omega) hfit']
        by_cases hr : (takeLine (c :: s)).2 = []
        · rw [lastRead_single size c s hr, if_pos (Or.inl (takeLine_newline _ hnl)), hr]
          rfl
        · rw [lastRead_cons_lines size c s hr]
      · have htl := takeLine_no_newline _ hnl
        have hlen : (c :: s).length ≤ size - 1 := by rw [htl] at hl; exact hl
        have hr : (takeLine (c :: s)).2 = [] := by rw [htl]
        have hlast : lastRead size (c :: s) =
            if (c :: s).length = size - 1 then [none] else [] := by
          rw [lastRead_single size c s hr, htl]
          simp [getLast?_no_newline _ hnl]
        rw [hlast, htl]
        by_cases he : (c :: s).length = size - 1
        · have hflag : decide ('\n' ∉ c :: s ∧ (c :: s).length < size - 1) = false := by
            simp only [decide_eq_false_iff_not, not_and, not_lt]
            intro _; omega
          rw [hflag, if_pos he]
          simp only [Bool.false_eq_true, if_false, lines, List.map_nil, List.nil_append]
          cases fuel with
          | zero => simp at hfuel
          | succ fuel => exact readsAux_nil size fuel hsize
        · have hflag : decide ('\n' ∉ c :: s ∧ (c :: s).length < size - 1) = true := by
            simp only [decide_eq_true_eq]
            exact ⟨hnl, by omega⟩
          rw [hflag, if_neg he]
          simp [lines]

theorem reads_eq (size : Nat) (hsize : 2 ≤ size) (file : List Char)
    (hfit : LinesFit (size - 1) file) :
    reads size file = (lines file).map some ++ lastRead size file :=
  readsAux_eq size hsize _ file (le_refl _) hfit
theorem getChars_rest_length :
    ∀ (s : List Char) (n : Nat), 1 ≤ n → (getChars n s).2.2 = false →
      (getChars n s).2.1.length < s.length := by
  intro s
  induction s with
  | nil =>
    intro n hn h
    cases n with
    | zero => omega
    | succ n => simp [getChars] at h
  | cons c s ih =>
    intro n hn h
    cases n with
    | zero => omega
    | succ n =>
      rw [getChars] at h ⊢
      by_cases hc : c = '\n'
      · simp [hc]
      · rw [if_neg hc] at h ⊢
        cases n with
        | zero => simp [getChars]
        | succ n =>
          have := ih (n + 1) (by omega) h
          simp only [List.length_cons]
          omega

theorem readsAux_fuel_eq (size : Nat) (hsize : 2 ≤ size) :
    ∀ (fuel1 fuel2 : Nat) (s : List Char), s.length + 1 ≤ fuel1 → s.length + 1 ≤ fuel2 →
      readsAux size fuel1 s = readsAux size fuel2 s := by
  intro fuel1
  induction fuel1 with
  | zero => intro fuel2 s h; omega
  | succ fuel1 ih =>
    intro fuel2 s h1 h2
    cases fuel2 with
    | zero => omega
    | succ fuel2 =>
      rw [readsAux, readsAux]
      congr 1
      by_cases he : (getChars (size - 1) s).2.2 = true
      · rw [if_pos he, if_pos he]
      · rw [if_neg he, if_neg he]
        have hlt := getChars_rest_length s (size - 1) (by omega) (by simpa using he)
        exact ih fuel2 _ (by omega) (by omega)

/-- The fuel that `reads` gives to `readsAux` is enough: any larger fuel reads the same. -/
theorem readsAux_fuel (size : Nat) (hsize : 2 ≤ size) (file : List Char) (fuel : Nat)
    (h : file.length + 1 ≤ fuel) : readsAux size fuel file = reads size file :=
  readsAux_fuel_eq size hsize fuel (file.length + 1) file h (le_refl _)

theorem linesFit_mono {n m : Nat} (h : n ≤ m) {file : List Char} (hf : LinesFit n file) :
    LinesFit m file :=
  fun l hl => le_trans (hf l hl) h

theorem reads_128_256 (file : List Char) (hfit : LinesFit 127 file) :
    ∃ extra, (extra = [] ∨ extra = [none]) ∧ reads 128 file = reads 256 file ++ extra := by
  have h1 := reads_eq 128 (by omega) file hfit
  have h2 := reads_eq 256 (by omega) file (linesFit_mono (by omega) hfit)
  rw [h1, h2]
  unfold lastRead
  cases hl : (lines file).getLast? with
  | none => exact ⟨[], Or.inl rfl, by simp⟩
  | some l =>
    have hmem : l ∈ lines file := List.mem_of_getLast?_eq_some hl
    have hlen : l.length ≤ 127 := hfit l hmem
    dsimp only
    by_cases hn : l.getLast? = some '\n'
    · rw [if_pos (Or.inl hn), if_pos (Or.inl hn)]
      exact ⟨[], Or.inl rfl, by simp⟩
    · have h256 : ¬ (l.getLast? = some '\n' ∨ l.length = 256 - 1) := by
        intro h; rcases h with h | h
        · exact hn h
        · omega
      rw [if_neg h256]
      by_cases h127 : l.length = 128 - 1
      · rw [if_pos (Or.inr h127)]
        exact ⟨[none], Or.inr rfl, by simp⟩
      · rw [if_neg (by intro h; rcases h with h | h; exact hn h; exact h127 h)]
        exact ⟨[], Or.inl rfl, by simp⟩

theorem mem_reads (size : Nat) (hsize : 2 ≤ size) (file : List Char)
    (hfit : LinesFit (size - 1) file) (r : Option (List Char)) (hr : r ∈ reads size file) :
    r = none ∨ ∃ l ∈ lines file, r = some l := by
  rw [reads_eq size hsize file hfit, List.mem_append] at hr
  rcases hr with hr | hr
  · obtain ⟨l, hl, rfl⟩ := List.mem_map.mp hr
    exact Or.inr ⟨l, hl, rfl⟩
  · left
    unfold lastRead at hr
    split at hr
    · simpa using hr
    · split_ifs at hr
      · simpa using hr
      · simp at hr

/-! ### One line of each pass -/

theorem incr_eq {x k : Int} (h : incr x = some k) : k = x + 1 := by
  unfold incr at h
  split_ifs at h
  exact (Option.some.inj h).symm

theorem FirstPass_face_incr {F : Type} (m m1 : obj_model_t F) (e e1 : List Msg) (a b : Int)
    (h : ((incr m.num_faces).bind fun k =>
      some ({ m with num_faces := k, has_texCoords := a, has_normals := b }, e)) =
        some (m1, e1)) :
    m1.num_verts = m.num_verts ∧ m1.num_texCoords = m.num_texCoords ∧
    m1.num_normals = m.num_normals ∧
    m.num_faces ≤ m1.num_faces ∧ m1.num_faces ≤ m.num_faces + 1 ∧
    m1.vertices = m.vertices ∧ m1.texCoords = m.texCoords ∧ m1.normals = m.normals ∧
    m1.faces = m.faces := by
  rw [Option.bind_eq_some] at h
  obtain ⟨k, hk, h⟩ := h
  have := incr_eq hk
  simp only [Option.some.injEq, Prod.mk.injEq] at h
  obtain ⟨rfl, -⟩ := h
  simp; omega

theorem FirstPass_face_spec {F : Type} (s : List Char) (m m1 : obj_model_t F) (e e1 : List Msg)
    (h : FirstPass_face s m e = some (m1, e1)) :
    m1.num_verts = m.num_verts ∧ m1.num_texCoords = m.num_texCoords ∧
    m1.num_normals = m.num_normals ∧
    m.num_faces ≤ m1.num_faces ∧ m1.num_faces ≤ m.num_faces + 1 ∧
    m1.vertices = m.vertices ∧ m1.texCoords = m.texCoords ∧ m1.normals = m.normals ∧
    m1.faces = m.faces := by
  unfold FirstPass_face at h
  simp only [Option.bind_eq_bind] at h
  rw [Option.bind_eq_some] at h
  obtain ⟨r1, -, h⟩ := h
  split_ifs at h
  · exact FirstPass_face_incr m m1 e e1 _ _ h
  · rw [Option.bind_eq_some] at h
    obtain ⟨r2, -, h⟩ := h
    split_ifs at h
    · exact FirstPass_face_incr m m1 e e1 _ _ h
    · rw [Option.bind_eq_some] at h
      obtain ⟨r3, -, h⟩ := h
      split_ifs at h
      · exact FirstPass_face_incr m m1 e e1 _ _ h
      · rw [Option.bind_eq_some] at h
        obtain ⟨r4, -, h⟩ := h
        split_ifs at h
        · exact FirstPass_face_incr m m1 e e1 _ _ h
        · simp only [Option.some.injEq, Prod.mk.injEq] at h
          obtain ⟨rfl, -⟩ := h
          simp

theorem FirstPass_line_spec {F : Type} (buf : List Char) (m m1 : obj_model_t F)
    (e e1 : List Msg) (h : FirstPass_line buf m e = some (m1, e1)) :
    m1.num_verts = m.num_verts + (if lineKind buf = .vertex then 1 else 0) ∧
    m1.num_texCoords = m.num_texCoords + (if lineKind buf = .texCoord then 1 else 0) ∧
    m1.num_normals = m.num_normals + (if lineKind buf = .normal then 1 else 0) ∧
    m.num_faces ≤ m1.num_faces ∧
    m1.num_faces ≤ m.num_faces + (if lineKind buf = .face then 1 else 0) ∧
    m1.vertices = m.vertices ∧ m1.texCoords = m.texCoords ∧ m1.normals = m.normals ∧
    m1.faces = m.faces := by
  unfold FirstPass_line at h
  unfold lineKind
  cases h0 : buf[0]? with
  | none => rw [h0] at h; simp at h
  | some c0 =>
    rw [h0] at h
    simp only [Option.bind_eq_bind, Option.some_bind] at h
    by_cases hv : c0 = 'v'
    · rw [if_pos hv] at h
      cases h1 : buf[1]? with
      | none => rw [h1] at h; simp at h
      | some c1 =>
        rw [h1] at h
        simp only [Option.some_bind] at h
        simp only [if_pos hv]
        by_cases hs : c1 = ' '
        · rw [if_pos hs, Option.bind_eq_some] at h
          obtain ⟨k, hk, h⟩ := h
          have := incr_eq hk
          simp only [Option.some.injEq, Prod.mk.injEq] at h
          obtain ⟨rfl, -⟩ := h
          simp [hs]; omega
        · rw [if_neg hs] at h
          by_cases ht : c1 = 't'
          · rw [if_pos ht, Option.bind_eq_some] at h
            obtain ⟨k, hk, h⟩ := h
            have := incr_eq hk
            simp only [Option.some.injEq, Prod.mk.injEq] at h
            obtain ⟨rfl, -⟩ := h
            simp [hs, ht]; omega
          · rw [if_neg ht] at h
            by_cases hn : c1 = 'n'
            · rw [if_pos hn, Option.bind_eq_some] at h
              obtain ⟨k, hk, h⟩ := h
              have := incr_eq hk
              simp only [Option.some.injEq, Prod.mk.injEq] at h
              obtain ⟨rfl, -⟩ := h
              simp [hs, ht, hn]; omega
            · rw [if_neg hn] at h
              simp only [Option.some.injEq, Prod.mk.injEq] at h
              obtain ⟨rfl, -⟩ := h
              simp [hs, ht, hn]
    · rw [if_neg hv] at h
      simp only [if_neg hv]
      by_cases hf : c0 = 'f'
      · rw [if_pos hf, Option.bind_eq_some] at h
        obtain ⟨s, -, h⟩ := h
        have := FirstPass_face_spec s m m1 e e1 h
        simp only [if_pos hf]
        simpa using this
      · rw [if_neg hf] at h
        simp only [Option.some.injEq, Prod.mk.injEq] at h
        obtain ⟨rfl, -⟩ := h
        simp [hf]
theorem storeComp_spec {F : Type} (arr : Option (List (Vec F))) (p k : Nat) (x : F)
    (l1 : List (Vec F)) (h : storeComp arr p k x = some l1) :
    arrLen (some l1) = arrLen arr ∧ p < arrLen arr := by
  unfold storeComp at h
  cases arr with
  | none => simp at h
  | some l =>
    dsimp only at h
    cases hp : l[p]? with
    | none => rw [hp] at h; simp at h
    | some cell =>
      rw [hp] at h
      simp only [Option.some.injEq] at h
      subst h
      have : p < l.length := by
        by_contra hlt
        rw [List.getElem?_eq_none (by omega)] at hp
        exact Option.noConfusion hp
      simp [arrLen, this]

theorem storeFloats_spec {F : Type} (p : Nat) :
    ∀ (vals : List F) (k : Nat) (arr a1 : Option (List (Vec F))),
      storeFloats p k vals arr = some a1 →
      arrLen a1 = arrLen arr ∧ (vals ≠ [] → p < arrLen arr) := by
  intro vals
  induction vals with
  | nil =>
    intro k arr a1 h
    simp only [storeFloats, Option.some.injEq] at h
    subst h
    exact ⟨rfl, fun h => absurd rfl h⟩
  | cons x xs ih =>
    intro k arr a1 h
    rw [storeFloats] at h
    cases hc : storeComp arr p k x with
    | none => rw [hc] at h; simp at h
    | some l =>
      rw [hc] at h
      dsimp only at h
      have h1 := storeComp_spec arr p k x l hc
      have h2 := ih (k + 1) (some l) a1 h
      exact ⟨h2.1.trans h1.1, fun _ => h1.2⟩

theorem SecondPass_vertex_spec {F : Type} (ops : FloatOps F) (s : List Char) (st st1 : Pass2 F)
    (h : SecondPass_vertex ops s st = some (true, st1)) :
    ∃ a, st1 = { st with mdl := { st.mdl with vertices := a }, pvert := st.pvert + 1 } ∧
      arrLen a = arrLen st.mdl.vertices ∧ st.pvert < arrLen st.mdl.vertices := by
  unfold SecondPass_vertex at h
  simp only [Option.bind_eq_bind] at h
  rw [Option.bind_eq_some] at h
  obtain ⟨a1, h1, h⟩ := h
  have s1 := storeFloats_spec _ _ _ _ _ h1
  by_cases hlen : (sscanf_f ops 4 s).length ≠ 4
  · rw [if_pos hlen, Option.bind_eq_some] at h
    obtain ⟨a2, h2, h⟩ := h
    have s2 := storeFloats_spec _ _ _ _ _ h2
    by_cases hlen3 : (sscanf_f ops 3 s).length ≠ 3
    · rw [if_pos hlen3] at h
      simp at h
    · rw [if_neg hlen3, Option.bind_eq_some] at h
      obtain ⟨a3, h3, h⟩ := h
      have s3 := storeComp_spec _ _ _ _ _ h3
      simp only [Option.some.injEq, Prod.mk.injEq, true_and] at h
      refine ⟨some a3, h.symm, ?_, ?_⟩
      · rw [s3.1, s2.1, s1.1]
      · have := s3.2; rw [s2.1, s1.1] at this; exact this
  · rw [if_neg hlen] at h
    simp only [Option.some.injEq, Prod.mk.injEq, true_and] at h
    refine ⟨a1, h.symm, s1.1, s1.2 ?_⟩
    intro e; rw [e] at hlen; simp at hlen

theorem SecondPass_texCoord_spec {F : Type} (ops : FloatOps F) (s : List Char)
    (st st1 : Pass2 F) (h : SecondPass_texCoord ops s st = some (true, st1)) :
    ∃ a, st1 = { st with mdl := { st.mdl with texCoords := a }, puvw := st.puvw + 1 } ∧
      arrLen a = arrLen st.mdl.texCoords ∧ st.puvw < arrLen st.mdl.texCoords := by
  unfold SecondPass_texCoord at h
  simp only [Option.bind_eq_bind] at h
  rw [Option.bind_eq_some] at h
  obtain ⟨a1, h1, h⟩ := h
  have s1 := storeFloats_spec _ _ _ _ _ h1
  by_cases hlen : (sscanf_f ops 3 s).length ≠ 3
  · rw [if_pos hlen, Option.bind_eq_some] at h
    obtain ⟨a2, h2, h⟩ := h
    have s2 := storeFloats_spec _ _ _ _ _ h2
    by_cases hlen2 : (sscanf_f ops 2 s).length ≠ 2
    · rw [if_pos hlen2, Option.bind_eq_some] at h
      obtain ⟨a3, h3, h⟩ := h
      have s3 := storeFloats_spec _ _ _ _ _ h3
      by_cases hlen1 : (sscanf_f ops 1 s).length ≠ 1
      · rw [if_pos hlen1] at h
        simp at h
      · rw [if_neg hlen1, Option.bind_eq_some] at h
        obtain ⟨a4, h4, h⟩ := h
        have s4 := storeComp_spec _ _ _ _ _ h4
        rw [Option.bind_eq_some] at h
        obtain ⟨a5, h5, h⟩ := h
        have s5 := storeComp_spec _ _ _ _ _ h5
        simp only [Option.some.injEq, Prod.mk.injEq, true_and] at h
        refine ⟨some a5, h.symm, ?_, ?_⟩
        · rw [s5.1, s4.1, s3.1, s2.1, s1.1]
        · have := s4.2; rw [s3.1, s2.1, s1.1] at this; exact this
    · rw [if_neg hlen2, Option.bind_eq_some] at h
      obtain ⟨a3, h3, h⟩ := h
      have s3 := storeComp_spec _ _ _ _ _ h3
      simp only [Option.some.injEq, Prod.mk.injEq, true_and] at h
      refine ⟨some a3, h.symm, ?_, ?_⟩
      · rw [s3.1, s2.1, s1.1]
      · have := s3.2; rw [s2.1, s1.1] at this; exact this
  · rw [if_neg hlen] at h
    simp only [Option.some.injEq, Prod.mk.injEq, true_and] at h
    refine ⟨a1, h.symm, s1.1, s1.2 ?_⟩
    intro e; rw [e] at hlen; simp at hlen

theorem SecondPass_normal_spec {F : Type} (ops : FloatOps F) (s : List Char) (st st1 : Pass2 F)
    (h : SecondPass_normal ops s st = some (true, st1)) :
    ∃ a, st1 = { st with mdl := { st.mdl with normals := a }, pnorm := st.pnorm + 1 } ∧
      arrLen a = arrLen st.mdl.normals ∧ st.pnorm < arrLen st.mdl.normals := by
  unfold SecondPass_normal at h
  simp only [Option.bind_eq_bind] at h
  rw [Option.bind_eq_some] at h
  obtain ⟨a1, h1, h⟩ := h
  have s1 := storeFloats_spec _ _ _ _ _ h1
  by_cases hlen : (sscanf_f ops 3 s).length ≠ 3
  · rw [if_pos hlen] at h
    simp at h
  · rw [if_neg hlen] at h
    simp only [Option.some.injEq, Prod.mk.injEq, true_and] at h
    refine ⟨a1, h.symm, s1.1, s1.2 ?_⟩
    intro e; rw [e] at hlen; simp at hlen
theorem sameShape_refl (f : obj_face_t) : SameShape f f := ⟨rfl, rfl, rfl, rfl, rfl⟩

theorem sameShape_trans {f g h : obj_face_t} (h1 : SameShape f g) (h2 : SameShape g h) :
    SameShape f h :=
  ⟨h2.1.trans h1.1, h2.2.1.trans h1.2.1, h2.2.2.1.trans h1.2.2.1,
    h2.2.2.2.1.trans h1.2.2.2.1, h2.2.2.2.2.trans h1.2.2.2.2⟩

theorem storeInt_spec (a a1 : IntArray) (i : Nat) (v : Int) (h : storeInt a i v = some a1) :
    a1.map List.length = a.map List.length ∧ Cell a i := by
  unfold storeInt at h
  cases a with
  | none => simp at h
  | some l =>
    dsimp only at h
    split_ifs at h with hi
    simp only [Option.some.injEq] at h
    subst h
    exact ⟨by simp, l, rfl, hi⟩

theorem sameShape_setIndices (f : obj_face_t) (fld : IdxField) (a : IntArray)
    (h : a.map List.length = (f.indices fld).map List.length) :
    SameShape f (f.setIndices fld a) := by
  cases fld <;> simp [SameShape, obj_face_t.setIndices, obj_face_t.indices] at h ⊢ <;> exact h

theorem storeArgs_spec :
    ∀ (flds : List IdxField) (vals : List Int) (i : Nat) (f f1 : obj_face_t),
      storeArgs flds vals i f = some f1 → SameShape f f1 := by
  intro flds
  induction flds with
  | nil =>
    intro vals i f f1 h
    simp only [storeArgs, Option.some.injEq] at h
    subst h; exact sameShape_refl f
  | cons fld flds ih =>
    intro vals i f f1 h
    cases vals with
    | nil =>
      simp only [storeArgs, Option.some.injEq] at h
      subst h; exact sameShape_refl f
    | cons v vs =>
      rw [storeArgs] at h
      cases hs : storeInt (f.indices fld) i v with
      | none => rw [hs] at h; simp at h
      | some a =>
        rw [hs] at h
        dsimp only at h
        exact sameShape_trans (sameShape_setIndices f fld a (storeInt_spec _ _ _ _ hs).1)
          (ih vs i _ f1 h)

theorem sscanf_face_spec (fmt : List Directive) (targets : List IdxField) (pbuf : List Char)
    (i : Nat) (f : obj_face_t) (r : Nat × obj_face_t)
    (h : sscanf_face fmt targets pbuf i f = some r) : SameShape f r.2 := by
  unfold sscanf_face at h
  cases hs : sscanf_d fmt pbuf with
  | none => rw [hs] at h; simp at h
  | some vals =>
    rw [hs] at h
    dsimp only at h
    rw [Option.map_eq_some'] at h
    obtain ⟨g, hg, rfl⟩ := h
    exact storeArgs_spec _ _ _ _ _ hg

theorem SecondPass_entry_spec (pbuf : List Char) (i : Nat) (f f1 : obj_face_t)
    (h : SecondPass_entry pbuf i f = some f1) : SameShape f f1 := by
  unfold SecondPass_entry at h
  simp only [Option.bind_eq_bind] at h
  rw [Option.bind_eq_some] at h
  obtain ⟨r1, h1, h⟩ := h
  have s1 := sscanf_face_spec _ _ _ _ _ _ h1
  by_cases c1 : r1.1 ≠ 3
  · rw [if_pos c1, Option.bind_eq_some] at h
    obtain ⟨r2, h2, h⟩ := h
    have s2 := sameShape_trans s1 (sscanf_face_spec _ _ _ _ _ _ h2)
    by_cases c2 : r2.1 ≠ 2
    · rw [if_pos c2, Option.bind_eq_some] at h
      obtain ⟨r3, h3, h⟩ := h
      have s3 := sameShape_trans s2 (sscanf_face_spec _ _ _ _ _ _ h3)
      by_cases c3 : r3.1 ≠ 2
      · rw [if_pos c3, Option.bind_eq_some] at h
        obtain ⟨r4, h4, h⟩ := h
        have s4 := sameShape_trans s3 (sscanf_face_spec _ _ _ _ _ _ h4)
        simp only [Option.some.injEq] at h
        subst h; exact s4
      · rw [if_neg c3] at h
        simp only [Option.some.injEq] at h
        subst h; exact s3
    · rw [if_neg c2] at h
      simp only [Option.some.injEq] at h
      subst h; exact s2
  · rw [if_neg c1] at h
    simp only [Option.some.injEq] at h
    subst h; exact s1

theorem decrAt_spec (a a1 : IntArray) (i : Nat) (h : decrAt a i = some a1) :
    a1.map List.length = a.map List.length ∧ Cell a i := by
  unfold decrAt at h
  cases a with
  | none => simp at h
  | some l =>
    dsimp only at h
    cases hi : l[i]? with
    | none => rw [hi] at h; simp at h
    | some c =>
      have hlt : i < l.length := by
        by_contra hlt
        rw [List.getElem?_eq_none (by omega)] at hi
        exact Option.noConfusion hi
      rw [hi] at h
      cases c with
      | none =>
        simp only [Option.some.injEq] at h
        subst h; exact ⟨rfl, l, rfl, hlt⟩
      | some v =>
        dsimp only at h
        split_ifs at h
        simp only [Option.some.injEq] at h
        subst h; exact ⟨by simp, l, rfl, hlt⟩

theorem SecondPass_decr_spec (ht hn : Int) (i : Nat) (f f1 : obj_face_t)
    (h : SecondPass_decr ht hn i f = some f1) :
    SameShape f f1 ∧ Cell f.vert_indices i ∧ (ht ≠ 0 → Cell f.uvw_indices i) ∧
      (hn ≠ 0 → Cell f.norm_indices i) := by
  unfold SecondPass_decr at h
  cases h1 : decrAt f.vert_indices i with
  | none => rw [h1] at h; simp at h
  | some a =>
    rw [h1] at h
    dsimp only at h
    have s1 := decrAt_spec _ _ _ h1
    cases h2 : (if ht ≠ 0 then decrAt f.uvw_indices i else some f.uvw_indices) with
    | none => rw [h2] at h; simp at h
    | some b =>
      rw [h2] at h
      dsimp only at h
      cases h3 : (if hn ≠ 0 then decrAt f.norm_indices i else some f.norm_indices) with
      | none => rw [h3] at h; simp at h
      | some c =>
        rw [h3] at h
        simp only [Option.some.injEq] at h
        subst h
        have s2 : b.map List.length = f.uvw_indices.map List.length ∧
            (ht ≠ 0 → Cell f.uvw_indices i) := by
          by_cases c2 : ht ≠ 0
          · rw [if_pos c2] at h2
            have := decrAt_spec _ _ _ h2
            exact ⟨this.1, fun _ => this.2⟩
          · rw [if_neg c2] at h2
            simp only [Option.some.injEq] at h2
            subst h2
            exact ⟨rfl, fun h => absurd h c2⟩
        have s3 : c.map List.length = f.norm_indices.map List.length ∧
            (hn ≠ 0 → Cell f.norm_indices i) := by
          by_cases c3 : hn ≠ 0
          · rw [if_pos c3] at h3
            have := decrAt_spec _ _ _ h3
            exact ⟨this.1, fun _ => this.2⟩
          · rw [if_neg c3] at h3
            simp only [Option.some.injEq] at h3
            subst h3
            exact ⟨rfl, fun h => absurd h c3⟩
        exact ⟨⟨rfl, rfl, s1.1, s2.1, s3.1⟩, s1.2, s2.2, s3.2⟩

theorem cell_ne_none {a b : IntArray} {i : Nat} (h : Cell b i)
    (hs : b.map List.length = a.map List.length) : a ≠ none := by
  obtain ⟨l, rfl, -⟩ := h
  intro e; subst e; simp at hs

theorem SecondPass_entries_spec (ht hn : Int) :
    ∀ (n i : Nat) (pbuf : List Char) (f f1 : obj_face_t),
      SecondPass_entries ht hn n i pbuf f = some f1 →
      SameShape f f1 ∧
        (1 ≤ n → f.vert_indices ≠ none ∧ (ht ≠ 0 → f.uvw_indices ≠ none) ∧
          (hn ≠ 0 → f.norm_indices ≠ none)) := by
  intro n
  induction n with
  | zero =>
    intro i pbuf f f1 h
    simp only [SecondPass_entries, Option.some.injEq] at h
    subst h
    exact ⟨sameShape_refl f, fun h => absurd h (by omega)⟩
  | succ n ih =>
    intro i pbuf f f1 h
    rw [SecondPass_entries] at h
    cases h0 : afterSpace pbuf with
    | none => rw [h0] at h; simp at h
    | some p =>
      rw [h0] at h
      dsimp only at h
      cases h1 : SecondPass_entry p i f with
      | none => rw [h1] at h; simp at h
      | some g1 =>
        rw [h1] at h
        dsimp only at h
        cases h2 : SecondPass_decr ht hn i g1 with
        | none => rw [h2] at h; simp at h
        | some g2 =>
          rw [h2] at h
          dsimp only at h
          have s1 := SecondPass_entry_spec _ _ _ _ h1
          have s2 := SecondPass_decr_spec _ _ _ _ _ h2
          have s3 := ih _ _ _ _ h
          refine ⟨sameShape_trans s1 (sameShape_trans s2.1 s3.1), fun _ => ⟨?_, ?_, ?_⟩⟩
          · exact cell_ne_none s2.2.1 s1.2.2.1
          · intro c; exact cell_ne_none (s2.2.2.1 c) s1.2.2.2.1
          · intro c; exact cell_ne_none (s2.2.2.2 c) s1.2.2.2.2

theorem allocArray_ne_none {α : Type} (init : α) (n : Nat) (heap : List Bool)
    (h : (allocArray init (n : Int) heap).1 ≠ none) :
    (allocArray init (n : Int) heap).1 = some (List.replicate n init) := by
  unfold allocArray at h ⊢
  split_ifs at h ⊢ with c
  · simp
  · exact absurd rfl h

theorem SecondPass_face_spec {F : Type} (s : List Char) (st st1 : Pass2 F)
    (h : SecondPass_face s st = some (true, st1)) :
    ∃ fs f0 f heap1, st.mdl.faces = some fs ∧ fs[st.pface]? = some f0 ∧
      st1 = { st with mdl := { st.mdl with faces := some (fs.set st.pface f) },
                      pface := st.pface + 1, heap := heap1 } ∧
      FaceShape st.mdl.has_texCoords st.mdl.has_normals f0 f := by
  unfold SecondPass_face at h
  cases hfs : st.mdl.faces with
  | none => rw [hfs] at h; simp at h
  | some fs =>
    rw [hfs] at h
    dsimp only at h
    cases hf0 : fs[st.pface]? with
    | none => rw [hf0] at h; simp at h
    | some f0 =>
      rw [hf0] at h
      dsimp only at h
      by_cases hc : s.count ' ' < 3
      · rw [if_pos hc] at h; simp at h
      · rw [if_neg hc] at h
        cases he : SecondPass_entries st.mdl.has_texCoords st.mdl.has_normals (s.count ' ') 0 s
            ⟨faceType (s.count ' '), (s.count ' ' : Nat),
              (allocArray (none : Option Int) (s.count ' ' : Nat) st.heap).1,
              (if st.mdl.has_texCoords ≠ 0 then
                allocArray (none : Option Int) (s.count ' ' : Nat)
                  (allocArray (none : Option Int) (s.count ' ' : Nat) st.heap).2
                else (f0.uvw_indices,
                  (allocArray (none : Option Int) (s.count ' ' : Nat) st.heap).2)).1,
              (if st.mdl.has_normals ≠ 0 then
                allocArray (none : Option Int) (s.count ' ' : Nat)
                  (if st.mdl.has_texCoords ≠ 0 then
                    allocArray (none : Option Int) (s.count ' ' : Nat)
                      (allocArray (none : Option Int) (s.count ' ' : Nat) st.heap).2
                    else (f0.uvw_indices,
                      (allocArray (none : Option Int) (s.count ' ' : Nat) st.heap).2)).2
                else (f0.norm_indices,
                  (if st.mdl.has_texCoords ≠ 0 then
                    allocArray (none : Option Int) (s.count ' ' : Nat)
                      (allocArray (none : Option Int) (s.count ' ' : Nat) st.heap).2
                    else (f0.uvw_indices,
                      (allocArray (none : Option Int) (s.count ' ' : Nat) st.heap).2)).2)).1⟩ with
        | none => rw [he] at h; simp at h
        | some f =>
          rw [he] at h
          simp only [Option.some.injEq, Prod.mk.injEq, true_and] at h
          refine ⟨fs, f0, f, _, rfl, hf0, h.symm, ?_⟩
          obtain ⟨sh, nn⟩ := SecondPass_entries_spec _ _ _ _ _ _ _ he
          obtain ⟨n1, n2, n3⟩ := nn (by omega)
          obtain ⟨t1, t2, t3, t4, t5⟩ := sh
          dsimp only at n1 n2 n3 t1 t2 t3 t4 t5
          refine ⟨s.count ' ', by omega, t2, t1, ?_, ?_, ?_⟩
          · rw [t3, allocArray_ne_none _ _ _ n1]; simp
          · by_cases c : st.mdl.has_texCoords ≠ 0
            · rw [if_pos c, t4]
              have := n2 c
              rw [if_pos c] at this ⊢
              rw [allocArray_ne_none _ _ _ this]; simp
            · rw [if_neg c, t4, if_neg c]
          · by_cases c : st.mdl.has_normals ≠ 0
            · rw [if_pos c, t5]
              have := n3 c
              rw [if_pos c] at this ⊢
              rw [allocArray_ne_none _ _ _ this]; simp
            · rw [if_neg c, t5, if_neg c]

/-! ### The loops of the two passes -/

theorem SecondPass_line_spec {F : Type} (ops : FloatOps F) (buf : List Char) (st st1 : Pass2 F)
    (h : SecondPass_line ops buf st = some (true, st1)) :
    (lineKind buf = .vertex → ∃ s, SecondPass_vertex ops s st = some (true, st1)) ∧
    (lineKind buf = .texCoord → ∃ s, SecondPass_texCoord ops s st = some (true, st1)) ∧
    (lineKind buf = .normal → ∃ s, SecondPass_normal ops s st = some (true, st1)) ∧
    (lineKind buf = .face → ∃ s, cstrAt buf 0 = some s ∧
      SecondPass_face s st = some (true, st1)) ∧
    (lineKind buf = .other → st1 = st) := by
  unfold SecondPass_line at h
  unfold lineKind
  cases h0 : buf[0]? with
  | none => rw [h0] at h; simp at h
  | some c0 =>
    rw [h0] at h
    simp only [Option.bind_eq_bind, Option.some_bind] at h
    dsimp only
    by_cases hv : c0 = 'v'
    · rw [if_pos hv] at h
      rw [if_pos hv]
      cases h1 : buf[1]? with
      | none => rw [h1] at h; simp at h
      | some c1 =>
        rw [h1] at h
        simp only [Option.some_bind] at h
        dsimp only
        by_cases hs : c1 = ' '
        · rw [if_pos hs, Option.bind_eq_some] at h
          obtain ⟨s, -, h⟩ := h
          rw [if_pos hs]
          simp only [true_implies, reduceCtorEq, false_implies, and_true]
          exact ⟨s, h⟩
        · rw [if_neg hs] at h
          rw [if_neg hs]
          by_cases ht : c1 = 't'
          · rw [if_pos ht, Option.bind_eq_some] at h
            obtain ⟨s, -, h⟩ := h
            rw [if_pos ht]
            simp only [true_implies, reduceCtorEq, false_implies, and_true, true_and]
            exact ⟨s, h⟩
          · rw [if_neg ht] at h
            rw [if_neg ht]
            by_cases hn : c1 = 'n'
            · rw [if_pos hn, Option.bind_eq_some] at h
              obtain ⟨s, -, h⟩ := h
              rw [if_pos hn]
              simp only [true_implies, reduceCtorEq, false_implies, and_true, true_and]
              exact ⟨s, h⟩
            · rw [if_neg hn] at h
              rw [if_neg hn]
              simp only [Option.some.injEq, Prod.mk.injEq, true_and] at h
              simp only [true_implies, reduceCtorEq, false_implies, and_true, true_and]
              exact h.symm
    · rw [if_neg hv] at h
      rw [if_neg hv]
      by_cases hf : c0 = 'f'
      · rw [if_pos hf, Option.bind_eq_some] at h
        obtain ⟨s, hs, h⟩ := h
        rw [if_pos hf]
        simp only [true_implies, reduceCtorEq, false_implies, and_true, true_and]
        exact ⟨s, hs, h⟩
      · rw [if_neg hf] at h
        rw [if_neg hf]
        simp only [Option.some.injEq, Prod.mk.injEq, true_and] at h
        simp only [true_implies, reduceCtorEq, false_implies, and_true, true_and]
        exact h.symm

theorem arrLen_set {α : Type} (l : List α) (i : Nat) (x : α) :
    arrLen (some (l.set i x)) = arrLen (some l) := by
  simp [arrLen]

/-- What one line of `SecondPass` that does not make it return does to the state. -/
theorem SecondPass_line_frame {F : Type} (ops : FloatOps F) (buf : List Char)
    (st st1 : Pass2 F) (h : SecondPass_line ops buf st = some (true, st1)) :
    SameCounts st.mdl st1.mdl ∧ SameSizes st.mdl st1.mdl ∧
    st1.pvert = st.pvert + (if lineKind buf = .vertex then 1 else 0) ∧
    st1.puvw = st.puvw + (if lineKind buf = .texCoord then 1 else 0) ∧
    st1.pnorm = st.pnorm + (if lineKind buf = .normal then 1 else 0) ∧
    st1.pface = st.pface + (if lineKind buf = .face then 1 else 0) ∧
    st1.pvert ≤ max st.pvert (arrLen st.mdl.vertices) ∧
    st1.puvw ≤ max st.puvw (arrLen st.mdl.texCoords) ∧
    st1.pnorm ≤ max st.pnorm (arrLen st.mdl.normals) ∧
    st1.pface ≤ max st.pface (arrLen st.mdl.faces) := by
  obtain ⟨h1, h2, h3, h4, h5⟩ := SecondPass_line_spec ops buf st st1 h
  cases hk : lineKind buf with
  | vertex =>
    obtain ⟨s, hs⟩ := h1 hk
    obtain ⟨a, rfl, ha, hlt⟩ := SecondPass_vertex_spec ops s st st1 hs
    simp [SameCounts, SameSizes, ha]
    omega
  | texCoord =>
    obtain ⟨s, hs⟩ := h2 hk
    obtain ⟨a, rfl, ha, hlt⟩ := SecondPass_texCoord_spec ops s st st1 hs
    simp [SameCounts, SameSizes, ha]
    omega
  | normal =>
    obtain ⟨s, hs⟩ := h3 hk
    obtain ⟨a, rfl, ha, hlt⟩ := SecondPass_normal_spec ops s st st1 hs
    simp [SameCounts, SameSizes, ha]
    omega
  | face =>
    obtain ⟨s, -, hs⟩ := h4 hk
    obtain ⟨fs, f0, f, heap1, hfs, hf0, rfl, -⟩ := SecondPass_face_spec s st st1 hs
    have hlt : st.pface < fs.length := by
      by_contra hlt
      rw [List.getElem?_eq_none (by omega)] at hf0
      exact Option.noConfusion hf0
    simp [SameCounts, SameSizes, hfs, arrLen]
    omega
  | other =>
    have := h5 hk
    subst this
    simp [SameCounts, SameSizes]
theorem sameCounts_trans {F : Type} {a b c : obj_model_t F} (hab : SameCounts a b)
    (hbc : SameCounts b c) : SameCounts a c :=
  ⟨hbc.1.trans hab.1, hbc.2.1.trans hab.2.1, hbc.2.2.1.trans hab.2.2.1,
    hbc.2.2.2.1.trans hab.2.2.2.1, hbc.2.2.2.2.1.trans hab.2.2.2.2.1,
    hbc.2.2.2.2.2.trans hab.2.2.2.2.2⟩

theorem sameSizes_trans {F : Type} {a b c : obj_model_t F} (hab : SameSizes a b)
    (hbc : SameSizes b c) : SameSizes a c :=
  ⟨hbc.1.trans hab.1, hbc.2.1.trans hab.2.1, hbc.2.2.1.trans hab.2.2.1,
    hbc.2.2.2.trans hab.2.2.2⟩

theorem SecondPass_loop_cons {F : Type} (ops : FloatOps F) (r : Option (List Char))
    (rs : List (Option (List Char))) (buf : List Char) (st st1 : Pass2 F)
    (h : SecondPass_loop ops (r :: rs) buf st = some (1, st1)) :
    ∃ st2, SecondPass_line ops (fgets_store r buf) st = some (true, st2) ∧
      SecondPass_loop ops rs (fgets_store r buf) st2 = some (1, st1) := by
  rw [SecondPass_loop] at h
  cases hl : SecondPass_line ops (fgets_store r buf) st with
  | none => rw [hl] at h; simp at h
  | some p =>
    obtain ⟨b, st2⟩ := p
    rw [hl] at h
    cases b with
    | false => simp at h
    | true => exact ⟨st2, rfl, h⟩

theorem SecondPass_loop_frame {F : Type} (ops : FloatOps F) :
    ∀ (rs : List (Option (List Char))) (buf : List Char) (st st1 : Pass2 F),
      SecondPass_loop ops rs buf st = some (1, st1) →
      SameCounts st.mdl st1.mdl ∧ SameSizes st.mdl st1.mdl ∧
      st.pvert ≤ st1.pvert ∧ st.puvw ≤ st1.puvw ∧ st.pnorm ≤ st1.pnorm ∧
      st.pface ≤ st1.pface ∧
      st1.pvert ≤ max st.pvert (arrLen st.mdl.vertices) ∧
      st1.puvw ≤ max st.puvw (arrLen st.mdl.texCoords) ∧
      st1.pnorm ≤ max st.pnorm (arrLen st.mdl.normals) ∧
      st1.pface ≤ max st.pface (arrLen st.mdl.faces) := by
  intro rs
  induction rs with
  | nil =>
    intro buf st st1 h
    simp only [SecondPass_loop, Option.some.injEq, Prod.mk.injEq, true_and] at h
    subst h
    simp [SameCounts, SameSizes]
  | cons r rs ih =>
    intro buf st st1 h
    obtain ⟨st2, hl, hr⟩ := SecondPass_loop_cons ops r rs buf st st1 h
    obtain ⟨c1, z1, v1, u1, n1, f1, bv1, bu1, bn1, bf1⟩ :=
      SecondPass_line_frame ops _ st st2 hl
    obtain ⟨c2, z2, v2, u2, n2, f2, bv2, bu2, bn2, bf2⟩ := ih _ st2 st1 hr
    obtain ⟨zv, zu, zn, zf⟩ := z1
    rw [zv] at bv2; rw [zu] at bu2; rw [zn] at bn2; rw [zf] at bf2
    refine ⟨sameCounts_trans c1 c2, sameSizes_trans ⟨zv, zu, zn, zf⟩ z2, ?_, ?_, ?_, ?_, ?_, ?_,
      ?_, ?_⟩
    · split_ifs at v1 <;> omega
    · split_ifs at u1 <;> omega
    · split_ifs at n1 <;> omega
    · split_ifs at f1 <;> omega
    · omega
    · omega
    · omega
    · omega

theorem SecondPass_loop_append {F : Type} (ops : FloatOps F) :
    ∀ (rs rs1 : List (Option (List Char))) (buf : List Char) (st st1 : Pass2 F),
      SecondPass_loop ops (rs ++ rs1) buf st = some (1, st1) →
      ∃ st2, SecondPass_loop ops rs buf st = some (1, st2) ∧
        SecondPass_loop ops rs1 (bufAfter rs buf) st2 = some (1, st1) := by
  intro rs
  induction rs with
  | nil => intro rs1 buf st st1 h; exact ⟨st, rfl, h⟩
  | cons r rs ih =>
    intro rs1 buf st st1 h
    rw [List.cons_append] at h
    obtain ⟨st2, hl, hr⟩ := SecondPass_loop_cons ops r _ buf st st1 h
    obtain ⟨st3, h3, h4⟩ := ih rs1 _ st2 st1 hr
    refine ⟨st3, ?_, h4⟩
    rw [SecondPass_loop, hl]
    exact h3

theorem FirstPass_loop_cons {F : Type} (r : Option (List Char))
    (rs : List (Option (List Char))) (buf : List Char) (m m1 : obj_model_t F)
    (e e1 : List Msg) (h : FirstPass_loop (r :: rs) buf m e = some (m1, e1)) :
    ∃ m2 e2, FirstPass_line (fgets_store r buf) m e = some (m2, e2) ∧
      FirstPass_loop rs (fgets_store r buf) m2 e2 = some (m1, e1) := by
  rw [FirstPass_loop] at h
  cases hl : FirstPass_line (fgets_store r buf) m e with
  | none => rw [hl] at h; simp at h
  | some p =>
    obtain ⟨m2, e2⟩ := p
    rw [hl] at h
    exact ⟨m2, e2, rfl, h⟩

theorem FirstPass_loop_frame {F : Type} :
    ∀ (rs : List (Option (List Char))) (buf : List Char) (m m1 : obj_model_t F)
      (e e1 : List Msg), FirstPass_loop rs buf m e = some (m1, e1) →
      m.num_verts ≤ m1.num_verts ∧ m.num_texCoords ≤ m1.num_texCoords ∧
      m.num_normals ≤ m1.num_normals ∧ m.num_faces ≤ m1.num_faces ∧
      m1.vertices = m.vertices ∧ m1.texCoords = m.texCoords ∧ m1.normals = m.normals ∧
      m1.faces = m.faces := by
  intro rs
  induction rs with
  | nil =>
    intro buf m m1 e e1 h
    simp only [FirstPass_loop, Option.some.injEq, Prod.mk.injEq] at h
    obtain ⟨rfl, -⟩ := h
    simp
  | cons r rs ih =>
    intro buf m m1 e e1 h
    obtain ⟨m2, e2, hl, hr⟩ := FirstPass_loop_cons r rs buf m m1 e e1 h
    obtain ⟨a1, a2, a3, a4, a5, a6, a7, a8, a9⟩ := FirstPass_line_spec _ m m2 e e2 hl
    obtain ⟨b1, b2, b3, b4, b5, b6, b7, b8⟩ := ih _ m2 m1 e2 e1 hr
    refine ⟨?_, ?_, ?_, ?_, b5.trans a6, b6.trans a7, b7.trans a8, b8.trans a9⟩
    · split_ifs at a1 <;> omega
    · split_ifs at a2 <;> omega
    · split_ifs at a3 <;> omega
    · omega

/-- The two passes in step: over the same `fgets` results, the cursors of `SecondPass`
advance as much as the counts of `FirstPass` grow, and `pface` at least as much as
`num_faces`. -/
theorem passes_in_step {F : Type} (ops : FloatOps F) :
    ∀ (rs : List (Option (List Char))) (buf : List Char) (m m1 : obj_model_t F)
      (e e1 : List Msg) (st st1 : Pass2 F),
      FirstPass_loop rs buf m e = some (m1, e1) →
      SecondPass_loop ops rs buf st = some (1, st1) →
      (st1.pvert : Int) - st.pvert = m1.num_verts - m.num_verts ∧
      (st1.puvw : Int) - st.puvw = m1.num_texCoords - m.num_texCoords ∧
      (st1.pnorm : Int) - st.pnorm = m1.num_normals - m.num_normals ∧
      m1.num_faces - m.num_faces ≤ (st1.pface : Int) - st.pface := by
  intro rs
  induction rs with
  | nil =>
    intro buf m m1 e e1 st st1 h1 h2
    simp only [FirstPass_loop, Option.some.injEq, Prod.mk.injEq] at h1
    simp only [SecondPass_loop, Option.some.injEq, Prod.mk.injEq, true_and] at h2
    obtain ⟨rfl, -⟩ := h1
    subst h2
    simp
  | cons r rs ih =>
    intro buf m m1 e e1 st st1 h1 h2
    obtain ⟨m2, e2, hl1, hr1⟩ := FirstPass_loop_cons r rs buf m m1 e e1 h1
    obtain ⟨st2, hl2, hr2⟩ := SecondPass_loop_cons ops r rs buf st st1 h2
    obtain ⟨a1, a2, a3, a4, a5, -⟩ := FirstPass_line_spec _ m m2 e e2 hl1
    obtain ⟨-, -, v1, u1, n1, f1, -⟩ := SecondPass_line_frame ops _ st st2 hl2
    obtain ⟨i1, i2, i3, i4⟩ := ih _ m2 m1 e2 e1 st2 st1 hr1 hr2
    refine ⟨?_, ?_, ?_, ?_⟩
    · split_ifs at a1 v1 <;> omega
    · split_ifs at a2 u1 <;> omega
    · split_ifs at a3 n1 <;> omega
    · split_ifs at a5 f1 <;> omega

/-! ### `MallocModel` -/

theorem allocArray_some {α : Type} (init : α) (n : Int) (heap : List Bool) (a : List α)
    (h : (allocArray init n heap).1 = some a) : a = List.replicate n.toNat init := by
  unfold allocArray at h
  split_ifs at h with c
  simp only [Option.some.injEq] at h; exact h.symm

theorem MallocModel_faces_spec {F : Type} (m : obj_model_t F) (heap : List Bool)
    (h : (MallocModel_faces m heap).1 ≠ 0) (hf : m.faces = none) :
    SameCounts m (MallocModel_faces m heap).2.1 ∧
    (MallocModel_faces m heap).2.1.vertices = m.vertices ∧
    (MallocModel_faces m heap).2.1.texCoords = m.texCoords ∧
    (MallocModel_faces m heap).2.1.normals = m.normals ∧
    arrLen (MallocModel_faces m heap).2.1.faces = m.num_faces.toNat ∧
    (∀ fs, (MallocModel_faces m heap).2.1.faces = some fs → ∀ f ∈ fs, f = zeroFace) := by
  unfold MallocModel_faces at h ⊢
  by_cases c : m.num_faces ≠ 0
  · rw [if_pos c] at h ⊢
    cases ha : allocArray zeroFace m.num_faces heap with
    | mk a hp =>
      simp only [ha] at h ⊢
      cases a with
      | none => exact absurd rfl h
      | some l =>
        have hl : l = List.replicate m.num_faces.toNat zeroFace :=
          allocArray_some zeroFace m.num_faces heap l (by rw [ha])
        refine ⟨⟨rfl, rfl, rfl, rfl, rfl, rfl⟩, rfl, rfl, rfl, ?_, ?_⟩
        · simp [arrLen, hl]
        · intro fs hfs f hmem
          simp only [Option.some.injEq] at hfs
          subst hfs; subst hl
          exact List.eq_of_mem_replicate hmem
  · rw [if_neg c]
    have c0 : m.num_faces = 0 := by simpa using c
    refine ⟨⟨rfl, rfl, rfl, rfl, rfl, rfl⟩, rfl, rfl, rfl, ?_, ?_⟩
    · simp [hf, c0, arrLen]
    · intro fs hfs; simp [hf] at hfs

theorem MallocModel_normals_spec {F : Type} (m : obj_model_t F) (heap : List Bool)
    (h : (MallocModel_normals m heap).1 ≠ 0) (hn : m.normals = none) (hf : m.faces = none) :
    SameCounts m (MallocModel_normals m heap).2.1 ∧
    (MallocModel_normals m heap).2.1.vertices = m.vertices ∧
    (MallocModel_normals m heap).2.1.texCoords = m.texCoords ∧
    arrLen (MallocModel_normals m heap).2.1.normals = m.num_normals.toNat ∧
    arrLen (MallocModel_normals m heap).2.1.faces = m.num_faces.toNat ∧
    (∀ fs, (MallocModel_normals m heap).2.1.faces = some fs → ∀ f ∈ fs, f = zeroFace) := by
  unfold MallocModel_normals at h ⊢
  by_cases c : m.num_normals ≠ 0
  · rw [if_pos c] at h ⊢
    cases ha : allocArray (List.replicate 3 (none : Option F)) m.num_normals heap with
    | mk a hp =>
      simp only [ha] at h ⊢
      cases a with
      | none => exact absurd rfl h
      | some l =>
        have hl := allocArray_some _ m.num_normals heap l (by rw [ha])
        dsimp only at h ⊢
        obtain ⟨s1, s2, s3, s4, s5, s6⟩ :=
          MallocModel_faces_spec { m with normals := some l } hp h hf
        refine ⟨s1, s2, s3, ?_, s5, s6⟩
        rw [s4]; simp [arrLen, hl]
  · rw [if_neg c] at h ⊢
    have c0 : m.num_normals = 0 := by simpa using c
    obtain ⟨s1, s2, s3, s4, s5, s6⟩ := MallocModel_faces_spec m heap h hf
    refine ⟨s1, s2, s3, ?_, s5, s6⟩
    rw [s4, hn, c0]; rfl

theorem MallocModel_texCoords_spec {F : Type} (m : obj_model_t F) (heap : List Bool)
    (h : (MallocModel_texCoords m heap).1 ≠ 0) (ht : m.texCoords = none)
    (hn : m.normals = none) (hf : m.faces = none) :
    SameCounts m (MallocModel_texCoords m heap).2.1 ∧
    (MallocModel_texCoords m heap).2.1.vertices = m.vertices ∧
    arrLen (MallocModel_texCoords m heap).2.1.texCoords = m.num_texCoords.toNat ∧
    arrLen (MallocModel_texCoords m heap).2.1.normals = m.num_normals.toNat ∧
    arrLen (MallocModel_texCoords m heap).2.1.faces = m.num_faces.toNat ∧
    (∀ fs, (MallocModel_texCoords m heap).2.1.faces = some fs → ∀ f ∈ fs, f = zeroFace) := by
  unfold MallocModel_texCoords at h ⊢
  by_cases c : m.num_texCoords ≠ 0
  · rw [if_pos c] at h ⊢
    cases ha : allocArray (List.replicate 3 (none : Option F)) m.num_texCoords heap with
    | mk a hp =>
      simp only [ha] at h ⊢
      cases a with
      | none => exact absurd rfl h
      | some l =>
        have hl := allocArray_some _ m.num_texCoords heap l (by rw [ha])
        dsimp only at h ⊢
        obtain ⟨s1, s2, s3, s4, s5, s6⟩ :=
          MallocModel_normals_spec { m with texCoords := some l } hp h hn hf
        refine ⟨s1, s2, ?_, s4, s5, s6⟩
        rw [s3]; simp [arrLen, hl]
  · rw [if_neg c] at h ⊢
    have c0 : m.num_texCoords = 0 := by simpa using c
    obtain ⟨s1, s2, s3, s4, s5, s6⟩ := MallocModel_normals_spec m heap h hn hf
    refine ⟨s1, s2, ?_, s4, s5, s6⟩
    rw [s3, ht, c0]; rfl

theorem MallocModel_spec {F : Type} (m : obj_model_t F) (heap : List Bool)
    (h : (MallocModel m heap).1 ≠ 0) (hv : m.vertices = none) (ht : m.texCoords = none)
    (hn : m.normals = none) (hf : m.faces = none) :
    Allocated m (MallocModel m heap).2.1 := by
  unfold Allocated
  unfold MallocModel at h ⊢
  by_cases c : m.num_verts ≠ 0
  · rw [if_pos c] at h ⊢
    cases ha : allocArray (List.replicate 4 (none : Option F)) m.num_verts heap with
    | mk a hp =>
      simp only [ha] at h ⊢
      cases a with
      | none => exact absurd rfl h
      | some l =>
        have hl := allocArray_some _ m.num_verts heap l (by rw [ha])
        dsimp only at h ⊢
        obtain ⟨s1, s2, s3, s4, s5, s6⟩ :=
          MallocModel_texCoords_spec { m with vertices := some l } hp h ht hn hf
        refine ⟨s1, ?_, s3, s4, s5, s6⟩
        rw [s2]; simp [arrLen, hl]
  · rw [if_neg c] at h ⊢
    have c0 : m.num_verts = 0 := by simpa using c
    obtain ⟨s1, s2, s3, s4, s5, s6⟩ := MallocModel_texCoords_spec m heap h ht hn hf
    refine ⟨s1, ?_, s3, s4, s5, s6⟩
    rw [s2, hv, c0]; rfl

/-! ### The passes together -/

theorem FirstPass_success {F : Type} (file : List Char) (m m1 : obj_model_t F) (r1 : Int)
    (e1 : List Msg) (h : FirstPass file m = some (r1, m1, e1)) (hr : r1 ≠ 0) :
    FirstPass_loop (reads 256 file) [] m [] = some (m1, e1) := by
  unfold FirstPass at h
  rw [Option.map_eq_some'] at h
  obtain ⟨p, hp, hc⟩ := h
  unfold FirstPass_check at hc
  split_ifs at hc
  · simp only [Prod.mk.injEq] at hc; exact absurd hc.1.symm hr
  · simp only [Prod.mk.injEq] at hc; exact absurd hc.1.symm hr
  · simp only [Prod.mk.injEq] at hc
    obtain ⟨-, rfl, rfl⟩ := hc
    exact hp

theorem SecondPass_loop_ret {F : Type} (ops : FloatOps F) :
    ∀ (rs : List (Option (List Char))) (buf : List Char) (st st1 : Pass2 F) (r : Int),
      SecondPass_loop ops rs buf st = some (r, st1) → r = 0 ∨ r = 1 := by
  intro rs
  induction rs with
  | nil =>
    intro buf st st1 r h
    simp only [SecondPass_loop, Option.some.injEq, Prod.mk.injEq] at h
    exact Or.inr h.1.symm
  | cons a rs ih =>
    intro buf st st1 r h
    rw [SecondPass_loop] at h
    cases hl : SecondPass_line ops (fgets_store a buf) st with
    | none => rw [hl] at h; simp at h
    | some p =>
      obtain ⟨b, st2⟩ := p
      rw [hl] at h
      cases b with
      | false =>
        simp only [Option.some.injEq, Prod.mk.injEq] at h
        exact Or.inl h.1.symm
      | true => exact ih _ _ _ _ h

/-- A successful `ReadOBJModel` is a successful `FirstPass` on the zeroed model, a successful
`MallocModel` and a `SecondPass` that reaches the end of the file. -/
theorem ReadOBJModel_success {F : Type} (ops : FloatOps F) (fs : String → Option (List Char))
    (heap : List Bool) (filename : String) (m0 : obj_model_t F) (file : List Char)
    (r : Loaded F) (hfile : fs filename = some file)
    (h : ReadOBJModel ops fs heap filename m0 = some r) (hret : r.ret = 1) :
    ∃ r1 m1 e1 st, r1 ≠ 0 ∧ FirstPass file (zeroModel F) = some (r1, m1, e1) ∧
      (MallocModel m1 heap).1 ≠ 0 ∧
      SecondPass ops file (MallocModel m1 heap).2.1 (MallocModel m1 heap).2.2 = some (1, st) ∧
      r = ⟨1, st.mdl, e1 ++ st.err, some (st.pvert, st.puvw, st.pnorm, st.pface)⟩ := by
  unfold ReadOBJModel at h
  rw [hfile] at h
  dsimp only at h
  cases h1 : FirstPass file (zeroModel F) with
  | none => rw [h1] at h; simp at h
  | some p =>
    obtain ⟨r1, m1, e1⟩ := p
    rw [h1] at h
    dsimp only at h
    by_cases c1 : r1 = 0
    · rw [if_pos c1] at h
      simp only [Option.some.injEq] at h
      subst h
      exact absurd hret (show ¬ ((0 : Int) = 1) by decide)
    · rw [if_neg c1] at h
      by_cases c2 : (MallocModel m1 heap).1 = 0
      · rw [if_pos c2, Option.map_eq_some'] at h
        obtain ⟨m, -, rfl⟩ := h
        exact absurd hret (show ¬ ((0 : Int) = 1) by decide)
      · rw [if_neg c2] at h
        cases h3 : SecondPass ops file (MallocModel m1 heap).2.1 (MallocModel m1 heap).2.2 with
        | none => rw [h3] at h; simp at h
        | some q =>
          obtain ⟨r3, st⟩ := q
          rw [h3] at h
          dsimp only at h
          by_cases c3 : r3 = 0
          · rw [if_pos c3, Option.map_eq_some'] at h
            obtain ⟨m, -, rfl⟩ := h
            exact absurd hret (show ¬ ((0 : Int) = 1) by decide)
          · rw [if_neg c3] at h
            simp only [Option.some.injEq] at h
            have hr3 : r3 = 1 := by
              rcases SecondPass_loop_ret ops _ _ _ _ _ h3 with e | e
              · exact absurd e c3
              · exact e
            subst hr3
            exact ⟨r1, m1, e1, st, c1, rfl, c2, h3, h.symm⟩
/-! ### The faces of a loaded model -/

theorem allBufs_true (rs : List (Option (List Char))) :
    ∀ buf, AllBufs (fun _ => True) rs buf := by
  induction rs with
  | nil => intro buf; trivial
  | cons r rs ih => intro buf; exact ⟨trivial, ih _⟩

theorem facesDone_of_faces_eq {F : Type} (P : obj_face_t → Prop) (st st1 : Pass2 F)
    (hf : st1.mdl.faces = st.mdl.faces) (hp : st1.pface = st.pface) (h : FacesDone P st) :
    FacesDone P st1 := by
  intro fs hfs
  rw [hf] at hfs
  rw [hp]
  exact h fs hfs

/-- The invariant of the faces through the loop of `SecondPass`: when every face line met
writes a face that satisfies `P`, all the faces written satisfy `P`. -/
theorem SecondPass_loop_faces {F : Type} (ops : FloatOps F) (ht hn : Int)
    (P : obj_face_t → Prop) (Q : List Char → Prop)
    (hstep : ∀ (buf s : List Char) (st st1 : Pass2 F) (fs : List obj_face_t), Q buf →
      cstrAt buf 0 = some s → lineKind buf = .face →
      st.mdl.has_texCoords = ht → st.mdl.has_normals = hn →
      st.mdl.faces = some fs → fs[st.pface]? = some zeroFace →
      SecondPass_face s st = some (true, st1) →
      ∃ f, st1.mdl.faces = some (fs.set st.pface f) ∧ P f) :
    ∀ (rs : List (Option (List Char))) (buf : List Char) (st st1 : Pass2 F),
      AllBufs Q rs buf → st.mdl.has_texCoords = ht → st.mdl.has_normals = hn →
      FacesDone P st → SecondPass_loop ops rs buf st = some (1, st1) → FacesDone P st1 := by
  intro rs
  induction rs with
  | nil =>
    intro buf st st1 _ _ _ hd h
    simp only [SecondPass_loop, Option.some.injEq, Prod.mk.injEq, true_and] at h
    subst h; exact hd
  | cons r rs ih =>
    intro buf st st1 hq h1 h2 hd h
    obtain ⟨st2, hl, hr⟩ := SecondPass_loop_cons ops r rs buf st st1 h
    obtain ⟨sc, -⟩ := SecondPass_line_frame ops _ st st2 hl
    obtain ⟨k1, k2, k3, k4, k5⟩ := SecondPass_line_spec ops _ st st2 hl
    have hd2 : FacesDone P st2 := by
      cases hk : lineKind (fgets_store r buf) with
      | vertex =>
        obtain ⟨s, hs⟩ := k1 hk
        obtain ⟨a, rfl, -⟩ := SecondPass_vertex_spec ops s st st2 hs
        exact facesDone_of_faces_eq P st _ rfl rfl hd
      | texCoord =>
        obtain ⟨s, hs⟩ := k2 hk
        obtain ⟨a, rfl, -⟩ := SecondPass_texCoord_spec ops s st st2 hs
        exact facesDone_of_faces_eq P st _ rfl rfl hd
      | normal =>
        obtain ⟨s, hs⟩ := k3 hk
        obtain ⟨a, rfl, -⟩ := SecondPass_normal_spec ops s st st2 hs
        exact facesDone_of_faces_eq P st _ rfl rfl hd
      | other =>
        have := k5 hk
        subst this; exact hd
      | face =>
        obtain ⟨s, hc, hs⟩ := k4 hk
        obtain ⟨fs, f0, f, heap1, hfs, hf0, hst2, -⟩ := SecondPass_face_spec s st st2 hs
        have hz : f0 = zeroFace := (hd fs hfs).2 st.pface f0 (le_refl _) hf0
        subst hz
        obtain ⟨g, hg, hP⟩ := hstep _ s st st2 fs hq.1 hc hk h1 h2 hfs hf0 hs
        have hpf : st2.pface = st.pface + 1 := by rw [hst2]
        have hlt : st.pface < fs.length := by
          by_contra hlt
          rw [List.getElem?_eq_none (by omega)] at hf0
          exact Option.noConfusion hf0
        intro fs2 hfs2
        rw [hg] at hfs2
        simp only [Option.some.injEq] at hfs2
        subst hfs2
        rw [hpf]
        constructor
        · intro i x hi hx
          by_cases e : i = st.pface
          · subst e
            rw [List.getElem?_set_self hlt] at hx
            simp only [Option.some.injEq] at hx
            subst hx; exact hP
          · rw [List.getElem?_set_ne (fun c => e c.symm)] at hx
            exact (hd fs hfs).1 i x (by omega) hx
        · intro i x hi hx
          rw [List.getElem?_set_ne (by omega)] at hx
          exact (hd fs hfs).2 i x (by omega) hx
    exact ih _ st2 st1 hq.2 (sc.2.2.2.2.1.trans h1) (sc.2.2.2.2.2.trans h2) hd2 hr
theorem faceShape_step {F : Type} (ht hn : Int) (buf s : List Char) (st st1 : Pass2 F)
    (fs : List obj_face_t) (_hq : True) (_hc : cstrAt buf 0 = some s)
    (_hk : lineKind buf = .face) (h1 : st.mdl.has_texCoords = ht)
    (h2 : st.mdl.has_normals = hn) (hfs : st.mdl.faces = some fs)
    (hf0 : fs[st.pface]? = some zeroFace) (h : SecondPass_face s st = some (true, st1)) :
    ∃ f, st1.mdl.faces = some (fs.set st.pface f) ∧ FaceShape ht hn zeroFace f := by
  obtain ⟨fs1, f0, f, heap1, hfs1, hf01, hst1, hsh⟩ := SecondPass_face_spec s st st1 h
  rw [hfs] at hfs1
  simp only [Option.some.injEq] at hfs1
  subst hfs1
  rw [hf0] at hf01
  simp only [Option.some.injEq] at hf01
  subst hf01
  refine ⟨f, by rw [hst1], ?_⟩
  rw [← h1, ← h2]; exact hsh

theorem map_length_eq_some {a : IntArray} {n : Nat} (h : a.map List.length = some n) :
    ∃ l, a = some l ∧ l.length = n := by
  cases a with
  | none => simp at h
  | some l => exact ⟨l, rfl, by simpa using h⟩

theorem map_length_eq_none {a : IntArray} (h : a.map List.length = none) : a = none := by
  cases a with
  | none => rfl
  | some l => simp at h

theorem faceType_iff (n : Nat) (h : 3 ≤ n) :
    (faceType n = GL_TRIANGLES ↔ n = 3) ∧ (faceType n = GL_QUADS ↔ n = 4) ∧
      (faceType n = GL_POLYGON ↔ 4 < n) := by
  unfold faceType GL_TRIANGLES GL_QUADS GL_POLYGON
  by_cases h3 : n = 3
  · subst h3; simp
  · by_cases h4 : n = 4
    · subst h4; simp
    · simp [h3, h4]; omega
/-! ### Indices in range -/

theorem SecondPass_face_inv {F : Type} (s : List Char) (st st1 : Pass2 F)
    (h : SecondPass_face s st = some (true, st1)) :
    ∃ fs f0 f heap1, st.mdl.faces = some fs ∧ fs[st.pface]? = some f0 ∧
      3 ≤ s.count ' ' ∧
      SecondPass_entries st.mdl.has_texCoords st.mdl.has_normals (s.count ' ') 0 s
        ⟨faceType (s.count ' '), (s.count ' ' : Nat),
          some (List.replicate (s.count ' ') none),
          if st.mdl.has_texCoords ≠ 0 then some (List.replicate (s.count ' ') none)
            else f0.uvw_indices,
          if st.mdl.has_normals ≠ 0 then some (List.replicate (s.count ' ') none)
            else f0.norm_indices⟩ = some f ∧
      st1 = { st with mdl := { st.mdl with faces := some (fs.set st.pface f) },
                      pface := st.pface + 1, heap := heap1 } := by
  unfold SecondPass_face at h
  cases hfs : st.mdl.faces with
  | none => rw [hfs] at h; simp at h
  | some fs =>
    rw [hfs] at h
    dsimp only at h
    cases hf0 : fs[st.pface]? with
    | none => rw [hf0] at h; simp at h
    | some f0 =>
      rw [hf0] at h
      dsimp only at h
      by_cases hc : s.count ' ' < 3
      · rw [if_pos hc] at h; simp at h
      · rw [if_neg hc] at h
        cases he : SecondPass_entries st.mdl.has_texCoords st.mdl.has_normals (s.count ' ') 0 s
            ⟨faceType (s.count ' '), (s.count ' ' : Nat),
              (allocArray (none : Option Int) (s.count ' ' : Nat) st.heap).1,
              (if st.mdl.has_texCoords ≠ 0 then
                allocArray (none : Option Int) (s.count ' ' : Nat)
                  (allocArray (none : Option Int) (s.count ' ' : Nat) st.heap).2
                else (f0.uvw_indices,
                  (allocArray (none : Option Int) (s.count ' ' : Nat) st.heap).2)).1,
              (if st.mdl.has_normals ≠ 0 then
                allocArray (none : Option Int) (s.count ' ' : Nat)
                  (if st.mdl.has_texCoords ≠ 0 then
                    allocArray (none : Option Int) (s.count ' ' : Nat)
                      (allocArray (none : Option Int) (s.count ' ' : Nat) st.heap).2
                    else (f0.uvw_indices,
                      (allocArray (none : Option Int) (s.count ' ' : Nat) st.heap).2)).2
                else (f0.norm_indices,
                  (if st.mdl.has_texCoords ≠ 0 then
                    allocArray (none : Option Int) (s.count ' ' : Nat)
                      (allocArray (none : Option Int) (s.count ' ' : Nat) st.heap).2
                    else (f0.uvw_indices,
                      (allocArray (none : Option Int) (s.count ' ' : Nat) st.heap).2)).2)).1⟩ with
        | none => rw [he] at h; simp at h
        | some f =>
          rw [he] at h
          simp only [Option.some.injEq, Prod.mk.injEq, true_and] at h
          refine ⟨fs, f0, f, _, rfl, hf0, by omega, ?_, h.symm⟩
          obtain ⟨-, nn⟩ := SecondPass_entries_spec _ _ _ _ _ _ _ he
          obtain ⟨n1, n2, n3⟩ := nn (by omega)
          dsimp only at n1 n2 n3
          rw [← he]
          congr 2
          · exact (allocArray_ne_none _ _ _ n1).symm
          · by_cases c : st.mdl.has_texCoords ≠ 0
            · have := n2 c
              rw [if_pos c] at this ⊢
              rw [if_pos c, allocArray_ne_none _ _ _ this]
            · rw [if_neg c, if_neg c]
          · by_cases c : st.mdl.has_normals ≠ 0
            · have := n3 c
              rw [if_pos c] at this ⊢
              rw [if_pos c, allocArray_ne_none _ _ _ this]
            · rw [if_neg c, if_neg c]
theorem tail_facts (tail : List Char) (htail : tail = [] ∨ tail = ['\n']) :
    EntryEnd tail ∧ ' ' ∉ tail ∧ NUL ∉ tail := by
  rcases htail with h | h <;> subst h
  · exact ⟨fun c hc => by simp at hc, by simp, by simp⟩
  · refine ⟨?_, by decide, by decide⟩
    intro c hc
    simp only [List.head?_cons, Option.mem_def, Option.some.injEq] at hc
    subst hc; decide

theorem nul_not_mem_faceLine (ht hn : Int) (es : List EntryText) (tail : List Char)
    (hes : ∀ e ∈ es, EntryOK ht hn e) (htail : tail = [] ∨ tail = ['\n']) :
    NUL ∉ faceLineText ht hn es ++ tail := by
  intro hm
  simp only [faceLineText, List.cons_append, List.mem_cons, List.mem_append] at hm
  rcases hm with hm | hm | hm
  · exact absurd hm (by decide)
  · exact nul_not_mem_entriesText _ _ es hes hm
  · exact (tail_facts tail htail).2.2 hm

theorem count_space_faceLine (ht hn : Int) (es : List EntryText) (tail : List Char)
    (hes : ∀ e ∈ es, EntryOK ht hn e) (htail : tail = [] ∨ tail = ['\n']) :
    (faceLineText ht hn es ++ tail).count ' ' = es.length := by
  have h1 := count_space_entriesText _ _ es hes
  have h2 : tail.count ' ' = 0 := List.count_eq_zero.mpr (tail_facts tail htail).2.1
  have h3 : ('f' == ' ') = false := by decide
  simp [faceLineText, List.count_cons, List.count_append, h1, h2, h3]

/-- The face that a successful `case 'f'` writes for a face line `f e1 ... ek`. -/
theorem SecondPass_face_written {F : Type} (es : List EntryText) (tail : List Char)
    (st st1 : Pass2 F) (fs : List obj_face_t) (f0 : obj_face_t)
    (hes : ∀ e ∈ es, EntryOK st.mdl.has_texCoords st.mdl.has_normals e)
    (htail : tail = [] ∨ tail = ['\n'])
    (hfs : st.mdl.faces = some fs) (hf0 : fs[st.pface]? = some f0)
    (h : SecondPass_face (faceLineText st.mdl.has_texCoords st.mdl.has_normals es ++ tail) st =
      some (true, st1)) :
    ∃ f, st1.mdl.faces = some (fs.set st.pface f) ∧ f.num_elems = (es.length : Nat) ∧
      f.vert_indices = some (es.map (fun e => some ((decimalValue e.v : Int) - 1))) ∧
      (st.mdl.has_texCoords ≠ 0 →
        f.uvw_indices = some (es.map (fun e => some ((decimalValue e.t : Int) - 1)))) ∧
      (st.mdl.has_normals ≠ 0 →
        f.norm_indices = some (es.map (fun e => some ((decimalValue e.n : Int) - 1)))) := by
  obtain ⟨fs1, f1, f, heap1, hfs1, hf1, hk, hent, hst1⟩ := SecondPass_face_inv _ st st1 h
  rw [hfs] at hfs1
  simp only [Option.some.injEq] at hfs1
  subst hfs1
  rw [hf0] at hf1
  simp only [Option.some.injEq] at hf1
  subst hf1
  have hcount := count_space_faceLine _ _ es tail hes htail
  rw [hcount] at hent hk
  have hloop := entries_loop st.mdl.has_texCoords st.mdl.has_normals tail
    (tail_facts tail htail).1 es 0 ['f']
    ⟨faceType es.length, (es.length : Nat), some (List.replicate es.length none),
      if st.mdl.has_texCoords ≠ 0 then some (List.replicate es.length none) else f0.uvw_indices,
      if st.mdl.has_normals ≠ 0 then some (List.replicate es.length none) else f0.norm_indices⟩
    (by decide) hes ⟨_, rfl, by simp⟩
    (fun c => ⟨List.replicate es.length none, by simp [c], by simp⟩)
    (fun c => ⟨List.replicate es.length none, by simp [c], by simp⟩)
  simp only [List.singleton_append] at hloop
  rw [faceLineText, List.cons_append] at hent
  rw [hloop] at hent
  simp only [Option.some.injEq] at hent
  subst hent
  refine ⟨_, by rw [hst1], ?_, ?_, ?_, ?_⟩
  · exact (writeEntries_type _ _ es 0 _).2
  · have := writeEntries_vert st.mdl.has_texCoords st.mdl.has_normals es []
      (List.replicate es.length none)
      ⟨faceType es.length, (es.length : Nat), some (List.replicate es.length none),
        if st.mdl.has_texCoords ≠ 0 then some (List.replicate es.length none) else f0.uvw_indices,
        if st.mdl.has_normals ≠ 0 then some (List.replicate es.length none) else f0.norm_indices⟩
      (by simp) (by simp)
    simpa using this
  · intro c
    have := writeEntries_uvw st.mdl.has_texCoords st.mdl.has_normals c es []
      (List.replicate es.length none)
      ⟨faceType es.length, (es.length : Nat), some (List.replicate es.length none),
        if st.mdl.has_texCoords ≠ 0 then some (List.replicate es.length none) else f0.uvw_indices,
        if st.mdl.has_normals ≠ 0 then some (List.replicate es.length none) else f0.norm_indices⟩
      (by simp [c]) (by simp)
    simpa using this
  · intro c
    have := writeEntries_norm st.mdl.has_texCoords st.mdl.has_normals c es []
      (List.replicate es.length none)
      ⟨faceType es.length, (es.length : Nat), some (List.replicate es.length none),
        if st.mdl.has_texCoords ≠ 0 then some (List.replicate es.length none) else f0.uvw_indices,
        if st.mdl.has_normals ≠ 0 then some (List.replicate es.length none) else f0.norm_indices⟩
      (by simp [c]) (by simp)
    simpa using this
theorem lineKind_face {buf : List Char} (h : lineKind buf = .face) : buf[0]? = some 'f' := by
  unfold lineKind at h
  cases h0 : buf[0]? with
  | none => rw [h0] at h; simp at h
  | some c0 =>
    rw [h0] at h
    dsimp only at h
    by_cases hv : c0 = 'v'
    · rw [if_pos hv] at h
      cases h1 : buf[1]? with
      | none => rw [h1] at h; simp at h
      | some c1 =>
        rw [h1] at h
        dsimp only at h
        split_ifs at h
    · rw [if_neg hv] at h
      by_cases hf : c0 = 'f'
      · rw [hf]
      · rw [if_neg hf] at h; simp at h

theorem indicesInRange_of_written {F : Type} (m : obj_model_t F) (es : List EntryText)
    (f : obj_face_t) (hes : ∀ e ∈ es, EntryInRange m e)
    (hne : f.num_elems = (es.length : Nat))
    (hv : f.vert_indices = some (es.map (fun e => some ((decimalValue e.v : Int) - 1))))
    (hu : m.has_texCoords ≠ 0 →
      f.uvw_indices = some (es.map (fun e => some ((decimalValue e.t : Int) - 1))))
    (hn : m.has_normals ≠ 0 →
      f.norm_indices = some (es.map (fun e => some ((decimalValue e.n : Int) - 1)))) :
    IndicesInRange m f := by
  intro j hj
  rw [hne] at hj
  have hj' : j < es.length := by exact_mod_cast hj
  obtain ⟨-, v1, v2, t12, n12⟩ := hes es[j] (List.getElem_mem hj')
  refine ⟨?_, ?_, ?_⟩
  · refine ⟨(decimalValue es[j].v : Int) - 1, ?_, by omega, by omega⟩
    rw [hv]; simp [List.getElem?_map, List.getElem?_eq_getElem hj']
  · intro c
    obtain ⟨t1, t2⟩ := t12 c
    refine ⟨(decimalValue es[j].t : Int) - 1, ?_, by omega, by omega⟩
    rw [hu c]; simp [List.getElem?_map, List.getElem?_eq_getElem hj']
  · intro c
    obtain ⟨n1, n2⟩ := n12 c
    refine ⟨(decimalValue es[j].n : Int) - 1, ?_, by omega, by omega⟩
    rw [hn c]; simp [List.getElem?_map, List.getElem?_eq_getElem hj']

theorem inRange_step {F : Type} (file : List Char) (m : obj_model_t F)
    (hlines : ∀ l ∈ lines file, l.head? = some 'f' → FaceLineInRange m l)
    (buf s : List Char) (st st1 : Pass2 F) (fs : List obj_face_t)
    (hq : HoldsLine file buf) (hc : cstrAt buf 0 = some s) (hk : lineKind buf = .face)
    (h1 : st.mdl.has_texCoords = m.has_texCoords) (h2 : st.mdl.has_normals = m.has_normals)
    (hfs : st.mdl.faces = some fs) (hf0 : fs[st.pface]? = some zeroFace)
    (h : SecondPass_face s st = some (true, st1)) :
    ∃ f, st1.mdl.faces = some (fs.set st.pface f) ∧ IndicesInRange m f := by
  have hb0 := lineKind_face hk
  rcases hq with hq | ⟨l, rest, hl, hq⟩
  · subst hq; simp at hb0
  · subst hq
    have hhead : l.head? = some 'f' := by
      cases l with
      | nil =>
        simp only [List.nil_append, List.getElem?_cons_zero, Option.some.injEq] at hb0
        exact absurd hb0 (by decide)
      | cons c r => simpa using hb0
    obtain ⟨es, tail, rfl, htail, hes⟩ := hlines l hl hhead
    have hok : ∀ e ∈ es, EntryOK st.mdl.has_texCoords st.mdl.has_normals e := by
      intro e he; rw [h1, h2]; exact (hes e he).1
    have hnul := nul_not_mem_faceLine _ _ es tail (fun e he => (hes e he).1) htail
    rw [cstrAt_zero _ _ hnul] at hc
    simp only [Option.some.injEq] at hc
    subst hc
    rw [← h1, ← h2] at h
    obtain ⟨f, hf, hne, hv, hu, hn⟩ := SecondPass_face_written es tail st st1 fs zeroFace hok
      htail hfs hf0 h
    exact ⟨f, hf, indicesInRange_of_written m es f hes hne hv (fun c => hu (by rw [h1]; exact c))
      (fun c => hn (by rw [h2]; exact c))⟩

theorem allBufs_holdsLine (file : List Char) :
    ∀ (rs : List (Option (List Char))) (buf : List Char),
      (∀ r ∈ rs, r = none ∨ ∃ l ∈ lines file, r = some l) → HoldsLine file buf →
      AllBufs (HoldsLine file) rs buf := by
  intro rs
  induction rs with
  | nil => intro buf _ _; trivial
  | cons r rs ih =>
    intro buf hr hb
    have hq : HoldsLine file (fgets_store r buf) := by
      rcases hr r (by simp) with h | ⟨l, hl, h⟩
      · subst h; exact hb
      · subst h; exact Or.inr ⟨l, _, hl, rfl⟩
    exact ⟨hq, ih _ (fun x hx => hr x (by simp [hx])) hq⟩
theorem fetch_inRange {α : Type} (arr : Option (List α)) (idx : IntArray) (j : Nat)
    (count : Int) (h : IndexInRange idx j count) (hlen : count.toNat ≤ arrLen arr) :
    ∃ x, fetch arr idx j = some x := by
  obtain ⟨k, hk, k0, k1⟩ := h
  cases idx with
  | none => simp at hk
  | some l =>
    simp only [Option.some_bind] at hk
    have hlt : k.toNat < arrLen arr := by omega
    cases arr with
    | none => simp [arrLen] at hlt
    | some a =>
      simp only [arrLen] at hlt
      refine ⟨a[k.toNat], ?_⟩
      simp [fetch, hk, k0, List.getElem?_eq_getElem hlt]

theorem corner_defined {F : Type} (ops : FloatOps F) (m : obj_model_t F) (f : obj_face_t)
    (j : Nat) (hj : (j : Int) < f.num_elems) (hf : IndicesInRange m f)
    (hv : m.num_verts.toNat ≤ arrLen m.vertices)
    (ht : m.num_texCoords.toNat ≤ arrLen m.texCoords)
    (hn : m.num_normals.toNat ≤ arrLen m.normals) :
    ∃ c, RenderOBJModel_corner ops m f j = some c := by
  obtain ⟨r1, r2, r3⟩ := hf j hj
  obtain ⟨v, hv'⟩ := fetch_inRange m.vertices f.vert_indices j _ r1 hv
  unfold RenderOBJModel_corner
  by_cases c1 : m.has_texCoords ≠ 0
  · obtain ⟨t, ht'⟩ := fetch_inRange m.texCoords f.uvw_indices j _ (r2 c1) ht
    by_cases c2 : m.has_normals ≠ 0
    · obtain ⟨n, hn'⟩ := fetch_inRange m.normals f.norm_indices j _ (r3 c2) hn
      simp [c1, c2, hv', ht', hn']
    · simp [c1, c2, hv', ht']
  · by_cases c2 : m.has_normals ≠ 0
    · obtain ⟨n, hn'⟩ := fetch_inRange m.normals f.norm_indices j _ (r3 c2) hn
      simp [c1, c2, hv', hn']
    · simp [c1, c2, hv']

theorem corners_defined {F : Type} (ops : FloatOps F) (m : obj_model_t F) (f : obj_face_t)
    (hf : IndicesInRange m f)
    (hv : m.num_verts.toNat ≤ arrLen m.vertices)
    (ht : m.num_texCoords.toNat ≤ arrLen m.texCoords)
    (hn : m.num_normals.toNat ≤ arrLen m.normals) :
    ∀ (n j : Nat), ((j + n : Nat) : Int) ≤ max f.num_elems 0 →
      ∃ cs, RenderOBJModel_corners ops m f n j = some cs := by
  intro n
  induction n with
  | zero => intro j _; exact ⟨[], rfl⟩
  | succ n ih =>
    intro j hjn
    obtain ⟨c, hc⟩ := corner_defined ops m f j (by omega) hf hv ht hn
    obtain ⟨cs, hcs⟩ := ih (j + 1) (by have : j + 1 + n = j + (n + 1) := by omega
                                       rw [this]; exact hjn)
    exact ⟨c ++ cs, by rw [RenderOBJModel_corners, hc]; simp [hcs]⟩

theorem faces_defined {F : Type} (ops : FloatOps F) (m : obj_model_t F)
    (faces : List obj_face_t) (hfaces : m.faces = some faces)
    (hall : ∀ f ∈ faces, IndicesInRange m f)
    (hv : m.num_verts.toNat ≤ arrLen m.vertices)
    (ht : m.num_texCoords.toNat ≤ arrLen m.texCoords)
    (hn : m.num_normals.toNat ≤ arrLen m.normals) :
    ∀ (n i : Nat), i + n ≤ faces.length →
      ∃ cs, RenderOBJModel_faces ops m n i = some cs := by
  intro n
  induction n with
  | zero => intro i _; exact ⟨[], rfl⟩
  | succ n ih =>
    intro i hin
    have hi : i < faces.length := by omega
    obtain ⟨cs, hcs⟩ := corners_defined ops m faces[i] (hall _ (List.getElem_mem hi)) hv ht hn
      faces[i].num_elems.toNat 0 (by simp)
    obtain ⟨r, hr⟩ := ih (i + 1) (by omega)
    refine ⟨GLCall.glBegin faces[i].type :: cs ++ GLCall.glEnd :: r, ?_⟩
    rw [RenderOBJModel_faces, hfaces]
    simp only [List.getElem?_eq_getElem hi, hcs, hr, Option.map_some']
/-! ### The claims on concrete inputs -/

theorem texturedFile_loaded :
    ReadOBJModel intOps (oneFile texturedFile) [] "model.obj" (zeroModel Int) =
      some texturedLoaded := by
  decide!

theorem texturedFile_faceLines :
    ∀ l ∈ lines texturedFile, l.head? = some 'f' → FaceLineInRange texturedLoaded.mdl l := by
  have hl : lines texturedFile =
      ["v 0 0 0\n".toList, "vt 0 0\n".toList, "vn 0 0 1\n".toList,
        "f 1/1/1 1/1/1 1/1/1".toList] := by decide
  intro l hmem hf
  rw [hl] at hmem
  simp only [List.mem_cons, List.mem_singleton, List.not_mem_nil, or_false] at hmem
  rcases hmem with rfl | rfl | rfl | rfl
  · exact absurd hf (by decide)
  · exact absurd hf (by decide)
  · exact absurd hf (by decide)
  · exact ⟨texturedEntries, [], by decide, Or.inl rfl, by decide⟩

/-- C1 (counterexample): on a line of 255 characters `#` followed by `v 1 2 3`, `FirstPass`
(buffer of 256 bytes) counts one vertex, `SecondPass` (buffer of 128 bytes) writes none, and
`ReadOBJModel` succeeds. -/
theorem ReadOBJModel_counts_counterexample :
    ∃ r, ReadOBJModel intOps (oneFile longCommentFile) [] "model.obj" (zeroModel Int) = some r ∧
      r.ret = 1 ∧ r.mdl.num_verts = 1 ∧ r.read = some (0, 0, 0, 0) :=
  ⟨longCommentLoaded, by decide!, rfl, rfl, rfl⟩

/-- C2 (counterexample): the file `v 0 0 0`, `f 5 6 7` is loaded with success; the face
stores the vertex indices 4, 5, 6 although the model has one vertex, and `RenderOBJModel`
then reads outside the vertex array. -/
theorem ReadOBJModel_indices_counterexample :
    ∃ r f, ReadOBJModel intOps (oneFile danglingFile) [] "model.obj" (zeroModel Int) = some r ∧
      r.ret = 1 ∧ r.mdl.num_verts = 1 ∧ r.mdl.faces = some [f] ∧ f.num_elems = 3 ∧
      f.vert_indices = some [some 4, some 5, some 6] ∧
      RenderOBJModel intOps r.mdl = none :=
  ⟨danglingLoaded, ⟨GL_TRIANGLES, 3, some [some 4, some 5, some 6], none, none⟩,
    by decide!, rfl, rfl, rfl, rfl, rfl, by decide!⟩

/-- C8 (counterexample): when a face line follows 255 characters `#` on its line, `FirstPass`
counts it and `SecondPass` never sees it: `ReadOBJModel` succeeds and leaves a face with
`num_elems = 0` and no vertex index array. -/
theorem ReadOBJModel_face_shape_counterexample :
    ∃ r f, ReadOBJModel intOps (oneFile hiddenFaceFile) [] "model.obj" (zeroModel Int) = some r ∧
      r.ret = 1 ∧ r.mdl.num_faces = 1 ∧ r.mdl.faces = some [f] ∧
      f.num_elems = 0 ∧ f.vert_indices = none :=
  ⟨hiddenFaceLoaded, zeroFace, by decide!, rfl, rfl, rfl, rfl, rfl⟩

/-- C5: on the one-line file `v 0 0 0` that ends with a newline, `FirstPass` returns 1 with
`num_verts = 2`: the loop `while (!feof (fp))` runs once more after the last line, `fgets`
fails and the line still in the buffer is counted again. -/
theorem FirstPass_counts_last_line_twice :
    lines "v 0 0 0\n".toList = ["v 0 0 0\n".toList] ∧
    reads 256 "v 0 0 0\n".toList = [some "v 0 0 0\n".toList, none] ∧
    FirstPass "v 0 0 0\n".toList (zeroModel Int) =
      some (1, { zeroModel Int with num_verts := 2 }, []) := by
  decide

/-- C6: for the face line `f 1 2 3 ` (three entries and a trailing space) `SecondPass` sets
`num_elems = 4` (the number of spaces), makes the face a quad and leaves its fourth vertex
index unwritten. -/
theorem SecondPass_face_counts_spaces :
    ∃ st1, SecondPass_line intOps (fgets_store (some "f 1 2 3 \n".toList) []) triState =
        some (true, st1) ∧
      st1.mdl.faces =
        some [⟨GL_QUADS, 4, some [some 0, some 1, some 2, none], none, none⟩] :=
  ⟨⟨{ triState.mdl with
        faces := some [⟨GL_QUADS, 4, some [some 0, some 1, some 2, none], none, none⟩] },
      3, 0, 0, 1, [], []⟩, by decide!, rfl⟩

/-- C7: the file `v 0 0 0`, `f 1 2 ` holds a face line with two vertex entries, yet
`ReadOBJModel` returns 1: the trailing space makes `num_elems = 3` and the third vertex
index is never written. -/
theorem ReadOBJModel_accepts_two_entries :
    ∃ r, ReadOBJModel intOps (oneFile trailingSpaceFile) [] "model.obj" (zeroModel Int) =
        some r ∧ r.ret = 1 ∧
      r.mdl.faces = some [⟨GL_TRIANGLES, 3, some [some 0, some 1, none], none, none⟩] :=
  ⟨trailingSpaceLoaded, by decide!, rfl, rfl⟩

/-- The calls that `RenderOBJModel` makes for the model loaded from `texturedFile`: one
bracket, and in it three times a texcoord call, a normal call and a vertex call. -/
theorem RenderOBJModel_textured :
    RenderOBJModel intOps texturedLoaded.mdl =
      some [GLCall.glBegin GL_TRIANGLES,
        GLCall.glTexCoord4f (some 0) (some 0) (some 0) (some 1),
        GLCall.glNormal3fv (some 0) (some 0) (some 1),
        GLCall.glVertex4f (some 0) (some 0) (some 0) (some 1),
        GLCall.glTexCoord4f (some 0) (some 0) (some 0) (some 1),
        GLCall.glNormal3fv (some 0) (some 0) (some 1),
        GLCall.glVertex4f (some 0) (some 0) (some 0) (some 1),
        GLCall.glTexCoord4f (some 0) (some 0) (some 0) (some 1),
        GLCall.glNormal3fv (some 0) (some 0) (some 1),
        GLCall.glVertex4f (some 0) (some 0) (some 0) (some 1),
        GLCall.glEnd] := by
  decide


/-! ### `FreeModel` and the glue -/

theorem FreeModel_spec {F : Type} (m m1 : obj_model_t F) (h : FreeModel m = some m1) :
    m1 = { m with vertices := none, texCoords := none, normals := none, faces := none } := by
  unfold FreeModel at h
  cases hf : m.faces with
  | none =>
    rw [hf] at h
    simp only [Option.some.injEq] at h
    rw [← h, ← hf]
  | some fs =>
    rw [hf] at h
    by_cases hle : m.num_faces.toNat ≤ fs.length
    · simp only [hle, if_true, Option.some.injEq] at h
      exact h.symm
    · simp only [hle, if_false] at h
      exact absurd h (by simp)

theorem FreeModel_isSome {F : Type} (m : obj_model_t F) :
    (FreeModel m).isSome = true ↔
      ∀ fs, m.faces = some fs → m.num_faces.toNat ≤ fs.length := by
  unfold FreeModel
  cases hf : m.faces with
  | none => simp
  | some fs =>
    by_cases hle : m.num_faces.toNat ≤ fs.length
    · simp only [hle, if_true, Option.isSome_some, true_iff]
      intro fs1 h1
      rw [Option.some.injEq] at h1
      rw [← h1]
      exact hle
    · simp only [hle, if_false, Option.isSome_none, Bool.false_eq_true, false_iff]
      intro h
      exact hle (h fs rfl)

/-- C18: `FreeModel` is idempotent and touches only the array fields.  Freeing twice is
freeing once; `FreeModel` is defined exactly when the face array, if any, holds `num_faces`
faces; after it the four arrays are null and the four counts and the two flags are
unchanged. -/
theorem FreeModel_idempotent {F : Type} (m : obj_model_t F) :
    (FreeModel m).bind FreeModel = FreeModel m ∧
    ((FreeModel m).isSome = true ↔
      ∀ fs, m.faces = some fs → m.num_faces.toNat ≤ fs.length) ∧
    ∀ m1, FreeModel m = some m1 →
      m1.vertices = none ∧ m1.texCoords = none ∧ m1.normals = none ∧ m1.faces = none ∧
      m1.num_verts = m.num_verts ∧ m1.num_texCoords = m.num_texCoords ∧
      m1.num_normals = m.num_normals ∧ m1.num_faces = m.num_faces ∧
      m1.has_texCoords = m.has_texCoords ∧ m1.has_normals = m.has_normals := by
  refine ⟨?_, FreeModel_isSome m, ?_⟩
  · cases h : FreeModel m with
    | none => rfl
    | some m1 =>
      have h1 := FreeModel_spec m m1 h
      simp only [Option.some_bind]
      rw [h1]
      rfl
  · intro m1 h
    have h1 := FreeModel_spec m m1 h
    rw [h1]
    exact ⟨rfl, rfl, rfl, rfl, rfl, rfl, rfl, rfl, rfl, rfl⟩

/-- Witness of C18: a freed model still reports `num_faces = 1` with no face array. -/
theorem FreeModel_idempotent_witness :
    FreeModel freedModel = some { freedModel with vertices := none, faces := none } ∧
    ({ freedModel with vertices := none, faces := none } : obj_model_t Int).num_faces = 1 ∧
    ({ freedModel with vertices := none, faces := none } : obj_model_t Int).faces = none :=
  ⟨rfl, ((FreeModel_idempotent freedModel).2.2 _ rfl).2.2.2.2.2.2.2.1,
    ((FreeModel_idempotent freedModel).2.2 _ rfl).2.2.2.1⟩

/-- The function `cleanup` frees the global model and changes nothing else; a second
`cleanup` changes nothing. -/
theorem cleanup_twice {F : Type} (g g1 : Globals F) (h : cleanup g = some g1) :
    cleanup g1 = some g1 ∧ g1.frameBuffer = g.frameBuffer ∧ g1.calls = g.calls ∧
      g1.objfile.faces = none ∧ g1.objfile.num_faces = g.objfile.num_faces := by
  unfold cleanup at h
  rw [Option.map_eq_some'] at h
  obtain ⟨m, hm, rfl⟩ := h
  have hspec := FreeModel_spec g.objfile m hm
  refine ⟨?_, rfl, rfl, ?_, ?_⟩
  · unfold cleanup
    rw [hspec]
    rfl
  · rw [hspec]
  · rw [hspec]

/-- C19: `showmodel_init` does not load the file it is given.  Whatever the width, the
height, the pixel buffer and the file name, the global model `objfile` is unchanged by
`showmodel_init`; on the all-zero model `RenderOBJModel` makes no call, so that a
`showmodel_update` after `showmodel_init` adds the three calls that clear the frame and set
the view and nothing else: when no begin, texcoord, normal, vertex or end call had been
made before, none has been made after. -/
theorem showmodel_init_keeps_objfile {F : Type} (ops : FloatOps F) (w h : Int) (cbuf : Nat)
    (filename : String) (g : Globals F) :
    (showmodel_init w h cbuf filename g).objfile = g.objfile ∧
    (g.objfile = zeroModel F →
      RenderOBJModel ops (showmodel_init w h cbuf filename g).objfile = some [] ∧
      ∃ g1, showmodel_update ops (showmodel_init w h cbuf filename g) = some g1 ∧
        g1.objfile = zeroModel F ∧
        g1.calls = (showmodel_init w h cbuf filename g).calls ++
          [GlueCall.glClear GLName.GL_COLOR_BUFFER_BIT GLName.GL_DEPTH_BUFFER_BIT,
           GlueCall.glLoadIdentity,
           GlueCall.glTranslatef 0.0 0.0 (-15.0)] ∧
        ((∀ c ∈ g.calls, c.isDraw = false) → ∀ c ∈ g1.calls, c.isDraw = false)) := by
  refine ⟨rfl, fun hz => ?_⟩
  have hobj : (showmodel_init w h cbuf filename g).objfile = zeroModel F := hz
  have hr : RenderOBJModel ops (showmodel_init w h cbuf filename g).objfile = some [] := by
    rw [hobj]
    rfl
  refine ⟨hr, ?_⟩
  unfold showmodel_update
  rw [hr]
  refine ⟨_, rfl, hobj, by simp, ?_⟩
  intro hg c hc
  simp only [showmodel_init, init, List.map_nil, List.append_nil, List.mem_append,
    List.mem_cons, List.mem_singleton, List.not_mem_nil, or_false] at hc
  rcases hc with ((hc | hc) | hc) | hc
  · exact hg c hc
  · rcases hc with rfl | rfl | rfl | rfl <;> rfl
  · rcases hc with rfl | rfl | rfl | rfl | rfl | rfl <;> rfl
  · rcases hc with rfl | rfl | rfl <;> rfl

/-- Witness of C19: from the start of the program, `showmodel_init` on the file name of the
test and one `showmodel_update` make thirteen calls to the library, none of them a drawing
call. -/
theorem showmodel_init_keeps_objfile_witness :
    (showmodel_init 200 200 0 "./lv_lib_tinygl/test.obj" (startGlobals Int)).objfile =
      zeroModel Int ∧
    ∃ g1, showmodel_update intOps
        (showmodel_init 200 200 0 "./lv_lib_tinygl/test.obj" (startGlobals Int)) = some g1 ∧
      g1.calls.length = 13 ∧ ∀ c ∈ g1.calls, c.isDraw = false := by
  obtain ⟨h1, h2⟩ := showmodel_init_keeps_objfile intOps 200 200 0 "./lv_lib_tinygl/test.obj"
    (startGlobals Int)
  obtain ⟨_, g1, hg1, _, hcalls, hdraw⟩ := h2 rfl
  refine ⟨h1, g1, hg1, ?_, hdraw (by simp [startGlobals])⟩
  rw [hcalls]
  rfl

/-! ### Failure of `ReadOBJModel` -/

theorem FirstPass_check_mdl {F : Type} (m : obj_model_t F) (e : List Msg) :
    (FirstPass_check m e).2.1 = m := by
  unfold FirstPass_check
  split_ifs <;> rfl

theorem FirstPass_defined {F : Type} (file : List Char) (m m1 : obj_model_t F) (r1 : Int)
    (e1 : List Msg) (h : FirstPass file m = some (r1, m1, e1)) :
    ∃ e, FirstPass_loop (reads 256 file) [] m [] = some (m1, e) ∧
      FirstPass_check m1 e = (r1, m1, e1) := by
  unfold FirstPass at h
  rw [Option.map_eq_some'] at h
  obtain ⟨p, hp, hc⟩ := h
  have hm : p.1 = m1 := by
    have := FirstPass_check_mdl p.1 p.2
    rw [hc] at this
    exact this.symm
  obtain ⟨pm, pe⟩ := p
  dsimp only at hm hc
  subst hm
  exact ⟨pe, hp, hc⟩

theorem FirstPass_arrays {F : Type} (file : List Char) (m m1 : obj_model_t F) (r1 : Int)
    (e1 : List Msg) (h : FirstPass file m = some (r1, m1, e1)) :
    m1.vertices = m.vertices ∧ m1.texCoords = m.texCoords ∧ m1.normals = m.normals ∧
      m1.faces = m.faces := by
  obtain ⟨e, hl, -⟩ := FirstPass_defined file m m1 r1 e1 h
  exact (FirstPass_loop_frame _ _ _ _ _ _ hl).2.2.2.2

/-- C11: whenever `ReadOBJModel` returns 0 after the file has been opened (`FirstPass`,
`MallocModel` or `SecondPass` failed), the model it leaves holds no array: `vertices`,
`texCoords`, `normals` and `faces` are null. -/
theorem ReadOBJModel_failure_releases {F : Type} (ops : FloatOps F)
    (fs : String → Option (List Char)) (heap : List Bool) (filename : String)
    (m0 : obj_model_t F) (file : List Char) (r : Loaded F) (hfile : fs filename = some file)
    (h : ReadOBJModel ops fs heap filename m0 = some r) (hret : r.ret = 0) :
    r.mdl.vertices = none ∧ r.mdl.texCoords = none ∧ r.mdl.normals = none ∧
      r.mdl.faces = none := by
  unfold ReadOBJModel at h
  rw [hfile] at h
  dsimp only at h
  cases h1 : FirstPass file (zeroModel F) with
  | none => rw [h1] at h; simp at h
  | some p =>
    obtain ⟨r1, m1, e1⟩ := p
    rw [h1] at h
    dsimp only at h
    by_cases c1 : r1 = 0
    · rw [if_pos c1] at h
      simp only [Option.some.injEq] at h
      subst h
      exact FirstPass_arrays file (zeroModel F) m1 r1 e1 h1
    · rw [if_neg c1] at h
      by_cases c2 : (MallocModel m1 heap).1 = 0
      · rw [if_pos c2, Option.map_eq_some'] at h
        obtain ⟨m, hm, rfl⟩ := h
        rw [FreeModel_spec _ _ hm]
        exact ⟨rfl, rfl, rfl, rfl⟩
      · rw [if_neg c2] at h
        cases h3 : SecondPass ops file (MallocModel m1 heap).2.1 (MallocModel m1 heap).2.2 with
        | none => rw [h3] at h; simp at h
        | some q =>
          obtain ⟨r3, st⟩ := q
          rw [h3] at h
          dsimp only at h
          by_cases c3 : r3 = 0
          · rw [if_pos c3, Option.map_eq_some'] at h
            obtain ⟨m, hm, rfl⟩ := h
            rw [FreeModel_spec _ _ hm]
            exact ⟨rfl, rfl, rfl, rfl⟩
          · rw [if_neg c3] at h
            simp only [Option.some.injEq] at h
            subst h
            exact absurd hret (show ¬ ((1 : Int) = 0) by decide)

/-- Witness of C11: a failure in `SecondPass` (`twoEntryFile`), a failure in `FirstPass`
(a file without a vertex) and a failure in `MallocModel` (the allocation of the faces is
refused) each leave a model without arrays. -/
theorem ReadOBJModel_failure_releases_witness :
    (twoEntryLoaded.mdl.vertices = none ∧ twoEntryLoaded.mdl.texCoords = none ∧
      twoEntryLoaded.mdl.normals = none ∧ twoEntryLoaded.mdl.faces = none) ∧
    (noVertexLoaded.mdl.vertices = none ∧ noVertexLoaded.mdl.texCoords = none ∧
      noVertexLoaded.mdl.normals = none ∧ noVertexLoaded.mdl.faces = none) ∧
    (refusedLoaded.mdl.vertices = none ∧ refusedLoaded.mdl.texCoords = none ∧
      refusedLoaded.mdl.normals = none ∧ refusedLoaded.mdl.faces = none) :=
  ⟨ReadOBJModel_failure_releases intOps (oneFile twoEntryFile) [] "model.obj" (zeroModel Int)
      twoEntryFile twoEntryLoaded (by decide) (by decide!) rfl,
    ReadOBJModel_failure_releases intOps (oneFile "f 1 2 3".toList) [] "model.obj"
      (zeroModel Int) "f 1 2 3".toList noVertexLoaded (by decide) (by decide!) rfl,
    ReadOBJModel_failure_releases intOps (oneFile "v 0 0 0\nf 1 1 1".toList) [true, false]
      "model.obj" (zeroModel Int) "v 0 0 0\nf 1 1 1".toList refusedLoaded (by decide)
      (by decide!) rfl⟩

/-! ### The presence flags -/

theorem FirstPass_face_form {F : Type} (s : List Char) (m m1 : obj_model_t F)
    (e e1 : List Msg) (h : FirstPass_face s m e = some (m1, e1)) :
    (∀ t n, faceForm s = some (t, n) →
      m1 = { m with num_faces := m.num_faces + 1, has_texCoords := t, has_normals := n } ∧
        e1 = e) ∧
    (faceForm s = none → m1 = m ∧ e1 = e ++ [Msg.faceWithNoVertex]) := by
  have key : ∀ (a b : Int), ((incr m.num_faces).bind fun k =>
      some ({ m with num_faces := k, has_texCoords := a, has_normals := b }, e)) =
        some (m1, e1) →
      m1 = { m with num_faces := m.num_faces + 1, has_texCoords := a, has_normals := b } ∧
        e1 = e := by
    intro a b hk
    rw [Option.bind_eq_some] at hk
    obtain ⟨k, hk1, hk⟩ := hk
    have := incr_eq hk1
    subst this
    simp only [Option.some.injEq, Prod.mk.injEq] at hk
    exact ⟨hk.1.symm, hk.2.symm⟩
  unfold FirstPass_face at h
  unfold faceForm
  simp only [Option.bind_eq_bind] at h
  rw [Option.bind_eq_some] at h
  obtain ⟨r1, hr1, h⟩ := h
  rw [hr1]
  simp only [Option.map_some', Option.some.injEq]
  by_cases c1 : r1.length = 3
  · rw [if_pos c1] at h
    simp only [if_pos c1, Option.some.injEq, Prod.mk.injEq, reduceCtorEq, false_implies,
      and_true]
    rintro t n ⟨rfl, rfl⟩
    exact key 1 1 h
  · rw [if_neg c1, Option.bind_eq_some] at h
    obtain ⟨r2, hr2, h⟩ := h
    rw [hr2]
    simp only [if_neg c1, Option.map_some', Option.some.injEq]
    by_cases c2 : r2.length = 2
    · rw [if_pos c2] at h
      simp only [if_pos c2, Option.some.injEq, Prod.mk.injEq, reduceCtorEq, false_implies,
        and_true]
      rintro t n ⟨rfl, rfl⟩
      exact key 0 1 h
    · rw [if_neg c2, Option.bind_eq_some] at h
      obtain ⟨r3, hr3, h⟩ := h
      rw [hr3]
      simp only [if_neg c2, Option.map_some', Option.some.injEq]
      by_cases c3 : r3.length = 2
      · rw [if_pos c3] at h
        simp only [if_pos c3, Option.some.injEq, Prod.mk.injEq, reduceCtorEq, false_implies,
          and_true]
        rintro t n ⟨rfl, rfl⟩
        exact key 1 0 h
      · rw [if_neg c3, Option.bind_eq_some] at h
        obtain ⟨r4, hr4, h⟩ := h
        rw [hr4]
        simp only [if_neg c3, Option.map_some', Option.some.injEq]
        by_cases c4 : r4.length = 1
        · rw [if_pos c4] at h
          simp only [if_pos c4, Option.some.injEq, Prod.mk.injEq, reduceCtorEq,
            false_implies, and_true]
          rintro t n ⟨rfl, rfl⟩
          exact key 0 0 h
        · rw [if_neg c4] at h
          simp only [Option.some.injEq, Prod.mk.injEq] at h
          simp only [if_neg c4, reduceCtorEq, false_implies, implies_true, true_and,
            forall_const]
          exact ⟨h.1.symm, h.2.symm⟩

theorem FirstPass_line_form {F : Type} (buf : List Char) (m m1 : obj_model_t F)
    (e e1 : List Msg) (h : FirstPass_line buf m e = some (m1, e1)) :
    (∀ t n, faceLineForm buf = some (t, n) →
      m1.has_texCoords = t ∧ m1.has_normals = n ∧ m1.num_faces = m.num_faces + 1) ∧
    (faceLineForm buf = none →
      m1.has_texCoords = m.has_texCoords ∧ m1.has_normals = m.has_normals ∧
        m1.num_faces = m.num_faces) := by
  unfold FirstPass_line at h
  unfold faceLineForm lineKind
  cases h0 : buf[0]? with
  | none => rw [h0] at h; simp at h
  | some c0 =>
    rw [h0] at h
    simp only [Option.bind_eq_bind, Option.some_bind] at h
    by_cases hv : c0 = 'v'
    · rw [if_pos hv] at h
      cases h1 : buf[1]? with
      | none => rw [h1] at h; simp at h
      | some c1 =>
        rw [h1] at h
        simp only [Option.some_bind] at h
        have hnf : ∀ k : LineKind, k ≠ .face →
            ((if k = .face then (cstrAt buf 2).bind faceForm else none) = none) :=
          fun k hk => if_neg hk
        have hk : (if c1 = ' ' then LineKind.vertex else if c1 = 't' then LineKind.texCoord
            else if c1 = 'n' then LineKind.normal else LineKind.other) ≠ .face := by
          split_ifs <;> simp
        simp only [if_pos hv, hnf _ hk, reduceCtorEq, false_implies, implies_true, true_and,
          forall_const]
        by_cases hs : c1 = ' '
        · rw [if_pos hs, Option.bind_eq_some] at h
          obtain ⟨k, -, h⟩ := h
          simp only [Option.some.injEq, Prod.mk.injEq] at h
          obtain ⟨rfl, -⟩ := h
          exact ⟨rfl, rfl, rfl⟩
        · rw [if_neg hs] at h
          by_cases ht : c1 = 't'
          · rw [if_pos ht, Option.bind_eq_some] at h
            obtain ⟨k, -, h⟩ := h
            simp only [Option.some.injEq, Prod.mk.injEq] at h
            obtain ⟨rfl, -⟩ := h
            exact ⟨rfl, rfl, rfl⟩
          · rw [if_neg ht] at h
            by_cases hn : c1 = 'n'
            · rw [if_pos hn, Option.bind_eq_some] at h
              obtain ⟨k, -, h⟩ := h
              simp only [Option.some.injEq, Prod.mk.injEq] at h
              obtain ⟨rfl, -⟩ := h
              exact ⟨rfl, rfl, rfl⟩
            · rw [if_neg hn] at h
              simp only [Option.some.injEq, Prod.mk.injEq] at h
              obtain ⟨rfl, -⟩ := h
              exact ⟨rfl, rfl, rfl⟩
    · rw [if_neg hv] at h
      simp only [if_neg hv]
      by_cases hf : c0 = 'f'
      · rw [if_pos hf, Option.bind_eq_some] at h
        obtain ⟨s, hs, h⟩ := h
        have := FirstPass_face_form s m m1 e e1 h
        simp only [if_pos hf, if_true, hs, Option.some_bind]
        refine ⟨fun t n hform => ?_, fun hform => ?_⟩
        · obtain ⟨rfl, -⟩ := this.1 t n hform
          exact ⟨rfl, rfl, rfl⟩
        · obtain ⟨rfl, -⟩ := this.2 hform
          exact ⟨rfl, rfl, rfl⟩
      · rw [if_neg hf] at h
        simp only [Option.some.injEq, Prod.mk.injEq] at h
        obtain ⟨rfl, -⟩ := h
        simp only [if_neg hf, reduceCtorEq, if_false, false_implies, implies_true, true_and,
          forall_const]

theorem FirstPass_loop_formless {F : Type} :
    ∀ (rs : List (Option (List Char))) (buf : List Char) (m m1 : obj_model_t F)
      (e e1 : List Msg), FirstPass_loop rs buf m e = some (m1, e1) →
      AllBufs (fun b => faceLineForm b = none) rs buf →
      m1.has_texCoords = m.has_texCoords ∧ m1.has_normals = m.has_normals ∧
        m1.num_faces = m.num_faces := by
  intro rs
  induction rs with
  | nil =>
    intro buf m m1 e e1 h _
    simp only [FirstPass_loop, Option.some.injEq, Prod.mk.injEq] at h
    obtain ⟨rfl, -⟩ := h
    exact ⟨rfl, rfl, rfl⟩
  | cons r rs ih =>
    intro buf m m1 e e1 h hall
    obtain ⟨m2, e2, hl, hrest⟩ := FirstPass_loop_cons r rs buf m m1 e e1 h
    obtain ⟨a1, a2, a3⟩ := (FirstPass_line_form _ m m2 e e2 hl).2 hall.1
    obtain ⟨b1, b2, b3⟩ := ih _ m2 m1 e2 e1 hrest hall.2
    exact ⟨b1.trans a1, b2.trans a2, b3.trans a3⟩

/-! ### A last line that fills the buffer of `SecondPass` -/

/-- C17: `exactFitFile` is a single vertex line of 127 characters without a newline, so
every line fits the 128-byte buffer and no line begins with `f`.  `FirstPass` (buffer of 256
bytes) reaches the end of the file while it reads the line and counts one vertex;
`SecondPass` reads the 127 characters without reaching the end of the file, so `feof` is
still false, the loop runs once more, `fgets` fails and the line left in the buffer is
processed again with `pvert` at the end of the one-vertex array: the second vertex is
written beyond the array (the model has no value for it: `none`). -/
theorem SecondPass_rereads_exact_fit_line :
    exactFitFile.length = 127 ∧ LinesFit 127 exactFitFile ∧
    (∀ l ∈ lines exactFitFile, l.head? ≠ some 'f') ∧
    FirstPass exactFitFile (zeroModel Int) =
      some (1, { zeroModel Int with num_verts := 1 }, []) ∧
    MallocModel { zeroModel Int with num_verts := 1 } [] = (1, exactFitAllocated, []) ∧
    reads 256 exactFitFile = [some exactFitFile] ∧
    reads 128 exactFitFile = [some exactFitFile, none] ∧
    SecondPass_loop intOps [some exactFitFile] [] ⟨exactFitAllocated, 0, 0, 0, 0, [], []⟩ =
      some (1, exactFitState) ∧
    lineKind (bufAfter [some exactFitFile, none] []) = .vertex ∧
    arrLen exactFitState.mdl.vertices = 1 ∧ exactFitState.pvert = 1 ∧
    SecondPass_line intOps (bufAfter [some exactFitFile, none] []) exactFitState = none ∧
    SecondPass intOps exactFitFile exactFitAllocated [] = none ∧
    ReadOBJModel intOps (oneFile exactFitFile) [] "model.obj" (zeroModel Int) = none := by
  refine ⟨by decide!, by decide!, by decide!, by decide!, by decide!, by decide!, by decide!,
    by decide!, by decide!, rfl, rfl, by decide!, by decide!, by decide!⟩

/-! ### The reads of a file that is extended at a line boundary -/

theorem getChars_concat :
    ∀ (n : Nat) (s : List Char), (getChars n s).1 ++ (getChars n s).2.1 = s := by
  intro n
  induction n with
  | zero => intro s; rfl
  | succ n ih =>
    intro s
    cases s with
    | nil => rfl
    | cons c s =>
      by_cases hc : c = '\n'
      · simp [getChars, hc]
      · simp only [getChars, if_neg hc, List.cons_append, List.cons.injEq, true_and]
        exact ih s

theorem getChars_fst_ne_nil (n : Nat) (c : Char) (s : List Char) :
    (getChars (n + 1) (c :: s)).1 ≠ [] := by
  by_cases hc : c = '\n'
  · simp [getChars, hc]
  · simp [getChars, hc]

theorem getLast?_tail_of_ne {c : Char} {s : List Char} {x : Char} (hc : c ≠ x)
    (h : (c :: s).getLast? = some x) : s ≠ [] ∧ s.getLast? = some x := by
  cases s with
  | nil =>
    simp only [List.getLast?_singleton, Option.some.injEq] at h
    exact absurd h hc
  | cons d s =>
    rw [List.getLast?_cons_cons] at h
    exact ⟨by simp, h⟩

theorem getChars_append :
    ∀ (n : Nat) (pre x : List Char), pre.getLast? = some '\n' →
      getChars n (pre ++ x) = ((getChars n pre).1, (getChars n pre).2.1 ++ x, false) := by
  intro n
  induction n with
  | zero => intro pre x _; rfl
  | succ n ih =>
    intro pre x hpre
    cases pre with
    | nil => simp at hpre
    | cons c s =>
      by_cases hc : c = '\n'
      · simp [getChars, hc]
      · have hs := getLast?_tail_of_ne hc hpre
        have := ih s x hs.2
        simp only [List.cons_append, getChars, if_neg hc, List.append_eq, this]

theorem getChars_rest_newline (n : Nat) (pre : List Char) (hpre : pre.getLast? = some '\n') :
    (getChars n pre).2.1 = [] ∨ (getChars n pre).2.1.getLast? = some '\n' := by
  by_cases hr : (getChars n pre).2.1 = []
  · exact Or.inl hr
  · right
    have hcat := getChars_concat n pre
    rw [← hcat, List.getLast?_append_of_ne_nil _ hr] at hpre
    exact hpre

/-- The reads of a text that ends with a newline are the same whatever follows it. -/
theorem readsAux_append (size : Nat) (hsize : 2 ≤ size) :
    ∀ (k : Nat) (pre : List Char), pre.length ≤ k →
      (pre = [] ∨ pre.getLast? = some '\n') →
      ∃ A : List (Option (List Char)), ∀ (x : List Char) (fuel : Nat),
        (pre ++ x).length + 1 ≤ fuel → readsAux size fuel (pre ++ x) = A ++ reads size x := by
  intro k
  induction k with
  | zero =>
    intro pre hk _
    have hnil : pre = [] := List.length_eq_zero.mp (Nat.le_zero.mp hk)
    subst hnil
    exact ⟨[], fun x fuel hf => by
      simpa using readsAux_fuel size hsize x fuel (by simpa using hf)⟩
  | succ k ih =>
    intro pre hk hpre
    cases pre with
    | nil =>
      exact ⟨[], fun x fuel hf => by
        simpa using readsAux_fuel size hsize x fuel (by simpa using hf)⟩
    | cons c s =>
      have hlast : (c :: s).getLast? = some '\n' := by
        rcases hpre with h | h
        · exact absurd h (by simp)
        · exact h
      obtain ⟨n, hn⟩ : ∃ n, size - 1 = n + 1 := ⟨size - 2, by omega⟩
      have hcat := getChars_concat (size - 1) (c :: s)
      have hne : (getChars (size - 1) (c :: s)).1 ≠ [] := by
        rw [hn]; exact getChars_fst_ne_nil n c s
      have hlen : (getChars (size - 1) (c :: s)).2.1.length ≤ k := by
        have h1 : ((getChars (size - 1) (c :: s)).1 ++ (getChars (size - 1) (c :: s)).2.1).length
            = (c :: s).length := by rw [hcat]
        have h2 : 0 < (getChars (size - 1) (c :: s)).1.length := List.length_pos.mpr hne
        rw [List.length_append] at h1
        simp only [List.length_cons] at h1 hk
        omega
      obtain ⟨A, hA⟩ := ih _ hlen (getChars_rest_newline (size - 1) (c :: s) hlast)
      refine ⟨some (getChars (size - 1) (c :: s)).1 :: A, fun x fuel hf => ?_⟩
      cases fuel with
      | zero => simp at hf
      | succ fuel =>
        have happ := getChars_append (size - 1) (c :: s) x hlast
        have hlen2 : ((getChars (size - 1) (c :: s)).2.1 ++ x).length + 1 ≤ fuel := by
          have h1 : ((getChars (size - 1) (c :: s)).1 ++
              (getChars (size - 1) (c :: s)).2.1).length = (c :: s).length := by rw [hcat]
          have h2 : 0 < (getChars (size - 1) (c :: s)).1.length := List.length_pos.mpr hne
          rw [List.length_append] at h1
          simp only [List.length_append, List.length_cons] at h1 hf ⊢
          omega
        rw [readsAux, happ]
        simp only [hne, if_false, Bool.false_eq_true, List.cons_append, List.cons.injEq,
          true_and]
        exact hA x fuel hlen2

theorem reads_append (size : Nat) (hsize : 2 ≤ size) (pre : List Char)
    (hpre : pre = [] ∨ pre.getLast? = some '\n') :
    ∃ A : List (Option (List Char)),
      ∀ x : List Char, reads size (pre ++ x) = A ++ reads size x := by
  obtain ⟨A, hA⟩ := readsAux_append size hsize pre.length pre (Nat.le_refl _) hpre
  exact ⟨A, fun x => hA x _ (Nat.le_refl _)⟩

theorem getChars_line :
    ∀ (line : List Char) (n : Nat) (x : List Char), '\n' ∉ line → line.length + 1 ≤ n →
      getChars n (line ++ '\n' :: x) = (line ++ ['\n'], x, false) := by
  intro line
  induction line with
  | nil =>
    intro n x _ hn
    obtain ⟨k, rfl⟩ : ∃ k, n = k + 1 := ⟨n - 1, by simp at hn; omega⟩
    simp [getChars]
  | cons c l ih =>
    intro n x hnl hn
    obtain ⟨k, rfl⟩ : ∃ k, n = k + 1 := ⟨n - 1, by simp at hn; omega⟩
    have hc : c ≠ '\n' := fun h => hnl (by simp [h])
    have hl : '\n' ∉ l := fun h => hnl (by simp [h])
    have := ih k x hl (by simp at hn; omega)
    simp only [List.cons_append, getChars, if_neg hc, List.append_eq, this]

/-- A line that fits the buffer is read whole by one `fgets`. -/
theorem reads_line (size : Nat) (hsize : 2 ≤ size) (line x : List Char) (hnl : '\n' ∉ line)
    (hlen : line.length + 1 ≤ size - 1) :
    reads size (line ++ '\n' :: x) = some (line ++ ['\n']) :: reads size x := by
  unfold reads
  rw [readsAux, getChars_line line (size - 1) x hnl hlen]
  simp only [List.append_eq_nil, reduceCtorEq, and_false, if_false, Bool.false_eq_true,
    List.cons.injEq, true_and]
  exact readsAux_fuel size hsize x _ (by simp)

theorem reads_head (size : Nat) (hsize : 2 ≤ size) (s : List Char) (hs : s ≠ []) :
    ∃ c B, reads size s = some c :: B := by
  cases s with
  | nil => exact absurd rfl hs
  | cons a s =>
    obtain ⟨n, hn⟩ : ∃ n, size - 1 = n + 1 := ⟨size - 2, by omega⟩
    have hne : (getChars (size - 1) (a :: s)).1 ≠ [] := by
      rw [hn]; exact getChars_fst_ne_nil n a s
    unfold reads
    rw [readsAux]
    simp only [hne, if_false]
    exact ⟨_, _, rfl⟩

theorem getChars_shape :
    ∀ (n : Nat) (s : List Char), (getChars n s).1.getLast? = some '\n' ∨
      (getChars n s).1.length = n ∨ (getChars n s).2.1 = [] := by
  intro n
  induction n with
  | zero => intro s; exact Or.inr (Or.inl rfl)
  | succ n ih =>
    intro s
    cases s with
    | nil => exact Or.inr (Or.inr rfl)
    | cons c s =>
      by_cases hc : c = '\n'
      · left
        simp [getChars, hc]
      · simp only [getChars, if_neg hc, List.length_cons, Nat.add_right_cancel_iff]
        rcases ih s with h | h | h
        · left
          cases hg : (getChars n s).1 with
          | nil => rw [hg] at h; simp at h
          | cons d t => rw [hg] at h; rw [List.getLast?_cons_cons]; exact h
        · exact Or.inr (Or.inl h)
        · exact Or.inr (Or.inr h)

theorem mem_readsAux_shape (size : Nat) (hsize : 2 ≤ size) :
    ∀ (fuel : Nat) (s c : List Char), some c ∈ readsAux size fuel s →
      c.getLast? = some '\n' ∨ c.length = size - 1 ∨ c.getLast? = s.getLast? := by
  intro fuel
  induction fuel with
  | zero => intro s c h; simp [readsAux] at h
  | succ fuel ih =>
    intro s c h
    rw [readsAux, List.mem_cons] at h
    have hcat := getChars_concat (size - 1) s
    rcases h with h | h
    · by_cases hnil : (getChars (size - 1) s).1 = []
      · rw [if_pos hnil] at h
        exact absurd h (by simp)
      · rw [if_neg hnil, Option.some.injEq] at h
        subst h
        rcases getChars_shape (size - 1) s with h1 | h1 | h1
        · exact Or.inl h1
        · exact Or.inr (Or.inl h1)
        · right; right
          rw [h1, List.append_nil] at hcat
          rw [hcat]
    · by_cases heof : (getChars (size - 1) s).2.2 = true
      · rw [if_pos heof] at h
        exact absurd h (by simp)
      · rw [if_neg heof] at h
        by_cases hr : (getChars (size - 1) s).2.1 = []
        · rw [hr] at h
          cases fuel with
          | zero => simp [readsAux] at h
          | succ fuel =>
            rw [readsAux_nil size fuel hsize] at h
            simp at h
        · rcases ih _ c h with h1 | h1 | h1
          · exact Or.inl h1
          · exact Or.inr (Or.inl h1)
          · right; right
            rw [h1]
            conv_rhs => rw [← hcat]
            rw [List.getLast?_append_of_ne_nil _ hr]

/-- No `fgets` of a file that does not end with the character `f` returns the bare string
`f`. -/
theorem reads_no_bare_f (size : Nat) (hsize : 3 ≤ size) (s : List Char)
    (hs : s.getLast? ≠ some 'f') : ∀ r ∈ reads size s, r ≠ some ['f'] := by
  intro r hr hf
  subst hf
  rcases mem_readsAux_shape size (by omega) _ s ['f'] hr with h | h | h
  · simp at h
  · simp at h; omega
  · exact hs h.symm

/-! ### What a pass reads of its line buffer -/

theorem takeWhile_append_stop {α : Type} (p : α → Bool) (a : α) (hp : p a = false) :
    ∀ (c r : List α), (c ++ a :: r).takeWhile p = c.takeWhile p := by
  intro c
  induction c with
  | nil => intro r; simp [List.takeWhile_cons, hp]
  | cons x c ih =>
    intro r
    simp only [List.cons_append, List.takeWhile_cons, ih r]

theorem cstrAt_append (c r : List Char) :
    cstrAt (c ++ NUL :: r) 0 = some (c.takeWhile (fun x => x ≠ NUL)) := by
  unfold cstrAt
  rw [List.drop_zero, if_pos (by simp), takeWhile_append_stop _ NUL (by simp)]

theorem cstrAt_two (x y : Char) (c r : List Char) :
    cstrAt (x :: y :: (c ++ NUL :: r)) 2 = some (c.takeWhile (fun x => x ≠ NUL)) := by
  have h := cstrAt_append c r
  unfold cstrAt at h ⊢
  simpa using h

theorem FirstPass_line_skip {F : Type} (buf : List Char) (c : Char) (m : obj_model_t F)
    (e : List Msg) (h0 : buf[0]? = some c) (hv : c ≠ 'v') (hf : c ≠ 'f') :
    FirstPass_line buf m e = some (m, e) := by
  unfold FirstPass_line
  simp [h0, hv, hf]

theorem SecondPass_line_skip {F : Type} (ops : FloatOps F) (buf : List Char) (c : Char)
    (st : Pass2 F) (h0 : buf[0]? = some c) (hv : c ≠ 'v') (hf : c ≠ 'f') :
    SecondPass_line ops buf st = some (true, st) := by
  unfold SecondPass_line
  simp [h0, hv, hf]

/-- `FirstPass` reads nothing of its buffer beyond the NUL that ends the line, except on the
bare line `f`. -/
theorem FirstPass_line_buf {F : Type} (c r1 r2 : List Char) (m : obj_model_t F) (e : List Msg)
    (hc : c ≠ ['f']) :
    FirstPass_line (c ++ NUL :: r1) m e = FirstPass_line (c ++ NUL :: r2) m e := by
  cases c with
  | nil =>
    rw [FirstPass_line_skip _ NUL m e (by simp) (by decide) (by decide),
      FirstPass_line_skip _ NUL m e (by simp) (by decide) (by decide)]
  | cons x c =>
    cases c with
    | nil =>
      by_cases hv : x = 'v'
      · subst hv
        have hN1 : NUL ≠ ' ' := by decide
        have hN2 : NUL ≠ 't' := by decide
        have hN3 : NUL ≠ 'n' := by decide
        unfold FirstPass_line
        simp [hN1, hN2, hN3]
      · have hf : x ≠ 'f' := fun h => hc (by rw [h])
        rw [FirstPass_line_skip _ x m e (by simp) hv hf,
          FirstPass_line_skip _ x m e (by simp) hv hf]
    | cons y c =>
      unfold FirstPass_line
      simp only [List.cons_append, List.getElem?_cons_zero, List.getElem?_cons_succ,
        cstrAt_two]

/-- `SecondPass` reads nothing of its buffer beyond the NUL that ends the line. -/
theorem SecondPass_line_buf {F : Type} (ops : FloatOps F) (c r1 r2 : List Char)
    (st : Pass2 F) :
    SecondPass_line ops (c ++ NUL :: r1) st = SecondPass_line ops (c ++ NUL :: r2) st := by
  cases c with
  | nil =>
    rw [SecondPass_line_skip ops _ NUL st (by simp) (by decide) (by decide),
      SecondPass_line_skip ops _ NUL st (by simp) (by decide) (by decide)]
  | cons x c =>
    cases c with
    | nil =>
      by_cases hv : x = 'v'
      · subst hv
        have hN1 : NUL ≠ ' ' := by decide
        have hN2 : NUL ≠ 't' := by decide
        have hN3 : NUL ≠ 'n' := by decide
        unfold SecondPass_line
        simp [hN1, hN2, hN3]
      · have h1 := cstrAt_append [x] r1
        have h2 := cstrAt_append [x] r2
        unfold SecondPass_line
        simp only [List.cons_append, List.nil_append, List.getElem?_cons_zero,
          Option.bind_eq_bind, Option.some_bind, if_neg hv]
        simp only [List.cons_append, List.nil_append] at h1 h2
        rw [h1, h2]
    | cons y c =>
      have h1 := cstrAt_append (x :: y :: c) r1
      have h2 := cstrAt_append (x :: y :: c) r2
      simp only [List.cons_append] at h1 h2
      unfold SecondPass_line
      simp only [List.cons_append, List.getElem?_cons_zero, List.getElem?_cons_succ,
        cstrAt_two, h1, h2]

/-! ### A line inserted into a file -/

theorem FirstPass_loop_buf {F : Type} :
    ∀ (rs : List (Option (List Char))) (b1 b2 : List Char) (m : obj_model_t F)
      (e : List Msg), (∀ r ∈ rs, r ≠ some ['f']) →
      ((∃ c B, rs = some c :: B) ∨
        ∃ c r1 r2, c ≠ ['f'] ∧ b1 = c ++ NUL :: r1 ∧ b2 = c ++ NUL :: r2) →
      FirstPass_loop rs b1 m e = FirstPass_loop rs b2 m e := by
  intro rs
  induction rs with
  | nil => intro b1 b2 m e _ _; rfl
  | cons r rs ih =>
    intro b1 b2 m e hrs hrel
    have hrel1 : ∃ c r1 r2, c ≠ ['f'] ∧ fgets_store r b1 = c ++ NUL :: r1 ∧
        fgets_store r b2 = c ++ NUL :: r2 := by
      cases r with
      | none =>
        rcases hrel with ⟨c, B, h⟩ | h
        · exact absurd h (by simp)
        · exact h
      | some c =>
        exact ⟨c, _, _, fun hc => hrs (some c) (by simp) (by rw [hc]), rfl, rfl⟩
    have hline : FirstPass_line (fgets_store r b1) m e = FirstPass_line (fgets_store r b2) m e := by
      obtain ⟨c, r1, r2, hc, h1, h2⟩ := hrel1
      rw [h1, h2]
      exact FirstPass_line_buf c r1 r2 m e hc
    rw [FirstPass_loop, FirstPass_loop, hline]
    cases FirstPass_line (fgets_store r b2) m e with
    | none => rfl
    | some p =>
      exact ih _ _ p.1 p.2 (fun x hx => hrs x (List.mem_cons_of_mem _ hx)) (Or.inr hrel1)

theorem SecondPass_loop_buf {F : Type} (ops : FloatOps F) :
    ∀ (rs : List (Option (List Char))) (b1 b2 : List Char) (st : Pass2 F),
      ((∃ c B, rs = some c :: B) ∨ ∃ c r1 r2, b1 = c ++ NUL :: r1 ∧ b2 = c ++ NUL :: r2) →
      SecondPass_loop ops rs b1 st = SecondPass_loop ops rs b2 st := by
  intro rs
  induction rs with
  | nil => intro b1 b2 st _; rfl
  | cons r rs ih =>
    intro b1 b2 st hrel
    have hrel1 : ∃ c r1 r2, fgets_store r b1 = c ++ NUL :: r1 ∧
        fgets_store r b2 = c ++ NUL :: r2 := by
      cases r with
      | none =>
        rcases hrel with ⟨c, B, h⟩ | h
        · exact absurd h (by simp)
        · exact h
      | some c => exact ⟨c, _, _, rfl, rfl⟩
    have hline : SecondPass_line ops (fgets_store r b1) st =
        SecondPass_line ops (fgets_store r b2) st := by
      obtain ⟨c, r1, r2, h1, h2⟩ := hrel1
      rw [h1, h2]
      exact SecondPass_line_buf ops c r1 r2 st
    rw [SecondPass_loop, SecondPass_loop, hline]
    cases SecondPass_line ops (fgets_store r b2) st with
    | none => rfl
    | some p =>
      obtain ⟨b, st1⟩ := p
      cases b with
      | false => rfl
      | true => exact ih _ _ st1 (Or.inr hrel1)

theorem FirstPass_loop_append_eq {F : Type} :
    ∀ (A B : List (Option (List Char))) (buf : List Char) (m : obj_model_t F) (e : List Msg),
      FirstPass_loop (A ++ B) buf m e =
        (FirstPass_loop A buf m e).bind (fun p => FirstPass_loop B (bufAfter A buf) p.1 p.2) := by
  intro A
  induction A with
  | nil => intro B buf m e; rfl
  | cons r A ih =>
    intro B buf m e
    rw [List.cons_append, FirstPass_loop, FirstPass_loop]
    cases FirstPass_line (fgets_store r buf) m e with
    | none => rfl
    | some p => exact ih B _ p.1 p.2

theorem SecondPass_loop_append_eq {F : Type} (ops : FloatOps F) :
    ∀ (A B : List (Option (List Char))) (buf : List Char) (st : Pass2 F),
      SecondPass_loop ops (A ++ B) buf st =
        (SecondPass_loop ops A buf st).bind (fun p =>
          if p.1 = 1 then SecondPass_loop ops B (bufAfter A buf) p.2 else some p) := by
  intro A
  induction A with
  | nil => intro B buf st; rfl
  | cons r A ih =>
    intro B buf st
    rw [List.cons_append, SecondPass_loop, SecondPass_loop]
    cases SecondPass_line ops (fgets_store r buf) st with
    | none => rfl
    | some p =>
      obtain ⟨b, st1⟩ := p
      cases b with
      | false => rfl
      | true => exact ih B _ st1

theorem FirstPass_loop_insert {F : Type} (A B : List (Option (List Char))) (c0 : Char)
    (L : List Char) (hv : c0 ≠ 'v') (hf : c0 ≠ 'f') (hB : ∃ c B1, B = some c :: B1)
    (hnf : ∀ r ∈ B, r ≠ some ['f']) (buf : List Char) (m : obj_model_t F) (e : List Msg) :
    FirstPass_loop (A ++ some (c0 :: L) :: B) buf m e = FirstPass_loop (A ++ B) buf m e := by
  rw [FirstPass_loop_append_eq, FirstPass_loop_append_eq]
  congr 1
  funext p
  rw [FirstPass_loop, FirstPass_line_skip _ c0 p.1 p.2 (by simp [fgets_store]) hv hf]
  exact FirstPass_loop_buf B _ _ p.1 p.2 hnf (Or.inl hB)

theorem SecondPass_loop_insert {F : Type} (ops : FloatOps F)
    (A B : List (Option (List Char))) (c0 : Char) (L : List Char) (hv : c0 ≠ 'v')
    (hf : c0 ≠ 'f') (hB : ∃ c B1, B = some c :: B1) (buf : List Char) (st : Pass2 F) :
    SecondPass_loop ops (A ++ some (c0 :: L) :: B) buf st =
      SecondPass_loop ops (A ++ B) buf st := by
  rw [SecondPass_loop_append_eq, SecondPass_loop_append_eq]
  congr 1
  funext p
  by_cases hp : p.1 = 1
  · rw [if_pos hp, if_pos hp, SecondPass_loop,
      SecondPass_line_skip ops _ c0 p.2 (by simp [fgets_store]) hv hf]
    exact SecondPass_loop_buf ops B _ _ p.2 (Or.inl hB)
  · rw [if_neg hp, if_neg hp]

/-- The reads of a file and of the file with a short line inserted before one of its
lines. -/
theorem reads_insert (size : Nat) (hsize : 2 ≤ size) (pre line suf : List Char)
    (hpre : pre = [] ∨ pre.getLast? = some '\n') (hnl : '\n' ∉ line)
    (hlen : line.length + 1 ≤ size - 1) :
    ∃ A, reads size (pre ++ suf) = A ++ reads size suf ∧
      reads size (pre ++ (line ++ '\n' :: suf)) =
        A ++ some (line ++ ['\n']) :: reads size suf := by
  obtain ⟨A, hA⟩ := reads_append size hsize pre hpre
  exact ⟨A, hA suf, by rw [hA, reads_line size hsize line suf hnl hlen]⟩

theorem head_line (line : List Char) (hhead : ∀ c ∈ line.head?, c ≠ 'v' ∧ c ≠ 'f') :
    ∃ c0 L, line ++ ['\n'] = c0 :: L ∧ c0 ≠ 'v' ∧ c0 ≠ 'f' := by
  cases line with
  | nil => exact ⟨'\n', [], rfl, by decide, by decide⟩
  | cons c l => exact ⟨c, l ++ ['\n'], rfl, hhead c (by simp)⟩

theorem FirstPass_insert {F : Type} (pre line suf : List Char) (m : obj_model_t F)
    (hpre : pre = [] ∨ pre.getLast? = some '\n') (hsuf : suf ≠ []) (hnl : '\n' ∉ line)
    (hlen : line.length + 1 ≤ 127) (hhead : ∀ c ∈ line.head?, c ≠ 'v' ∧ c ≠ 'f')
    (hlast : suf.getLast? ≠ some 'f') :
    FirstPass (pre ++ (line ++ '\n' :: suf)) m = FirstPass (pre ++ suf) m := by
  obtain ⟨A, h1, h2⟩ := reads_insert 256 (by omega) pre line suf hpre hnl (by omega)
  obtain ⟨c0, L, hL, hv, hf⟩ := head_line line hhead
  unfold FirstPass
  rw [h1, h2, hL, FirstPass_loop_insert A _ c0 L hv hf (reads_head 256 (by omega) suf hsuf)
    (reads_no_bare_f 256 (by omega) suf hlast)]

theorem SecondPass_insert {F : Type} (ops : FloatOps F) (pre line suf : List Char)
    (m : obj_model_t F) (heap : List Bool)
    (hpre : pre = [] ∨ pre.getLast? = some '\n') (hsuf : suf ≠ []) (hnl : '\n' ∉ line)
    (hlen : line.length + 1 ≤ 127) (hhead : ∀ c ∈ line.head?, c ≠ 'v' ∧ c ≠ 'f') :
    SecondPass ops (pre ++ (line ++ '\n' :: suf)) m heap = SecondPass ops (pre ++ suf) m heap := by
  obtain ⟨A, h1, h2⟩ := reads_insert 128 (by omega) pre line suf hpre hnl (by omega)
  obtain ⟨c0, L, hL, hv, hf⟩ := head_line line hhead
  unfold SecondPass
  rw [h1, h2, hL, SecondPass_loop_insert ops A _ c0 L hv hf (reads_head 128 (by omega) suf hsuf)]

/-- C12 (amended): a line of at most 127 characters (its newline included) whose first
character is neither `v` nor `f`, inserted before a line of a file that does not end with
the character `f`, changes nothing in what `ReadOBJModel` does: the value returned, the
model, the lines written to `stderr` and the numbers read by `SecondPass` are those of the
file without the line (and the load of one file is undefined exactly when the load of the
other is). -/
theorem ReadOBJModel_insert_line {F : Type} (ops : FloatOps F)
    (fs fs1 : String → Option (List Char)) (heap : List Bool) (filename : String)
    (m0 : obj_model_t F) (pre line suf : List Char)
    (hfs : fs filename = some (pre ++ suf))
    (hfs1 : fs1 filename = some (pre ++ (line ++ '\n' :: suf)))
    (hpre : pre = [] ∨ pre.getLast? = some '\n') (hsuf : suf ≠ []) (hnl : '\n' ∉ line)
    (hlen : line.length + 1 ≤ 127) (hhead : ∀ c ∈ line.head?, c ≠ 'v' ∧ c ≠ 'f')
    (hlast : suf.getLast? ≠ some 'f') :
    ReadOBJModel ops fs1 heap filename m0 = ReadOBJModel ops fs heap filename m0 := by
  unfold ReadOBJModel
  rw [hfs, hfs1]
  dsimp only
  rw [FirstPass_insert pre line suf (zeroModel F) hpre hsuf hnl hlen hhead hlast]
  cases FirstPass (pre ++ suf) (zeroModel F) with
  | none => rfl
  | some p =>
    obtain ⟨r1, m1, e1⟩ := p
    dsimp only
    rw [SecondPass_insert ops pre line suf _ _ hpre hsuf hnl hlen hhead]

/-- Witness of C12 (amended): the group line `g group` inserted before the face line of
`plainFile` changes nothing, and the load succeeds. -/
theorem ReadOBJModel_insert_line_witness :
    ReadOBJModel intOps (oneFile ("v 0 0 0\n".toList ++ ("g group".toList ++ '\n' ::
        "f 1 1 1".toList))) [] "model.obj" (zeroModel Int) =
      ReadOBJModel intOps (oneFile ("v 0 0 0\n".toList ++ "f 1 1 1".toList)) [] "model.obj"
        (zeroModel Int) ∧
    ReadOBJModel intOps (oneFile ("v 0 0 0\n".toList ++ "f 1 1 1".toList)) [] "model.obj"
      (zeroModel Int) = some plainLoaded :=
  ⟨ReadOBJModel_insert_line intOps (oneFile ("v 0 0 0\n".toList ++ "f 1 1 1".toList))
      (oneFile ("v 0 0 0\n".toList ++ ("g group".toList ++ '\n' :: "f 1 1 1".toList))) []
      "model.obj" (zeroModel Int) "v 0 0 0\n".toList "g group".toList "f 1 1 1".toList
      (by decide) (by decide) (by decide) (by decide) (by decide) (by decide) (by decide)
      (by decide),
    by decide!⟩

/-- C12 (counterexample): three insertions of a line whose first character is `#` that
change the outcome.  Before the first line of `plainFile`, the line `longLine` is cut by
`FirstPass` after 255 characters and its tail `v 9 9 9` is counted as a vertex: the load
succeeds with `num_verts = 2` instead of 1.  After the last line of the file `v 0 0 0`
(ended by a newline), the line `#` takes the place of the line that the loop processes
twice: `num_verts` is 1 instead of 2.  Before the bare last line `f` of the file `v 0 0 0`,
`f`, the line `#` changes the bytes that `FirstPass` reads at `buf + 2` behind the end of
the string `f`: the face is no longer counted, and `SecondPass` stores through the null
`faces` pointer instead of returning 0. -/
theorem ReadOBJModel_insert_line_counterexample :
    (longLine.head? = some '#' ∧ '\n' ∉ longLine ∧
      ReadOBJModel intOps (oneFile plainFile) [] "model.obj" (zeroModel Int) =
        some plainLoaded ∧
      ReadOBJModel intOps (oneFile (longLine ++ '\n' :: plainFile)) [] "model.obj"
        (zeroModel Int) = some longLineLoaded ∧
      plainLoaded.mdl.num_verts = 1 ∧ longLineLoaded.mdl.num_verts = 2) ∧
    ((ReadOBJModel intOps (oneFile "v 0 0 0\n".toList) [] "model.obj" (zeroModel Int)).map
        (fun r => (r.ret, r.mdl.num_verts)) = some (1, 2) ∧
      (ReadOBJModel intOps (oneFile "v 0 0 0\n#\n".toList) [] "model.obj"
        (zeroModel Int)).map (fun r => (r.ret, r.mdl.num_verts)) = some (1, 1)) ∧
    ((ReadOBJModel intOps (oneFile "v 0 0 0\nf".toList) [] "model.obj" (zeroModel Int)).map
        (fun r => r.ret) = some 0 ∧
      ReadOBJModel intOps (oneFile "v 0 0 0\n#\nf".toList) [] "model.obj" (zeroModel Int) =
        none) := by
  refine ⟨⟨by decide!, by decide!, by decide!, by decide!, rfl, rfl⟩,
    ⟨by decide!, by decide!⟩, ⟨by decide!, by decide!⟩⟩

/-! ### Vertex, texture-coordinate and normal lines in `SecondPass` -/

theorem sscanf_f_take {F : Type} (ops : FloatOps F) :
    ∀ (n m : Nat) (s : List Char), n ≤ m → sscanf_f ops n s = (sscanf_f ops m s).take n := by
  intro n
  induction n with
  | zero => intro m s _; simp [sscanf_f]
  | succ n ih =>
    intro m s hnm
    obtain ⟨k, rfl⟩ : ∃ k, m = k + 1 := ⟨m - 1, by omega⟩
    rw [sscanf_f, sscanf_f]
    cases ops.strtof (skipSpace s) with
    | none => rfl
    | some p =>
      simp only [List.take_succ_cons, List.cons.injEq, true_and]
      exact ih k _ (by omega)

theorem storeComp_set {F : Type} (vs : List (Vec F)) (p k : Nat) (cell : Vec F) (x : F)
    (hp : p < vs.length) :
    storeComp (some (vs.set p cell)) p k x = some (vs.set p (cell.set k (some x))) := by
  unfold storeComp
  simp [hp, List.set_set]

theorem storeFloats_set {F : Type} (vs : List (Vec F)) (p : Nat) (hp : p < vs.length) :
    ∀ (xs : List F) (k : Nat) (cell : Vec F),
      storeFloats p k xs (some (vs.set p cell)) = some (some (vs.set p (setFrom k xs cell))) := by
  intro xs
  induction xs with
  | nil => intro k cell; rfl
  | cons x xs ih =>
    intro k cell
    rw [storeFloats, storeComp_set vs p k cell x hp]
    exact ih (k + 1) _

theorem set_self_of_getElem? {α : Type} (cell : α) :
    ∀ (vs : List α) (p : Nat), vs[p]? = some cell → vs.set p cell = vs ∧ p < vs.length := by
  intro vs
  induction vs with
  | nil => intro p h; simp at h
  | cons a vs ih =>
    intro p h
    cases p with
    | zero =>
      simp only [List.getElem?_cons_zero, Option.some.injEq] at h
      subst h
      exact ⟨rfl, by simp⟩
    | succ p =>
      simp only [List.getElem?_cons_succ] at h
      obtain ⟨h1, h2⟩ := ih p h
      exact ⟨by rw [List.set_cons_succ, h1], by simp only [List.length_cons]; omega⟩

theorem SecondPass_line_vertex {F : Type} (ops : FloatOps F) (buf s : List Char)
    (st : Pass2 F) (h0 : buf[0]? = some 'v') (h1 : buf[1]? = some ' ')
    (hs : cstrAt buf 2 = some s) :
    SecondPass_line ops buf st = SecondPass_vertex ops s st := by
  unfold SecondPass_line
  simp [h0, h1, hs]

theorem SecondPass_line_texCoord {F : Type} (ops : FloatOps F) (buf s : List Char)
    (st : Pass2 F) (h0 : buf[0]? = some 'v') (h1 : buf[1]? = some 't')
    (hs : cstrAt buf 2 = some s) :
    SecondPass_line ops buf st = SecondPass_texCoord ops s st := by
  unfold SecondPass_line
  simp [h0, h1, hs]

theorem SecondPass_line_normal {F : Type} (ops : FloatOps F) (buf s : List Char)
    (st : Pass2 F) (h0 : buf[0]? = some 'v') (h1 : buf[1]? = some 'n')
    (hs : cstrAt buf 2 = some s) :
    SecondPass_line ops buf st = SecondPass_normal ops s st := by
  unfold SecondPass_line
  simp [h0, h1, hs]

theorem bufAfter_append_singleton (rs : List (Option (List Char))) (r : Option (List Char))
    (buf : List Char) : bufAfter (rs ++ [r]) buf = fgets_store r (bufAfter rs buf) := by
  simp [bufAfter, List.foldl_append]

/-- A line that `SecondPass` does not accept makes the load fail: when the buffer of some
iteration of its loop holds a line on which `SecondPass_line` never answers "go on",
`ReadOBJModel` returns 0. -/
theorem ReadOBJModel_fails_at {F : Type} (ops : FloatOps F) (fs : String → Option (List Char))
    (heap : List Bool) (filename : String) (m0 : obj_model_t F) (file : List Char)
    (r : Loaded F) (rs1 rs2 : List (Option (List Char))) (rd : Option (List Char))
    (hfile : fs filename = some file) (hreads : reads 128 file = rs1 ++ rd :: rs2)
    (hbad : ∀ st st1, SecondPass_line ops (bufAfter (rs1 ++ [rd]) []) st ≠ some (true, st1))
    (h : ReadOBJModel ops fs heap filename m0 = some r) : r.ret = 0 := by
  by_contra hne
  have hret : r.ret = 1 := by
    unfold ReadOBJModel at h
    rw [hfile] at h
    dsimp only at h
    cases h1 : FirstPass file (zeroModel F) with
    | none => rw [h1] at h; simp at h
    | some p =>
      obtain ⟨r1, m1, e1⟩ := p
      rw [h1] at h
      dsimp only at h
      by_cases c1 : r1 = 0
      · rw [if_pos c1] at h
        simp only [Option.some.injEq] at h
        subst h
        exact absurd rfl hne
      · rw [if_neg c1] at h
        by_cases c2 : (MallocModel m1 heap).1 = 0
        · rw [if_pos c2, Option.map_eq_some'] at h
          obtain ⟨m, -, rfl⟩ := h
          exact absurd rfl hne
        · rw [if_neg c2] at h
          cases h3 : SecondPass ops file (MallocModel m1 heap).2.1 (MallocModel m1 heap).2.2 with
          | none => rw [h3] at h; simp at h
          | some q =>
            obtain ⟨r3, st⟩ := q
            rw [h3] at h
            dsimp only at h
            by_cases c3 : r3 = 0
            · rw [if_pos c3, Option.map_eq_some'] at h
              obtain ⟨m, -, rfl⟩ := h
              exact absurd rfl hne
            · rw [if_neg c3] at h
              simp only [Option.some.injEq] at h
              subst h
              rfl
  obtain ⟨r1, m1, e1, st, -, -, -, h3, -⟩ :=
    ReadOBJModel_success ops fs heap filename m0 file r hfile h hret
  unfold SecondPass at h3
  rw [hreads] at h3
  obtain ⟨st2, -, h4⟩ := SecondPass_loop_append ops rs1 (rd :: rs2) [] _ st h3
  obtain ⟨st3, h5, -⟩ := SecondPass_loop_cons ops rd rs2 _ st2 st h4
  rw [← bufAfter_append_singleton] at h5
  exact hbad st2 st3 h5

theorem storeFloats_cell {F : Type} (vs : List (Vec F)) (p : Nat) (cell : Vec F)
    (hc : vs[p]? = some cell) (xs : List F) (k : Nat) :
    storeFloats p k xs (some vs) = some (some (vs.set p (setFrom k xs cell))) := by
  obtain ⟨hset, hp⟩ := set_self_of_getElem? cell vs p hc
  have := storeFloats_set vs p hp xs k cell
  rw [hset] at this
  exact this

theorem SecondPass_vertex_rejects {F : Type} (ops : FloatOps F) (s : List Char)
    (hlt : (sscanf_f ops 4 s).length < 3) (st st1 : Pass2 F) :
    SecondPass_vertex ops s st ≠ some (true, st1) := by
  have h3 : (sscanf_f ops 3 s).length ≠ 3 := by
    rw [sscanf_f_take ops 3 4 s (by omega), List.length_take]
    omega
  have h4 : (sscanf_f ops 4 s).length ≠ 4 := by omega
  unfold SecondPass_vertex
  simp only [Option.bind_eq_bind, h4, h3, ne_eq, not_false_eq_true, if_true]
  cases storeFloats st.pvert 0 (sscanf_f ops 4 s) st.mdl.vertices with
  | none => simp
  | some a1 =>
    simp only [Option.some_bind]
    cases storeFloats st.pvert 0 (sscanf_f ops 3 s) a1 with
    | none => simp
    | some a2 => simp

/-- The vertex branch on the line buffer: for a vertex line (`buf[0]` is `v`, `buf[1]` a space, `s` the string at `buf + 2`)
and a cursor `pvert` inside the vertex array, `SecondPass` stores `(x, y, z, 1.0)` when
exactly three numbers `x y z` can be read from `s` and `(x, y, z, w)` when four can; when
fewer than three can be read it returns 0 with the message `Error reading vertex data!`,
and `ReadOBJModel` returns 0 for every file in which `SecondPass` meets such a line. -/
theorem SecondPass_vertex_buf {F : Type} (ops : FloatOps F) (buf s : List Char)
    (h0 : buf[0]? = some 'v') (h1 : buf[1]? = some ' ') (hs : cstrAt buf 2 = some s) :
    (∀ (st : Pass2 F) (vs : List (Vec F)) (cell : Vec F), st.mdl.vertices = some vs →
      vs[st.pvert]? = some cell → cell.length = 4 →
      (∀ x y z, sscanf_f ops 4 s = [x, y, z] →
        SecondPass_line ops buf st = some (true, { st with
          mdl := { st.mdl with
            vertices := some (vs.set st.pvert [some x, some y, some z, some ops.one]) },
          pvert := st.pvert + 1 })) ∧
      (∀ x y z w, sscanf_f ops 4 s = [x, y, z, w] →
        SecondPass_line ops buf st = some (true, { st with
          mdl := { st.mdl with
            vertices := some (vs.set st.pvert [some x, some y, some z, some w]) },
          pvert := st.pvert + 1 })) ∧
      ((sscanf_f ops 4 s).length < 3 →
        ∃ st1, SecondPass_line ops buf st = some (false, st1) ∧
          st1.err = st.err ++ [Msg.vertexData])) ∧
    ((sscanf_f ops 4 s).length < 3 →
      ∀ (fs : String → Option (List Char)) (heap : List Bool) (filename : String)
        (m0 : obj_model_t F) (file : List Char) (r : Loaded F)
        (rs1 rs2 : List (Option (List Char))) (rd : Option (List Char)),
        fs filename = some file → reads 128 file = rs1 ++ rd :: rs2 →
        bufAfter (rs1 ++ [rd]) [] = buf →
        ReadOBJModel ops fs heap filename m0 = some r → r.ret = 0) := by
  refine ⟨fun st vs cell hv hc hlen => ⟨?_, ?_, ?_⟩, ?_⟩
  · intro x y z h4
    have h3 : sscanf_f ops 3 s = [x, y, z] := by
      rw [sscanf_f_take ops 3 4 s (by omega), h4]; rfl
    obtain ⟨-, hp⟩ := set_self_of_getElem? cell vs st.pvert hc
    rw [SecondPass_line_vertex ops buf s st h0 h1 hs]
    unfold SecondPass_vertex
    rw [hv, h4, h3, storeFloats_cell vs st.pvert cell hc]
    simp only [Option.bind_eq_bind, Option.some_bind, List.length_cons, List.length_nil,
      storeFloats_set vs st.pvert hp, storeComp_set vs st.pvert _ _ _ hp]
    match cell, hlen with
    | [a, b, c, d], _ => rfl
  · intro x y z w h4
    rw [SecondPass_line_vertex ops buf s st h0 h1 hs]
    unfold SecondPass_vertex
    rw [hv, h4, storeFloats_cell vs st.pvert cell hc]
    simp only [Option.bind_eq_bind, Option.some_bind, List.length_cons, List.length_nil]
    match cell, hlen with
    | [a, b, c, d], _ => rfl
  · intro hlt
    have h3 : (sscanf_f ops 3 s).length ≠ 3 := by
      rw [sscanf_f_take ops 3 4 s (by omega), List.length_take]
      omega
    have h4 : (sscanf_f ops 4 s).length ≠ 4 := by omega
    obtain ⟨-, hp⟩ := set_self_of_getElem? cell vs st.pvert hc
    rw [SecondPass_line_vertex ops buf s st h0 h1 hs]
    unfold SecondPass_vertex
    rw [hv, storeFloats_cell vs st.pvert cell hc]
    simp only [Option.bind_eq_bind, Option.some_bind, h4, h3, ne_eq, not_false_eq_true,
      if_true, storeFloats_set vs st.pvert hp]
    exact ⟨_, rfl, rfl⟩
  · intro hlt fs heap filename m0 file r rs1 rs2 rd hfile hreads hbuf h
    refine ReadOBJModel_fails_at ops fs heap filename m0 file r rs1 rs2 rd hfile hreads ?_ h
    intro st st1
    rw [hbuf, SecondPass_line_vertex ops buf s st h0 h1 hs]
    exact SecondPass_vertex_rejects ops s hlt st st1

theorem SecondPass_texCoord_rejects {F : Type} (ops : FloatOps F) (s : List Char)
    (hnil : sscanf_f ops 3 s = []) (st st1 : Pass2 F) :
    SecondPass_texCoord ops s st ≠ some (true, st1) := by
  have h2 : sscanf_f ops 2 s = [] := by
    rw [sscanf_f_take ops 2 3 s (by omega), hnil]; rfl
  have h1 : sscanf_f ops 1 s = [] := by
    rw [sscanf_f_take ops 1 3 s (by omega), hnil]; rfl
  unfold SecondPass_texCoord
  rw [hnil, h2, h1]
  simp [storeFloats]

/-- The texture-coordinate branch on the line buffer: for a texture-coordinate line (`buf[0]` is `v`, `buf[1]` is `t`, `s` the string at
`buf + 2`) and a cursor `puvw` inside the array, `SecondPass` stores `(u, v, w)` when three
numbers can be read from `s`, `(u, v, 0.0)` when exactly two can and `(u, 0.0, 0.0)` when
exactly one can; when none can be read it returns 0 with the message
`Error reading texture coordinates!`, and `ReadOBJModel` returns 0 for every file in which
`SecondPass` meets such a line. -/
theorem SecondPass_texCoord_buf {F : Type} (ops : FloatOps F) (buf s : List Char)
    (h0 : buf[0]? = some 'v') (h1 : buf[1]? = some 't') (hs : cstrAt buf 2 = some s) :
    (∀ (st : Pass2 F) (ts : List (Vec F)) (cell : Vec F), st.mdl.texCoords = some ts →
      ts[st.puvw]? = some cell → cell.length = 3 →
      (∀ u v w, sscanf_f ops 3 s = [u, v, w] →
        SecondPass_line ops buf st = some (true, { st with
          mdl := { st.mdl with texCoords := some (ts.set st.puvw [some u, some v, some w]) },
          puvw := st.puvw + 1 })) ∧
      (∀ u v, sscanf_f ops 3 s = [u, v] →
        SecondPass_line ops buf st = some (true, { st with
          mdl := { st.mdl with
            texCoords := some (ts.set st.puvw [some u, some v, some ops.zero]) },
          puvw := st.puvw + 1 })) ∧
      (∀ u, sscanf_f ops 3 s = [u] →
        SecondPass_line ops buf st = some (true, { st with
          mdl := { st.mdl with
            texCoords := some (ts.set st.puvw [some u, some ops.zero, some ops.zero]) },
          puvw := st.puvw + 1 })) ∧
      (sscanf_f ops 3 s = [] →
        ∃ st1, SecondPass_line ops buf st = some (false, st1) ∧
          st1.err = st.err ++ [Msg.texCoordData])) ∧
    (sscanf_f ops 3 s = [] →
      ∀ (fs : String → Option (List Char)) (heap : List Bool) (filename : String)
        (m0 : obj_model_t F) (file : List Char) (r : Loaded F)
        (rs1 rs2 : List (Option (List Char))) (rd : Option (List Char)),
        fs filename = some file → reads 128 file = rs1 ++ rd :: rs2 →
        bufAfter (rs1 ++ [rd]) [] = buf →
        ReadOBJModel ops fs heap filename m0 = some r → r.ret = 0) := by
  refine ⟨fun st ts cell ht hc hlen => ?_, ?_⟩
  · obtain ⟨-, hp⟩ := set_self_of_getElem? cell ts st.puvw hc
    have hline := SecondPass_line_texCoord ops buf s st h0 h1 hs
    refine ⟨?_, ?_, ?_, ?_⟩
    · intro u v w h3
      rw [hline]
      unfold SecondPass_texCoord
      rw [ht, h3, storeFloats_cell ts st.puvw cell hc]
      simp only [Option.bind_eq_bind, Option.some_bind, List.length_cons, List.length_nil]
      match cell, hlen with
      | [a, b, c], _ => rfl
    · intro u v h3
      have h2 : sscanf_f ops 2 s = [u, v] := by
        rw [sscanf_f_take ops 2 3 s (by omega), h3]; rfl
      rw [hline]
      unfold SecondPass_texCoord
      rw [ht, h3, h2, storeFloats_cell ts st.puvw cell hc]
      simp only [Option.bind_eq_bind, Option.some_bind, List.length_cons, List.length_nil,
        storeFloats_set ts st.puvw hp, storeComp_set ts st.puvw _ _ _ hp]
      match cell, hlen with
      | [a, b, c], _ => rfl
    · intro u h3
      have h2 : sscanf_f ops 2 s = [u] := by
        rw [sscanf_f_take ops 2 3 s (by omega), h3]; rfl
      have h1' : sscanf_f ops 1 s = [u] := by
        rw [sscanf_f_take ops 1 3 s (by omega), h3]; rfl
      rw [hline]
      unfold SecondPass_texCoord
      rw [ht, h3, h2, h1', storeFloats_cell ts st.puvw cell hc]
      simp only [Option.bind_eq_bind, Option.some_bind, List.length_cons, List.length_nil,
        storeFloats_set ts st.puvw hp, storeComp_set ts st.puvw _ _ _ hp]
      match cell, hlen with
      | [a, b, c], _ => rfl
    · intro h3
      have h2 : sscanf_f ops 2 s = [] := by
        rw [sscanf_f_take ops 2 3 s (by omega), h3]; rfl
      have h1' : sscanf_f ops 1 s = [] := by
        rw [sscanf_f_take ops 1 3 s (by omega), h3]; rfl
      rw [hline]
      unfold SecondPass_texCoord
      rw [ht, h3, h2, h1']
      simp only [storeFloats, Option.bind_eq_bind, Option.some_bind, List.length_nil]
      exact ⟨_, rfl, rfl⟩
  · intro hnil fs heap filename m0 file r rs1 rs2 rd hfile hreads hbuf h
    refine ReadOBJModel_fails_at ops fs heap filename m0 file r rs1 rs2 rd hfile hreads ?_ h
    intro st st1
    rw [hbuf, SecondPass_line_texCoord ops buf s st h0 h1 hs]
    exact SecondPass_texCoord_rejects ops s hnil st st1

theorem sscanf_f_length_le {F : Type} (ops : FloatOps F) :
    ∀ (n : Nat) (s : List Char), (sscanf_f ops n s).length ≤ n := by
  intro n
  induction n with
  | zero => intro s; simp [sscanf_f]
  | succ n ih =>
    intro s
    rw [sscanf_f]
    cases ops.strtof (skipSpace s) with
    | none => simp
    | some p =>
      simp only [List.length_cons, Nat.add_le_add_iff_right]
      exact ih _

theorem SecondPass_normal_accepts {F : Type} (ops : FloatOps F) (s : List Char)
    (st st1 : Pass2 F) (h : SecondPass_normal ops s st = some (true, st1)) :
    (sscanf_f ops 3 s).length = 3 := by
  by_contra hne
  unfold SecondPass_normal at h
  simp only [Option.bind_eq_bind, ne_eq, hne, not_false_eq_true, if_true] at h
  cases hst : storeFloats st.pnorm 0 (sscanf_f ops 3 s) st.mdl.normals with
  | none => rw [hst] at h; simp at h
  | some a1 => rw [hst] at h; simp at h

/-- The normal branch on the line buffer: a normal line (`buf[0]` is `v`, `buf[1]` is `n`, `s` the string at
`buf + 2`) is accepted by `SecondPass` if and only if three numbers can be read from `s`;
the first three numbers `(i, j, k)` are stored and what follows them on the line is not
read.  When fewer than three numbers can be read `SecondPass` returns 0 with the message
`Error reading normal vectors!`, and `ReadOBJModel` returns 0 for every file in which
`SecondPass` meets such a line. -/
theorem SecondPass_normal_buf {F : Type} (ops : FloatOps F) (buf s : List Char)
    (h0 : buf[0]? = some 'v') (h1 : buf[1]? = some 'n') (hs : cstrAt buf 2 = some s) :
    (∀ (st st1 : Pass2 F), SecondPass_line ops buf st = some (true, st1) →
      (sscanf_f ops 3 s).length = 3) ∧
    (∀ (st : Pass2 F) (ns : List (Vec F)) (cell : Vec F), st.mdl.normals = some ns →
      ns[st.pnorm]? = some cell → cell.length = 3 →
      (∀ i j k, sscanf_f ops 3 s = [i, j, k] →
        SecondPass_line ops buf st = some (true, { st with
          mdl := { st.mdl with normals := some (ns.set st.pnorm [some i, some j, some k]) },
          pnorm := st.pnorm + 1 })) ∧
      ((sscanf_f ops 3 s).length < 3 →
        ∃ st1, SecondPass_line ops buf st = some (false, st1) ∧
          st1.err = st.err ++ [Msg.normalData])) ∧
    ((sscanf_f ops 3 s).length < 3 →
      ∀ (fs : String → Option (List Char)) (heap : List Bool) (filename : String)
        (m0 : obj_model_t F) (file : List Char) (r : Loaded F)
        (rs1 rs2 : List (Option (List Char))) (rd : Option (List Char)),
        fs filename = some file → reads 128 file = rs1 ++ rd :: rs2 →
        bufAfter (rs1 ++ [rd]) [] = buf →
        ReadOBJModel ops fs heap filename m0 = some r → r.ret = 0) := by
  refine ⟨?_, fun st ns cell hn hc hlen => ⟨?_, ?_⟩, ?_⟩
  · intro st st1 h
    rw [SecondPass_line_normal ops buf s st h0 h1 hs] at h
    exact SecondPass_normal_accepts ops s st st1 h
  · intro i j k h3
    rw [SecondPass_line_normal ops buf s st h0 h1 hs]
    unfold SecondPass_normal
    rw [hn, h3, storeFloats_cell ns st.pnorm cell hc]
    simp only [Option.bind_eq_bind, Option.some_bind, List.length_cons, List.length_nil]
    match cell, hlen with
    | [a, b, c], _ => rfl
  · intro hlt
    have h3 : (sscanf_f ops 3 s).length ≠ 3 := by omega
    rw [SecondPass_line_normal ops buf s st h0 h1 hs]
    unfold SecondPass_normal
    rw [hn, storeFloats_cell ns st.pnorm cell hc]
    simp only [Option.bind_eq_bind, Option.some_bind, h3, ne_eq, not_false_eq_true, if_true]
    exact ⟨_, rfl, rfl⟩
  · intro hlt fs heap filename m0 file r rs1 rs2 rd hfile hreads hbuf h
    refine ReadOBJModel_fails_at ops fs heap filename m0 file r rs1 rs2 rd hfile hreads ?_ h
    intro st st1 hacc
    rw [hbuf, SecondPass_line_normal ops buf s st h0 h1 hs] at hacc
    have := SecondPass_normal_accepts ops s st st1 hacc
    omega
/-! ### A line that fits the buffer is read whole -/

theorem cstrAt_lineArg (l rest : List Char) (h : 2 ≤ l.length) :
    cstrAt (l ++ NUL :: rest) 2 = some (lineArg l) := by
  match l, h with
  | x :: y :: c, _ => exact cstrAt_two x y c rest

theorem lines_ne_nil : ∀ (file : List Char), ∀ l ∈ lines file, l ≠ [] := by
  intro file
  induction file with
  | nil => intro l hl; simp [lines] at hl
  | cons c s ih =>
    intro l hl
    rw [lines] at hl
    by_cases hc : c = '\n'
    · rw [if_pos hc, List.mem_cons] at hl
      rcases hl with h | h
      · rw [h]; simp
      · exact ih l h
    · rw [if_neg hc] at hl
      cases hs : lines s with
      | nil =>
        rw [hs] at hl
        simp only [List.mem_singleton] at hl
        rw [hl]; simp
      | cons a ls =>
        rw [hs] at hl ih
        simp only [List.mem_cons] at hl
        rcases hl with h | h
        · rw [h]; simp
        · exact ih l (by simp [h])

/-- A line of at most `size - 1` characters is the result of one `fgets` of the loop. -/
theorem mem_lines_read (size : Nat) (hsize : 2 ≤ size) :
    ∀ (k : Nat) (file l : List Char), file.length ≤ k → l ∈ lines file →
      l.length ≤ size - 1 →
      ∃ rs1 rs2, reads size file = rs1 ++ some l :: rs2 := by
  intro k
  induction k with
  | zero =>
    intro file l hk hl _
    have : file = [] := List.length_eq_zero.mp (Nat.le_zero.mp hk)
    subst this
    simp [lines] at hl
  | succ k ih =>
    intro file l hk hl hlen
    cases file with
    | nil => simp [lines] at hl
    | cons c s =>
      rw [lines_eq_takeLine, List.mem_cons] at hl
      have hcat := takeLine_append (c :: s)
      rcases hl with h | h
      · subst h
        have hg := getChars_takeLine (size - 1) (c :: s) hlen
        have hne := takeLine_ne_nil c s
        unfold reads
        rw [readsAux, hg]
        simp only [hne, if_false]
        exact ⟨[], _, rfl⟩
      · have hR : (takeLine (c :: s)).2 ≠ [] := by
          intro hnil
          rw [hnil] at h
          simp [lines] at h
        have hnl : '\n' ∈ c :: s := by
          by_contra hno
          rw [takeLine_no_newline _ hno] at hR
          exact hR rfl
        have hlast := takeLine_newline (c :: s) hnl
        obtain ⟨A, hA⟩ := reads_append size hsize (takeLine (c :: s)).1 (Or.inr hlast)
        have hlenR : (takeLine (c :: s)).2.length ≤ k := by
          have := takeLine_snd_length c s
          simp only [List.length_cons] at this hk
          omega
        obtain ⟨rs1, rs2, hr⟩ := ih _ l hlenR h hlen
        refine ⟨A ++ rs1, rs2, ?_⟩
        have := hA (takeLine (c :: s)).2
        rw [hcat] at this
        rw [this, hr, List.append_assoc]

/-- The buffer of the iteration that has read the line `l`. -/
theorem mem_lines_buf (size : Nat) (hsize : 2 ≤ size) (file l : List Char)
    (hl : l ∈ lines file) (hlen : l.length ≤ size - 1) :
    ∃ rs1 rs2 rest, reads size file = rs1 ++ some l :: rs2 ∧
      bufAfter (rs1 ++ [some l]) [] = l ++ NUL :: rest := by
  obtain ⟨rs1, rs2, hr⟩ := mem_lines_read size hsize file.length file l (Nat.le_refl _) hl hlen
  exact ⟨rs1, rs2, _, hr, by rw [bufAfter_append_singleton]; rfl⟩

/-! ### Vertex, texture-coordinate and normal lines of a file -/

theorem line_buf_heads (l rest : List Char) (c0 c1 : Char) (h0 : l[0]? = some c0)
    (h1 : l[1]? = some c1) :
    (l ++ NUL :: rest)[0]? = some c0 ∧ (l ++ NUL :: rest)[1]? = some c1 ∧
      cstrAt (l ++ NUL :: rest) 2 = some (lineArg l) := by
  match l, h0, h1 with
  | x :: y :: c, h0, h1 =>
    simp only [List.getElem?_cons_zero, List.getElem?_cons_succ] at h0 h1
    exact ⟨by simpa using h0, by simpa using h1, cstrAt_two x y c rest⟩

/-- C13 (amended): for a vertex line `l` (its first two characters are `v` and a space) of
at most 127 characters, which `SecondPass` reads whole into its buffer, and a cursor `pvert`
inside the vertex array: when exactly three numbers `x y z` can be read from the line after
its first two characters, `SecondPass` stores `(x, y, z, 1.0)`; when four can, it stores
`(x, y, z, w)`; when fewer than three can, it returns 0 with the message
`Error reading vertex data!`, and `ReadOBJModel` returns 0 for every file that has such a
line. -/
theorem SecondPass_vertex_line {F : Type} (ops : FloatOps F) (l : List Char)
    (h0 : l[0]? = some 'v') (h1 : l[1]? = some ' ') (hfit : l.length ≤ 127) :
    (∀ (old : List Char) (st : Pass2 F) (vs : List (Vec F)) (cell : Vec F),
      st.mdl.vertices = some vs → vs[st.pvert]? = some cell → cell.length = 4 →
      (∀ x y z, sscanf_f ops 4 (lineArg l) = [x, y, z] →
        SecondPass_line ops (fgets_store (some l) old) st = some (true, { st with
          mdl := { st.mdl with
            vertices := some (vs.set st.pvert [some x, some y, some z, some ops.one]) },
          pvert := st.pvert + 1 })) ∧
      (∀ x y z w, sscanf_f ops 4 (lineArg l) = [x, y, z, w] →
        SecondPass_line ops (fgets_store (some l) old) st = some (true, { st with
          mdl := { st.mdl with
            vertices := some (vs.set st.pvert [some x, some y, some z, some w]) },
          pvert := st.pvert + 1 })) ∧
      ((sscanf_f ops 4 (lineArg l)).length < 3 →
        ∃ st1, SecondPass_line ops (fgets_store (some l) old) st = some (false, st1) ∧
          st1.err = st.err ++ [Msg.vertexData])) ∧
    ((sscanf_f ops 4 (lineArg l)).length < 3 →
      ∀ (fs : String → Option (List Char)) (heap : List Bool) (filename : String)
        (m0 : obj_model_t F) (file : List Char) (r : Loaded F),
        fs filename = some file → l ∈ lines file →
        ReadOBJModel ops fs heap filename m0 = some r → r.ret = 0) := by
  refine ⟨fun old st vs cell hv hc hlen => ?_, ?_⟩
  · obtain ⟨b0, b1, bs⟩ := line_buf_heads l (old.drop (l.length + 1)) 'v' ' ' h0 h1
    exact (SecondPass_vertex_buf ops _ _ b0 b1 bs).1 st vs cell hv hc hlen
  · intro hlt fs heap filename m0 file r hfile hl h
    obtain ⟨rs1, rs2, rest, hr, hb⟩ := mem_lines_buf 128 (by omega) file l hl (by omega)
    obtain ⟨b0, b1, bs⟩ := line_buf_heads l rest 'v' ' ' h0 h1
    exact (SecondPass_vertex_buf ops _ _ b0 b1 bs).2 hlt fs heap filename m0 file r rs1 rs2
      (some l) hfile hr hb h

/-- C14 (amended): for a texture-coordinate line `l` (its first two characters are `v` and
`t`) of at most 127 characters, which `SecondPass` reads whole into its buffer, and a
cursor `puvw` inside the array: `SecondPass` stores `(u, v, w)` when three numbers can be
read from the line after its first two characters, `(u, v, 0.0)` when exactly two can and
`(u, 0.0, 0.0)` when exactly one can; when none can be read it returns 0 with the message
`Error reading texture coordinates!`, and `ReadOBJModel` returns 0 for every file that has
such a line. -/
theorem SecondPass_texCoord_line {F : Type} (ops : FloatOps F) (l : List Char)
    (h0 : l[0]? = some 'v') (h1 : l[1]? = some 't') (hfit : l.length ≤ 127) :
    (∀ (old : List Char) (st : Pass2 F) (ts : List (Vec F)) (cell : Vec F),
      st.mdl.texCoords = some ts → ts[st.puvw]? = some cell → cell.length = 3 →
      (∀ u v w, sscanf_f ops 3 (lineArg l) = [u, v, w] →
        SecondPass_line ops (fgets_store (some l) old) st = some (true, { st with
          mdl := { st.mdl with texCoords := some (ts.set st.puvw [some u, some v, some w]) },
          puvw := st.puvw + 1 })) ∧
      (∀ u v, sscanf_f ops 3 (lineArg l) = [u, v] →
        SecondPass_line ops (fgets_store (some l) old) st = some (true, { st with
          mdl := { st.mdl with
            texCoords := some (ts.set st.puvw [some u, some v, some ops.zero]) },
          puvw := st.puvw + 1 })) ∧
      (∀ u, sscanf_f ops 3 (lineArg l) = [u] →
        SecondPass_line ops (fgets_store (some l) old) st = some (true, { st with
          mdl := { st.mdl with
            texCoords := some (ts.set st.puvw [some u, some ops.zero, some ops.zero]) },
          puvw := st.puvw + 1 })) ∧
      (sscanf_f ops 3 (lineArg l) = [] →
        ∃ st1, SecondPass_line ops (fgets_store (some l) old) st = some (false, st1) ∧
          st1.err = st.err ++ [Msg.texCoordData])) ∧
    (sscanf_f ops 3 (lineArg l) = [] →
      ∀ (fs : String → Option (List Char)) (heap : List Bool) (filename : String)
        (m0 : obj_model_t F) (file : List Char) (r : Loaded F),
        fs filename = some file → l ∈ lines file →
        ReadOBJModel ops fs heap filename m0 = some r → r.ret = 0) := by
  refine ⟨fun old st ts cell ht hc hlen => ?_, ?_⟩
  · obtain ⟨b0, b1, bs⟩ := line_buf_heads l (old.drop (l.length + 1)) 'v' 't' h0 h1
    exact (SecondPass_texCoord_buf ops _ _ b0 b1 bs).1 st ts cell ht hc hlen
  · intro hnil fs heap filename m0 file r hfile hl h
    obtain ⟨rs1, rs2, rest, hr, hb⟩ := mem_lines_buf 128 (by omega) file l hl (by omega)
    obtain ⟨b0, b1, bs⟩ := line_buf_heads l rest 'v' 't' h0 h1
    exact (SecondPass_texCoord_buf ops _ _ b0 b1 bs).2 hnil fs heap filename m0 file r rs1
      rs2 (some l) hfile hr hb h

/-- C15 (amended): a normal line `l` (its first two characters are `v` and `n`) of at most
127 characters, which `SecondPass` reads whole into its buffer, is accepted if and only if
three numbers can be read from the line after its first two characters; the first three
numbers `(i, j, k)` are stored and what follows them on the line is not read.  When fewer
than three numbers can be read `SecondPass` returns 0 with the message
`Error reading normal vectors!`, and `ReadOBJModel` returns 0 for every file that has such a
line. -/
theorem SecondPass_normal_line {F : Type} (ops : FloatOps F) (l : List Char)
    (h0 : l[0]? = some 'v') (h1 : l[1]? = some 'n') (hfit : l.length ≤ 127) :
    (∀ (old : List Char) (st st1 : Pass2 F),
      SecondPass_line ops (fgets_store (some l) old) st = some (true, st1) →
      (sscanf_f ops 3 (lineArg l)).length = 3) ∧
    (∀ (old : List Char) (st : Pass2 F) (ns : List (Vec F)) (cell : Vec F),
      st.mdl.normals = some ns → ns[st.pnorm]? = some cell → cell.length = 3 →
      (∀ i j k, sscanf_f ops 3 (lineArg l) = [i, j, k] →
        SecondPass_line ops (fgets_store (some l) old) st = some (true, { st with
          mdl := { st.mdl with normals := some (ns.set st.pnorm [some i, some j, some k]) },
          pnorm := st.pnorm + 1 })) ∧
      ((sscanf_f ops 3 (lineArg l)).length < 3 →
        ∃ st1, SecondPass_line ops (fgets_store (some l) old) st = some (false, st1) ∧
          st1.err = st.err ++ [Msg.normalData])) ∧
    ((sscanf_f ops 3 (lineArg l)).length < 3 →
      ∀ (fs : String → Option (List Char)) (heap : List Bool) (filename : String)
        (m0 : obj_model_t F) (file : List Char) (r : Loaded F),
        fs filename = some file → l ∈ lines file →
        ReadOBJModel ops fs heap filename m0 = some r → r.ret = 0) := by
  refine ⟨fun old st st1 h => ?_, fun old st ns cell hn hc hlen => ?_, ?_⟩
  · obtain ⟨b0, b1, bs⟩ := line_buf_heads l (old.drop (l.length + 1)) 'v' 'n' h0 h1
    exact (SecondPass_normal_buf ops _ _ b0 b1 bs).1 st st1 h
  · obtain ⟨b0, b1, bs⟩ := line_buf_heads l (old.drop (l.length + 1)) 'v' 'n' h0 h1
    exact (SecondPass_normal_buf ops _ _ b0 b1 bs).2.1 st ns cell hn hc hlen
  · intro hlt fs heap filename m0 file r hfile hl h
    obtain ⟨rs1, rs2, rest, hr, hb⟩ := mem_lines_buf 128 (by omega) file l hl (by omega)
    obtain ⟨b0, b1, bs⟩ := line_buf_heads l rest 'v' 'n' h0 h1
    exact (SecondPass_normal_buf ops _ _ b0 b1 bs).2.2 hlt fs heap filename m0 file r rs1 rs2
      (some l) hfile hr hb h

/-! ### The three kinds of lines on concrete inputs -/

/-- Witness of C13 (amended): the line `v 1 2 3` stores `(1, 2, 3, 1)`, the line
`v 1 2 3 4` stores `(1, 2, 3, 4)`, and the load of the file `v 1 2` fails. -/
theorem SecondPass_vertex_line_witness :
    SecondPass_line intOps (fgets_store (some "v 1 2 3\n".toList) []) vertState =
      some (true, ⟨{ vertState.mdl with vertices := some [[some 1, some 2, some 3, some 1]] },
        1, 0, 0, 0, [], []⟩) ∧
    SecondPass_line intOps (fgets_store (some "v 1 2 3 4\n".toList) []) vertState =
      some (true, ⟨{ vertState.mdl with vertices := some [[some 1, some 2, some 3, some 4]] },
        1, 0, 0, 0, [], []⟩) ∧
    shortVertexLoaded.ret = 0 :=
  ⟨((SecondPass_vertex_line intOps "v 1 2 3\n".toList (by decide) (by decide)
      (by decide)).1 [] vertState [[none, none, none, none]] [none, none, none, none]
      rfl rfl rfl).1 1 2 3 (by decide),
    ((SecondPass_vertex_line intOps "v 1 2 3 4\n".toList (by decide) (by decide)
      (by decide)).1 [] vertState [[none, none, none, none]] [none, none, none, none]
      rfl rfl rfl).2.1 1 2 3 4 (by decide),
    (SecondPass_vertex_line intOps "v 1 2".toList (by decide) (by decide) (by decide)).2
      (by decide) (oneFile "v 1 2".toList) [] "model.obj" (zeroModel Int) "v 1 2".toList
      shortVertexLoaded (by decide) (by decide) (by decide!)⟩

/-- C13 (counterexample): the only line of the file `longVertexLine` is a vertex line of 130
characters that carries the three numbers 1, 2 and 12345; `SecondPass` reads its first 127
characters, which end in the middle of the third number, stores `(1, 2, 12, 1)` and the
load succeeds. -/
theorem SecondPass_vertex_counterexample :
    longVertexLine.length = 130 ∧ lines longVertexLine = [longVertexLine] ∧
    longVertexLine[0]? = some 'v' ∧ longVertexLine[1]? = some ' ' ∧
    sscanf_f intOps 4 (lineArg longVertexLine) = [1, 2, 12345] ∧
    ∃ r, ReadOBJModel intOps (oneFile longVertexLine) [] "model.obj" (zeroModel Int) =
        some r ∧ r.ret = 1 ∧
      r.mdl.vertices = some [[some 1, some 2, some 12, some 1]] :=
  ⟨by decide!, by decide!, by decide!, by decide!, by decide!,
    longVertexLoaded, by decide!, rfl, rfl⟩

/-- Witness of C14 (amended): the line `vt 5 2` stores `(5, 2, 0)`, the line `vt 5` stores
`(5, 0, 0)`, and the load of a file with the line `vt` fails. -/
theorem SecondPass_texCoord_line_witness :
    SecondPass_line intOps (fgets_store (some "vt 5 2\n".toList) []) texState =
      some (true, ⟨{ texState.mdl with texCoords := some [[some 5, some 2, some 0]] },
        0, 1, 0, 0, [], []⟩) ∧
    SecondPass_line intOps (fgets_store (some "vt 5\n".toList) []) texState =
      some (true, ⟨{ texState.mdl with texCoords := some [[some 5, some 0, some 0]] },
        0, 1, 0, 0, [], []⟩) ∧
    noTexCoordLoaded.ret = 0 :=
  ⟨((SecondPass_texCoord_line intOps "vt 5 2\n".toList (by decide) (by decide)
      (by decide)).1 [] texState [[none, none, none]] [none, none, none] rfl rfl rfl).2.1
      5 2 (by decide),
    ((SecondPass_texCoord_line intOps "vt 5\n".toList (by decide) (by decide)
      (by decide)).1 [] texState [[none, none, none]] [none, none, none] rfl rfl rfl).2.2.1
      5 (by decide),
    (SecondPass_texCoord_line intOps "vt".toList (by decide) (by decide) (by decide)).2
      (by decide) (oneFile "v 0 0 0\nvt".toList) [] "model.obj" (zeroModel Int)
      "v 0 0 0\nvt".toList noTexCoordLoaded (by decide) (by decide) (by decide!)⟩

/-- C14 (counterexample): the second line of the file `v 0 0 0`, `longTexLine` is a
texture-coordinate line of 128 characters that carries the two numbers 5 and 25;
`SecondPass` reads its first 127 characters, which end in the middle of the second number,
stores `(5, 2, 0)` and the load succeeds. -/
theorem SecondPass_texCoord_counterexample :
    longTexLine.length = 128 ∧
    lines ("v 0 0 0\n".toList ++ longTexLine) = ["v 0 0 0\n".toList, longTexLine] ∧
    longTexLine[0]? = some 'v' ∧ longTexLine[1]? = some 't' ∧
    sscanf_f intOps 3 (lineArg longTexLine) = [5, 25] ∧
    ∃ r, ReadOBJModel intOps (oneFile ("v 0 0 0\n".toList ++ longTexLine)) [] "model.obj"
        (zeroModel Int) = some r ∧ r.ret = 1 ∧
      r.mdl.texCoords = some [[some 5, some 2, some 0]] :=
  ⟨by decide!, by decide!, by decide!, by decide!, by decide!,
    longTexLoaded, by decide!, rfl, rfl⟩

/-- Witness of C15 (amended): the line `vn 0 0 1 5` stores `(0, 0, 1)`, and the load of a
file with the line `vn 1 2` fails. -/
theorem SecondPass_normal_line_witness :
    SecondPass_line intOps (fgets_store (some "vn 0 0 1 5\n".toList) []) normState =
      some (true, ⟨{ normState.mdl with normals := some [[some 0, some 0, some 1]] },
        0, 0, 1, 0, [], []⟩) ∧
    shortNormalLoaded.ret = 0 :=
  ⟨((SecondPass_normal_line intOps "vn 0 0 1 5\n".toList (by decide) (by decide)
      (by decide)).2.1 [] normState [[none, none, none]] [none, none, none] rfl rfl rfl).1
      0 0 1 (by decide),
    (SecondPass_normal_line intOps "vn 1 2".toList (by decide) (by decide)
      (by decide)).2.2 (by decide) (oneFile "v 0 0 0\nvn 1 2".toList) [] "model.obj"
      (zeroModel Int) "v 0 0 0\nvn 1 2".toList shortNormalLoaded (by decide) (by decide)
      (by decide!)⟩

/-- C15 (counterexample): four numbers can be read from the normal line `vn 0 0 1 5` of
`fourNormalFile`, yet `SecondPass` accepts it, stores `(0, 0, 1)` and `ReadOBJModel`
returns 1; and the normal line `longNormalLine` of 128 characters carries exactly the three
numbers 0, 0 and 1, yet `SecondPass` reads only its first 127 characters, finds two numbers
and the load fails. -/
theorem SecondPass_normal_counterexample :
    (lineArg "vn 0 0 1 5\n".toList = " 0 0 1 5\n".toList ∧
      sscanf_f intOps 4 " 0 0 1 5\n".toList = [0, 0, 1, 5] ∧
      ∃ r, ReadOBJModel intOps (oneFile fourNormalFile) [] "model.obj" (zeroModel Int) =
          some r ∧ r.ret = 1 ∧ r.mdl.normals = some [[some 0, some 0, some 1]]) ∧
    (longNormalLine.length = 128 ∧
      lines ("v 0 0 0\n".toList ++ longNormalLine) = ["v 0 0 0\n".toList, longNormalLine] ∧
      sscanf_f intOps 4 (lineArg longNormalLine) = [0, 0, 1] ∧
      (ReadOBJModel intOps (oneFile ("v 0 0 0\n".toList ++ longNormalLine)) [] "model.obj"
        (zeroModel Int)).map (fun r => r.ret) = some 0) :=
  ⟨⟨by decide, by decide, fourNormalLoaded, by decide!, rfl, rfl⟩,
    ⟨by decide!, by decide!, by decide!, by decide!⟩⟩

/-! ### The presence flags and the lines of the file -/

theorem faceLineForm_line (l rest : List Char) (hne : l ≠ ['f']) :
    faceLineForm (l ++ NUL :: rest) = lineForm l := by
  unfold faceLineForm lineForm lineKind
  cases l with
  | nil =>
    have hN1 : NUL ≠ 'v' := by decide
    have hN2 : NUL ≠ 'f' := by decide
    simp [hN1, hN2]
  | cons x c =>
    cases c with
    | nil =>
      have hf : x ≠ 'f' := fun h => hne (by rw [h])
      have hN1 : NUL ≠ ' ' := by decide
      have hN2 : NUL ≠ 't' := by decide
      have hN3 : NUL ≠ 'n' := by decide
      by_cases hv : x = 'v'
      · subst hv; simp [hN1, hN2, hN3]
      · simp [hv, hf]
    | cons y c =>
      by_cases hf : x = 'f'
      · subst hf
        have hfv : 'f' ≠ 'v' := by decide
        have := cstrAt_two 'f' y c rest
        simp only [List.cons_append] at this ⊢
        simp [hfv, this, lineArg]
      · by_cases hv : x = 'v'
        · subst hv
          have hk : (if y = ' ' then LineKind.vertex else if y = 't' then LineKind.texCoord
              else if y = 'n' then LineKind.normal else LineKind.other) ≠ .face := by
            split_ifs <;> simp
          simp only [List.cons_append, List.getElem?_cons_zero, List.getElem?_cons_succ,
            if_true, List.head?_cons, Option.some.injEq, hf, if_false]
          exact if_neg hk
        · simp [hv, hf]

theorem FirstPass_loop_sameform {F : Type} (t n : Int) :
    ∀ (rs : List (Option (List Char))) (buf : List Char) (m m1 : obj_model_t F)
      (e e1 : List Msg), FirstPass_loop rs buf m e = some (m1, e1) →
      AllBufs (fun b => faceLineForm b = none ∨ faceLineForm b = some (t, n)) rs buf →
      m.has_texCoords = t → m.has_normals = n →
      m1.has_texCoords = t ∧ m1.has_normals = n := by
  intro rs
  induction rs with
  | nil =>
    intro buf m m1 e e1 h _ ht hn
    simp only [FirstPass_loop, Option.some.injEq, Prod.mk.injEq] at h
    obtain ⟨rfl, -⟩ := h
    exact ⟨ht, hn⟩
  | cons r rs ih =>
    intro buf m m1 e e1 h hall ht hn
    obtain ⟨m2, e2, hl, hrest⟩ := FirstPass_loop_cons r rs buf m m1 e e1 h
    have hform := FirstPass_line_form _ m m2 e e2 hl
    have h2 : m2.has_texCoords = t ∧ m2.has_normals = n := by
      rcases hall.1 with hnone | hsome
      · obtain ⟨a1, a2, -⟩ := hform.2 hnone
        exact ⟨a1.trans ht, a2.trans hn⟩
      · obtain ⟨a1, a2, -⟩ := hform.1 t n hsome
        exact ⟨a1, a2⟩
    exact ih _ m2 m1 e2 e1 hrest hall.2 h2.1 h2.2

theorem FirstPass_loop_from_form {F : Type} (r : Option (List Char))
    (rs2 : List (Option (List Char))) (t n : Int) :
    ∀ (rs1 : List (Option (List Char))) (buf : List Char) (m m1 : obj_model_t F)
      (e e1 : List Msg), FirstPass_loop (rs1 ++ r :: rs2) buf m e = some (m1, e1) →
      faceLineForm (bufAfter (rs1 ++ [r]) buf) = some (t, n) →
      AllBufs (fun b => faceLineForm b = none ∨ faceLineForm b = some (t, n)) rs2
        (bufAfter (rs1 ++ [r]) buf) →
      m1.has_texCoords = t ∧ m1.has_normals = n := by
  intro rs1
  induction rs1 with
  | nil =>
    intro buf m m1 e e1 h hform hall
    obtain ⟨m2, e2, hl, hrest⟩ := FirstPass_loop_cons r rs2 buf m m1 e e1 h
    obtain ⟨a1, a2, -⟩ := (FirstPass_line_form _ m m2 e e2 hl).1 t n hform
    exact FirstPass_loop_sameform t n rs2 _ m2 m1 e2 e1 hrest hall a1 a2
  | cons a rs1 ih =>
    intro buf m m1 e e1 h hform hall
    obtain ⟨m2, e2, -, hrest⟩ := FirstPass_loop_cons a (rs1 ++ r :: rs2) buf m m1 e e1 h
    exact ih _ m2 m1 e2 e1 hrest hform hall

theorem allBufs_lines (Q : List Char → Prop) (extra : List (Option (List Char)))
    (hextra : extra = [] ∨ extra = [none]) :
    ∀ (ls : List (List Char)) (buf : List Char),
      (∀ l ∈ ls, ∀ rest, Q (l ++ NUL :: rest)) → Q buf →
      AllBufs Q (ls.map some ++ extra) buf := by
  intro ls
  induction ls with
  | nil =>
    intro buf _ hb
    rcases hextra with h | h
    · subst h; trivial
    · subst h; exact ⟨hb, trivial⟩
  | cons l ls ih =>
    intro buf hls hb
    have hq : Q (fgets_store (some l) buf) := hls l (by simp) _
    exact ⟨hq, ih _ (fun x hx => hls x (by simp [hx])) hq⟩

theorem lastRead_cases (size : Nat) (file : List Char) :
    lastRead size file = [] ∨ lastRead size file = [none] := by
  unfold lastRead
  cases (lines file).getLast? with
  | none => exact Or.inr rfl
  | some l =>
    dsimp only
    split_ifs
    · exact Or.inr rfl
    · exact Or.inl rfl

theorem lineKind_face_of_head (l rest : List Char) (h : l.head? = some 'f') :
    lineKind (l ++ NUL :: rest) = .face := by
  cases l with
  | nil => simp at h
  | cons x c =>
    simp only [List.head?_cons, Option.some.injEq] at h
    subst h
    have hfv : 'f' ≠ 'v' := by decide
    simp [lineKind, hfv]

theorem FirstPass_line_formless {F : Type} (buf : List Char) (m2 m3 : obj_model_t F)
    (e2 e3 : List Msg) (hline : FirstPass_line buf m2 e2 = some (m3, e3))
    (hk : lineKind buf = .face) (hform : faceLineForm buf = none) :
    m3 = m2 ∧ e3 = e2 ++ [Msg.faceWithNoVertex] := by
  unfold faceLineForm at hform
  rw [if_pos hk] at hform
  unfold lineKind at hk
  unfold FirstPass_line at hline
  cases h0 : buf[0]? with
  | none => rw [h0] at hline; simp at hline
  | some c0 =>
    rw [h0] at hline hk
    simp only [Option.bind_eq_bind, Option.some_bind] at hline
    dsimp only at hk
    by_cases hv : c0 = 'v'
    · exfalso
      rw [if_pos hv] at hk
      cases h1 : buf[1]? with
      | none => rw [h1] at hk; simp at hk
      | some c1 =>
        rw [h1] at hk
        dsimp only at hk
        split_ifs at hk
    · rw [if_neg hv] at hline hk
      by_cases hf : c0 = 'f'
      · rw [if_pos hf, Option.bind_eq_some] at hline
        obtain ⟨s, hs, hline⟩ := hline
        rw [hs, Option.some_bind] at hform
        exact (FirstPass_face_form s m2 m3 e2 e3 hline).2 hform
      · rw [if_neg hf] at hk
        exact absurd hk (by simp)

/-- C16 (amended): for a non-empty file whose lines, newline included, have at most 255
characters (each is read whole into the 256-byte buffer of `FirstPass`) and whose last line
is not the bare character `f`: each time `FirstPass` processes a face line whose first entry matches
one of the patterns `v/t/n`, `v//n`, `v/t`, `v` (tried in that order) it sets both presence
flags to the values of that pattern and increments the face count, so that after the scan
the flags are those of the last such line of the file; when the file has no such line the
flags and the face count are unchanged; a face line that matches no pattern changes nothing
in the model (neither the flags nor the face count) and writes one line to `stderr`. -/
theorem FirstPass_flags_last_face_line {F : Type} (file : List Char)
    (m m1 : obj_model_t F) (r1 : Int) (e1 : List Msg) (hwhole : WholeLines 255 file)
    (hbare : ['f'] ∉ lines file) (h : FirstPass file m = some (r1, m1, e1)) :
    (∀ ls1 l ls2 t n, lines file = ls1 ++ l :: ls2 → lineForm l = some (t, n) →
      (∀ l2 ∈ ls2, lineForm l2 = none) → m1.has_texCoords = t ∧ m1.has_normals = n) ∧
    ((∀ l ∈ lines file, lineForm l = none) →
      m1.has_texCoords = m.has_texCoords ∧ m1.has_normals = m.has_normals ∧
        m1.num_faces = m.num_faces) ∧
    (∀ (l old : List Char) (m2 m3 : obj_model_t F) (e2 e3 : List Msg), l ≠ ['f'] →
      FirstPass_line (fgets_store (some l) old) m2 e2 = some (m3, e3) →
      (∀ t n, lineForm l = some (t, n) →
        m3.has_texCoords = t ∧ m3.has_normals = n ∧ m3.num_faces = m2.num_faces + 1) ∧
      (l.head? = some 'f' → lineForm l = none →
        m3 = m2 ∧ e3 = e2 ++ [Msg.faceWithNoVertex])) := by
  obtain ⟨e, hl, -⟩ := FirstPass_defined file m m1 r1 e1 h
  have hreads := reads_eq 256 (by omega) file hwhole.2
  have hne : ∀ l ∈ lines file, l ≠ ['f'] := fun l hl hf => hbare (hf ▸ hl)
  refine ⟨?_, ?_, ?_⟩
  · intro ls1 l ls2 t n hlines hform hlater
    rw [hreads, hlines, List.map_append, List.map_cons, List.append_assoc,
      List.cons_append] at hl
    have hmem : ∀ x ∈ ls2, x ∈ lines file := by
      intro x hx; rw [hlines]; simp [hx]
    have hlmem : l ∈ lines file := by rw [hlines]; simp
    have hbuf : faceLineForm (bufAfter (List.map some ls1 ++ [some l]) []) = some (t, n) := by
      rw [bufAfter_append_singleton]
      exact (faceLineForm_line l _ (hne l hlmem)).trans hform
    refine FirstPass_loop_from_form (some l) _ t n _ [] m m1 [] e hl hbuf ?_
    refine allBufs_lines _ _ (lastRead_cases 256 file) ls2 _ ?_ (Or.inr hbuf)
    intro x hx rest
    exact Or.inl ((faceLineForm_line x rest (hne x (hmem x hx))).trans (hlater x hx))
  · intro hnone
    rw [hreads] at hl
    refine FirstPass_loop_formless _ _ m m1 [] e hl ?_
    refine allBufs_lines _ _ (lastRead_cases 256 file) (lines file) [] ?_ (by decide)
    intro x hx rest
    exact (faceLineForm_line x rest (hne x hx)).trans (hnone x hx)
  · intro l old m2 m3 e2 e3 hlf hline
    have hform := faceLineForm_line l (old.drop (l.length + 1)) hlf
    have hfl := FirstPass_line_form _ m2 m3 e2 e3 hline
    refine ⟨fun t n hs => hfl.1 t n (hform.trans hs), fun hhead hnone => ?_⟩
    exact FirstPass_line_formless _ m2 m3 e2 e3 hline (lineKind_face_of_head l _ hhead)
      (hform.trans hnone)

/-- Witness of C16 (amended): the last face line of `mixedFile` has the form `v`, and
`FirstPass` leaves both flags at 0. -/
theorem FirstPass_flags_last_face_line_witness :
    mixedCounted.has_texCoords = 0 ∧ mixedCounted.has_normals = 0 :=
  (FirstPass_flags_last_face_line mixedFile (zeroModel Int) mixedCounted 1 []
    (by decide) (by decide) (by decide!)).1
    ["v 0 0 0\n".toList, "vt 0 0\n".toList, "vn 0 0 1\n".toList,
      "f 1/1/1 1/1/1 1/1/1\n".toList] "f 1 1 1".toList [] 0 0 (by decide) (by decide)
    (by simp)

/-- C16 (counterexample): the first face line of `mixedFile` has the form `v/t/n` (both
flags) and no line before it is a face line, yet after `FirstPass` both flags are 0: the
later face line `f 1 1 1` has changed them.  In `pseudoFaceFile` the only line that begins
with `f` has the form `v`, yet `FirstPass` ends with both flags 1 and two faces counted:
the end of the last line, beyond its first 255 characters, is taken for a face line of the
form `v/t/n`.  In the file `v 0 0 0`, `f` the face line has no entry, yet one face is
counted: `FirstPass` reads at `buf + 2` what the line before has left in the buffer. -/
theorem FirstPass_flags_counterexample :
    (lines mixedFile = ["v 0 0 0\n".toList, "vt 0 0\n".toList, "vn 0 0 1\n".toList,
        "f 1/1/1 1/1/1 1/1/1\n".toList, "f 1 1 1".toList] ∧
      lineForm "f 1/1/1 1/1/1 1/1/1\n".toList = some (1, 1) ∧
      ∃ m1, FirstPass mixedFile (zeroModel Int) = some (1, m1, []) ∧
        m1.has_texCoords = 0 ∧ m1.has_normals = 0) ∧
    ((lines pseudoFaceFile).map lineForm = [none, none, none, some (0, 0), none] ∧
      ∃ m1, FirstPass pseudoFaceFile (zeroModel Int) = some (1, m1, []) ∧
        m1.has_texCoords = 1 ∧ m1.has_normals = 1 ∧ m1.num_faces = 2) ∧
    (lines "v 0 0 0\nf".toList = ["v 0 0 0\n".toList, ['f']] ∧ lineForm ['f'] = none ∧
      ∃ m1, FirstPass "v 0 0 0\nf".toList (zeroModel Int) = some (1, m1, []) ∧
        m1.num_faces = 1) := by
  refine ⟨⟨by decide, by decide, mixedCounted, by decide!, rfl, rfl⟩,
    ⟨by decide!, pseudoCounted, by decide!, rfl, rfl, rfl⟩,
    ⟨by decide, by decide, bareCounted, by decide!, rfl⟩⟩

/-! ### The two passes over the same reads -/

/-- When every line fits the buffer of `SecondPass` and the last line does not fill it
exactly without a newline, the `fgets` calls of the two passes return the same strings. -/
theorem reads_same (file : List Char) (hfit : LinesFit 127 file)
    (hlast : LastLineShort 127 file) : reads 128 file = reads 256 file := by
  rw [reads_eq 128 (by omega) file hfit,
    reads_eq 256 (by omega) file (linesFit_mono (by omega) hfit)]
  congr 1
  unfold lastRead
  cases hg : (lines file).getLast? with
  | none => rfl
  | some l =>
    dsimp only
    have hmem : l ∈ lines file := List.mem_of_getLast?_eq_some hg
    have hlen := hfit l hmem
    rcases hlast l hg with h | h
    · rw [if_pos (Or.inl h), if_pos (Or.inl h)]
    · by_cases hnl : l.getLast? = some '\n'
      · rw [if_pos (Or.inl hnl), if_pos (Or.inl hnl)]
      · rw [if_neg, if_neg]
        · rintro (h1 | h1)
          · exact hnl h1
          · omega
        · rintro (h1 | h1)
          · exact hnl h1
          · omega

theorem faceLineForm_of_not_face (b : List Char) (h : lineKind b ≠ .face) :
    faceLineForm b = none := by
  unfold faceLineForm
  rw [if_neg h]

/-- The two passes in step on the faces: over the same `fgets` results, when every face
line that `SecondPass` accepts is counted by `FirstPass`, the cursor `pface` advances by
what `FirstPass` adds to `num_faces`. -/
theorem passes_in_step_faces {F : Type} (ops : FloatOps F) :
    ∀ (rs : List (Option (List Char))) (buf : List Char) (m m1 : obj_model_t F)
      (e e1 : List Msg) (st st1 : Pass2 F),
      FirstPass_loop rs buf m e = some (m1, e1) →
      SecondPass_loop ops rs buf st = some (1, st1) →
      AllBufs (fun b => lineKind b = .face → faceLineForm b ≠ none ∨
        ∀ (s s1 : Pass2 F), SecondPass_line ops b s ≠ some (true, s1)) rs buf →
      (st1.pface : Int) - st.pface = m1.num_faces - m.num_faces := by
  intro rs
  induction rs with
  | nil =>
    intro buf m m1 e e1 st st1 h1 h2 _
    simp only [FirstPass_loop, Option.some.injEq, Prod.mk.injEq] at h1
    simp only [SecondPass_loop, Option.some.injEq, Prod.mk.injEq, true_and] at h2
    obtain ⟨rfl, -⟩ := h1
    subst h2
    simp
  | cons r rs ih =>
    intro buf m m1 e e1 st st1 h1 h2 hall
    obtain ⟨m2, e2, hl1, hr1⟩ := FirstPass_loop_cons r rs buf m m1 e e1 h1
    obtain ⟨st2, hl2, hr2⟩ := SecondPass_loop_cons ops r rs buf st st1 h2
    have hrest := ih _ m2 m1 e2 e1 st2 st1 hr1 hr2 hall.2
    have hp := (SecondPass_line_frame ops _ st st2 hl2).2.2.2.2.2.1
    have hform := FirstPass_line_form _ m m2 e e2 hl1
    by_cases hk : lineKind (fgets_store r buf) = .face
    · rcases hall.1 hk with hsome | hrej
      · cases hf : faceLineForm (fgets_store r buf) with
        | none => exact absurd hf hsome
        | some p =>
          obtain ⟨-, -, hn⟩ := hform.1 p.1 p.2 hf
          rw [if_pos hk] at hp
          omega
      · exact absurd hl2 (hrej st st2)
    · obtain ⟨-, -, hn⟩ := hform.2 (faceLineForm_of_not_face _ hk)
      rw [if_neg hk] at hp
      omega

theorem head_of_lineKind_face (l rest : List Char) (h : lineKind (l ++ NUL :: rest) = .face) :
    l.head? = some 'f' := by
  have hb0 := lineKind_face h
  cases l with
  | nil =>
    simp only [List.nil_append, List.getElem?_cons_zero, Option.some.injEq] at hb0
    exact absurd hb0 (by decide)
  | cons c r => simpa using hb0

/-- In a file whose face lines are all counted by `FirstPass`, every buffer that the loop
of `SecondPass` sees holds a line that is no face line or a face line counted. -/
theorem allBufs_counted {F : Type} (ops : FloatOps F) (file : List Char)
    (hfit : LinesFit 127 file) (hfaces : FaceLinesCounted file) :
    AllBufs (fun b => lineKind b = .face → faceLineForm b ≠ none ∨
      ∀ (s s1 : Pass2 F), SecondPass_line ops b s ≠ some (true, s1)) (reads 128 file) [] := by
  rw [reads_eq 128 (by omega) file hfit]
  refine allBufs_lines _ _ (lastRead_cases 128 file) (lines file) [] ?_ ?_
  · intro l hl rest hk
    left
    have hhead := head_of_lineKind_face l rest hk
    have hform := hfaces l hl hhead
    have hne : l ≠ ['f'] := by
      intro hf
      rw [hf] at hform
      exact hform (by decide)
    rw [faceLineForm_line l rest hne]
    exact hform
  · intro hk
    exact absurd hk (by decide)

/-! ### The counts of the two passes -/

/-- After a successful `FirstPass` on the zeroed model and a successful `MallocModel`, a
`SecondPass` that reaches the end of a file over the same reads as `FirstPass`, every face
line it accepts being counted by `FirstPass`, has written as many vertices, texture
coordinates, normals and faces as `FirstPass` counted: the two passes advance in step. -/
theorem SecondPass_counts_eq {F : Type} (ops : FloatOps F) (file : List Char)
    (heap : List Bool) (r1 : Int) (m1 : obj_model_t F) (e1 : List Msg) (st : Pass2 F)
    (hfit : LinesFit 127 file) (hlast : LastLineShort 127 file)
    (hq : AllBufs (fun b => lineKind b = .face → faceLineForm b ≠ none ∨
      ∀ (s s1 : Pass2 F), SecondPass_line ops b s ≠ some (true, s1)) (reads 128 file) [])
    (hr1 : r1 ≠ 0) (h1 : FirstPass file (zeroModel F) = some (r1, m1, e1))
    (h2 : (MallocModel m1 heap).1 ≠ 0)
    (h3 : SecondPass ops file (MallocModel m1 heap).2.1 (MallocModel m1 heap).2.2 =
      some (1, st)) :
    SameCounts m1 st.mdl ∧ Allocated m1 (MallocModel m1 heap).2.1 ∧
    SameSizes (MallocModel m1 heap).2.1 st.mdl ∧
    (st.pvert : Int) = m1.num_verts ∧ (st.puvw : Int) = m1.num_texCoords ∧
    (st.pnorm : Int) = m1.num_normals ∧ (st.pface : Int) = m1.num_faces := by
  have hl := FirstPass_success file _ m1 r1 e1 h1 hr1
  obtain ⟨-, -, -, -, p1, p2, p3, p4⟩ := FirstPass_loop_frame _ _ _ _ _ _ hl
  have hal := MallocModel_spec m1 heap h2 p1 p2 p3 p4
  rw [← reads_same file hfit hlast] at hl
  unfold SecondPass at h3
  obtain ⟨i1, i2, i3, -⟩ := passes_in_step ops _ _ _ _ _ _ _ _ hl h3
  have i4 := passes_in_step_faces ops _ _ _ _ _ _ _ _ hl h3 hq
  obtain ⟨c2, z2, -⟩ := SecondPass_loop_frame ops _ _ _ _ h3
  dsimp only at i1 i2 i3 i4
  simp only [zeroModel] at i1 i2 i3 i4
  refine ⟨sameCounts_trans hal.1 c2, hal, z2, ?_, ?_, ?_, ?_⟩ <;> omega

/-! ### Face lines written `f e1 ... ek` are counted by `FirstPass` -/

theorem sscanf_v_entry (ht hn : Int) (e : EntryText) (R : List Char)
    (hok : EntryOK ht hn e) (hR : EntryEnd R) :
    sscanf_d fmt_v (entryText ht hn e ++ R) = some [(decimalValue e.v : Int)] := by
  have key : ∀ Y : List Char, (∀ c ∈ Y.head?, isdigit c = false) →
      sscanf_d fmt_v (e.v ++ Y) = some [(decimalValue e.v : Int)] := by
    intro Y hY
    have := sscanf_d_conv [] e.v Y hok.1 hY
    simpa [fmt_v, sscanf_d] using this
  unfold entryText
  split_ifs
  · rw [List.append_assoc]
    exact key _ (head_slash_not_digit _)
  · rw [List.append_assoc]
    exact key _ (head_slash_not_digit _)
  · rw [List.append_assoc]
    exact key _ (head_slash_not_digit _)
  · exact key R hR.not_digit

theorem faceForm_of_v (s : List Char) (v : Int) (h : sscanf_d fmt_v s = some [v]) :
    faceForm s ≠ none := by
  unfold faceForm
  rw [h]
  split_ifs <;> simp_all

theorem takeWhile_of_not_mem (c : Char) :
    ∀ l : List Char, c ∉ l → l.takeWhile (fun x => x ≠ c) = l := by
  intro l
  induction l with
  | nil => intro _; rfl
  | cons a l ih =>
    intro h
    have ha : a ≠ c := fun hac => h (by simp [hac])
    simp only [List.takeWhile_cons, ne_eq, ha, not_false_eq_true, decide_True, if_true,
      List.cons.injEq, true_and]
    exact ih (fun hm => h (by simp [hm]))

theorem SecondPass_face_rejects {F : Type} (s : List Char) (hs : s.count ' ' < 3)
    (st st1 : Pass2 F) : SecondPass_face s st ≠ some (true, st1) := by
  unfold SecondPass_face
  cases st.mdl.faces with
  | none => simp
  | some fs =>
    dsimp only
    cases fs[st.pface]? with
    | none => simp
    | some f0 => simp [hs]

/-- A line written `f e1 ... ek` is counted by `FirstPass` when it has an entry, and is
refused by `SecondPass` when it has none. -/
theorem faceLine_counted {F : Type} (ops : FloatOps F) (m : obj_model_t F)
    (l rest : List Char) (h : FaceLineInRange m l) :
    faceLineForm (l ++ NUL :: rest) ≠ none ∨
      ∀ (s s1 : Pass2 F), SecondPass_line ops (l ++ NUL :: rest) s ≠ some (true, s1) := by
  obtain ⟨es, tail, rfl, htail, hes⟩ := h
  have hok : ∀ e ∈ es, EntryOK m.has_texCoords m.has_normals e := fun e he => (hes e he).1
  have hnul := nul_not_mem_faceLine _ _ es tail hok htail
  cases es with
  | nil =>
    right
    intro s s1
    rw [SecondPass_line_buf ops _ rest []]
    have hfs := fgets_store_face_line ops
      (faceLineText m.has_texCoords m.has_normals [] ++ tail) [] s (by simp [faceLineText])
      hnul
    have hst : fgets_store (some (faceLineText m.has_texCoords m.has_normals [] ++ tail)) [] =
        (faceLineText m.has_texCoords m.has_normals [] ++ tail) ++ NUL :: [] := by
      simp [fgets_store]
    rw [hst] at hfs
    rw [hfs]
    refine SecondPass_face_rejects _ ?_ s s1
    rw [count_space_faceLine _ _ [] tail hok htail]
    simp
  | cons e es =>
    left
    have hne : faceLineText m.has_texCoords m.has_normals (e :: es) ++ tail ≠ ['f'] := by
      simp [faceLineText, entriesText]
    rw [faceLineForm_line _ rest hne]
    have harg : lineArg (faceLineText m.has_texCoords m.has_normals (e :: es) ++ tail) =
        entryText m.has_texCoords m.has_normals e ++
          (entriesText m.has_texCoords m.has_normals es ++ tail) := by
      have hd : (faceLineText m.has_texCoords m.has_normals (e :: es) ++ tail).drop 2 =
          entryText m.has_texCoords m.has_normals e ++
            (entriesText m.has_texCoords m.has_normals es ++ tail) := by
        simp [faceLineText, entriesText]
      unfold lineArg
      rw [hd]
      refine takeWhile_of_not_mem NUL _ ?_
      intro hm
      rw [← hd] at hm
      exact hnul (List.mem_of_mem_drop hm)
    have hhead : (faceLineText m.has_texCoords m.has_normals (e :: es) ++ tail).head? =
        some 'f' := by simp [faceLineText]
    unfold lineForm
    rw [if_pos hhead, harg]
    refine faceForm_of_v _ _ (sscanf_v_entry _ _ e _ (hok e (by simp)) ?_)
    exact entryEnd_entriesText _ _ es tail (tail_facts tail htail).1

theorem allBufs_inRange {F : Type} (ops : FloatOps F) (file : List Char)
    (m : obj_model_t F) (hfit : LinesFit 127 file)
    (hlines : ∀ l ∈ lines file, l.head? = some 'f' → FaceLineInRange m l) :
    AllBufs (fun b => lineKind b = .face → faceLineForm b ≠ none ∨
      ∀ (s s1 : Pass2 F), SecondPass_line ops b s ≠ some (true, s1)) (reads 128 file) [] := by
  rw [reads_eq 128 (by omega) file hfit]
  refine allBufs_lines _ _ (lastRead_cases 128 file) (lines file) [] ?_ ?_
  · intro l hl rest hk
    exact faceLine_counted ops m l rest (hlines l hl (head_of_lineKind_face l rest hk))
  · intro hk
    exact absurd hk (by decide)

/-! ### The loaded model -/

/-- C8 (amended): after every successful `ReadOBJModel` of a non-empty file whose lines,
newline included, have at most 127 characters, whose last line ends with a newline or has
fewer than 127 characters, and whose lines that begin with `f` each have a first entry that
`FirstPass` recognises, the model holds exactly `num_faces` faces, and every face has
`num_elems >= 3`, the primitive type determined by `num_elems` alone (`GL_TRIANGLES` iff 3,
`GL_QUADS` iff 4, `GL_POLYGON` iff more than 4), a vertex index array of length `num_elems`,
and a texcoord / normal index array (of length `num_elems`) exactly when `has_texCoords` /
`has_normals` is set. -/
theorem ReadOBJModel_face_shape {F : Type} (ops : FloatOps F)
    (fs : String → Option (List Char)) (heap : List Bool) (filename : String)
    (m0 : obj_model_t F) (file : List Char) (r : Loaded F)
    (hfile : fs filename = some file) (hwhole : WholeLines 127 file)
    (hlast : LastLineShort 127 file) (hfaces : FaceLinesCounted file)
    (h : ReadOBJModel ops fs heap filename m0 = some r) (hret : r.ret = 1) :
    (arrLen r.mdl.faces : Int) = r.mdl.num_faces ∧
    ∀ faces, r.mdl.faces = some faces → ∀ f ∈ faces,
      3 ≤ f.num_elems ∧ (f.type = GL_TRIANGLES ↔ f.num_elems = 3) ∧
      (f.type = GL_QUADS ↔ f.num_elems = 4) ∧ (f.type = GL_POLYGON ↔ 4 < f.num_elems) ∧
      (∃ l, f.vert_indices = some l ∧ (l.length : Int) = f.num_elems) ∧
      (r.mdl.has_texCoords ≠ 0 → ∃ l, f.uvw_indices = some l ∧ (l.length : Int) = f.num_elems) ∧
      (r.mdl.has_texCoords = 0 → f.uvw_indices = none) ∧
      (r.mdl.has_normals ≠ 0 → ∃ l, f.norm_indices = some l ∧ (l.length : Int) = f.num_elems) ∧
      (r.mdl.has_normals = 0 → f.norm_indices = none) := by
  have hfit : LinesFit 127 file := hwhole.2
  obtain ⟨r1, m1, e1, st, hr1, h1, h2, h3, rfl⟩ :=
    ReadOBJModel_success ops fs heap filename m0 file r hfile h hret
  obtain ⟨sc, al, sz, -, -, -, cf⟩ := SecondPass_counts_eq ops file heap r1 m1 e1 st hfit hlast
    (allBufs_counted ops file hfit hfaces) hr1 h1 h2 h3
  obtain ⟨sc2, -, -, -, lf, zf⟩ := al
  have hl1 := FirstPass_success file _ m1 r1 e1 h1 hr1
  obtain ⟨-, -, -, n4, -⟩ := FirstPass_loop_frame _ _ _ _ _ _ hl1
  simp only [zeroModel] at n4
  have hlen : arrLen st.mdl.faces = st.pface := by
    rw [sz.2.2.2, lf]; omega
  have hdone : FacesDone (FaceShape st.mdl.has_texCoords st.mdl.has_normals zeroFace) st := by
    unfold SecondPass at h3
    refine SecondPass_loop_faces ops st.mdl.has_texCoords st.mdl.has_normals _ (fun _ => True)
      (faceShape_step _ _) _ _ _ st (allBufs_true _ _) ?_ ?_ ?_ h3
    · exact (sc2.2.2.2.2.1.trans sc.2.2.2.2.1.symm)
    · exact (sc2.2.2.2.2.2.trans sc.2.2.2.2.2.symm)
    · intro fs0 hfs0
      exact ⟨fun i f hi _ => absurd hi (by simp), fun i f _ hf =>
        zf fs0 hfs0 f (List.getElem?_mem hf)⟩
  dsimp only
  refine ⟨by rw [hlen, cf]; exact sc.2.2.2.1.symm, ?_⟩
  intro faces hfaces f hf
  obtain ⟨i, hi, hget⟩ := List.getElem_of_mem hf
  have hi' : i < st.pface := by
    rw [← hlen, hfaces]; exact hi
  have hsh := (hdone faces hfaces).1 i f hi' (by rw [List.getElem?_eq_getElem hi, hget])
  obtain ⟨n, hn3, hne, hty, hv, hu, hnm⟩ := hsh
  obtain ⟨t1, t2, t3⟩ := faceType_iff n hn3
  rw [hne, hty]
  refine ⟨by omega, ?_, ?_, ?_, ?_, ?_, ?_, ?_, ?_⟩
  · rw [t1]; omega
  · rw [t2]; omega
  · rw [t3]; omega
  · obtain ⟨l, hl, hll⟩ := map_length_eq_some hv
    exact ⟨l, hl, by omega⟩
  · intro c
    rw [if_pos c] at hu
    obtain ⟨l, hl, hll⟩ := map_length_eq_some hu
    exact ⟨l, hl, by omega⟩
  · intro c
    rw [if_neg (by simp [c])] at hu
    exact map_length_eq_none hu
  · intro c
    rw [if_pos c] at hnm
    obtain ⟨l, hl, hll⟩ := map_length_eq_some hnm
    exact ⟨l, hl, by omega⟩
  · intro c
    rw [if_neg (by simp [c])] at hnm
    exact map_length_eq_none hnm

/-- C1 (amended): for every non-empty input file whose lines, newline included, have at
most 127 characters (they fit the 128-byte buffer of `SecondPass`), whose last line ends
with a newline or has fewer than 127 characters, and whose lines that begin with `f` each
have a first entry that `FirstPass` recognises, if `ReadOBJModel` succeeds, the numbers of
vertices, texture coordinates, normals and faces that `SecondPass` wrote are `num_verts`,
`num_texCoords`, `num_normals` and `num_faces` as counted by `FirstPass`: over such a file
the two passes see the same lines and advance in step. -/
theorem ReadOBJModel_counts {F : Type} (ops : FloatOps F)
    (fs : String → Option (List Char)) (heap : List Bool) (filename : String)
    (m0 : obj_model_t F) (file : List Char) (r : Loaded F)
    (hfile : fs filename = some file) (hwhole : WholeLines 127 file)
    (hlast : LastLineShort 127 file) (hfaces : FaceLinesCounted file)
    (h : ReadOBJModel ops fs heap filename m0 = some r) (hret : r.ret = 1) :
    ∃ r1 m1 e1 a b c d, FirstPass file (zeroModel F) = some (r1, m1, e1) ∧
      r.read = some (a, b, c, d) ∧
      (a : Int) = m1.num_verts ∧ (b : Int) = m1.num_texCoords ∧
      (c : Int) = m1.num_normals ∧ (d : Int) = m1.num_faces ∧
      r.mdl.num_verts = m1.num_verts ∧ r.mdl.num_texCoords = m1.num_texCoords ∧
      r.mdl.num_normals = m1.num_normals ∧ r.mdl.num_faces = m1.num_faces := by
  have hfit : LinesFit 127 file := hwhole.2
  obtain ⟨r1, m1, e1, st, hr1, h1, h2, h3, rfl⟩ :=
    ReadOBJModel_success ops fs heap filename m0 file r hfile h hret
  obtain ⟨sc, -, -, cv, ct, cn, cf⟩ :=
    SecondPass_counts_eq ops file heap r1 m1 e1 st hfit hlast
      (allBufs_counted ops file hfit hfaces) hr1 h1 h2 h3
  exact ⟨r1, m1, e1, st.pvert, st.puvw, st.pnorm, st.pface, h1, rfl, cv, ct, cn, cf,
    sc.1, sc.2.1, sc.2.2.1, sc.2.2.2.1⟩

/-- C2 (amended): the loader stores the indices it reads without checking them.  After a
successful `ReadOBJModel` of a non-empty file whose lines, newline included, have at most
127 characters, whose last line ends with a newline or has fewer than 127 characters, and
whose face lines are all written `f e1 ... ek` (one space before each entry, entries in the
form that matches the presence flags) with indices between 1 and the numbers of vertices,
texture coordinates and normals counted, every stored index of every face is in range: for
each corner `j < num_elems`, `0 <= vert_indices[j] < num_verts`, and likewise for
`uvw_indices` / `norm_indices` when `has_texCoords` / `has_normals` is set; and
`RenderOBJModel` then reads inside the arrays of the model. -/
theorem ReadOBJModel_indices_in_range {F : Type} (ops : FloatOps F)
    (fs : String → Option (List Char)) (heap : List Bool) (filename : String)
    (m0 : obj_model_t F) (file : List Char) (r : Loaded F)
    (hfile : fs filename = some file) (hwhole : WholeLines 127 file)
    (hlast : LastLineShort 127 file)
    (h : ReadOBJModel ops fs heap filename m0 = some r) (hret : r.ret = 1)
    (hlines : ∀ l ∈ lines file, l.head? = some 'f' → FaceLineInRange r.mdl l) :
    (∀ faces, r.mdl.faces = some faces → ∀ f ∈ faces, IndicesInRange r.mdl f) ∧
    ∃ calls, RenderOBJModel ops r.mdl = some calls := by
  have hfit : LinesFit 127 file := hwhole.2
  obtain ⟨r1, m1, e1, st, hr1, h1, h2, h3, rfl⟩ :=
    ReadOBJModel_success ops fs heap filename m0 file r hfile h hret
  dsimp only at hlines
  obtain ⟨sc, al, sz, -, -, -, cf⟩ := SecondPass_counts_eq ops file heap r1 m1 e1 st hfit hlast
    (allBufs_inRange ops file st.mdl hfit hlines) hr1 h1 h2 h3
  obtain ⟨sc2, lv, lt, ln, lf, zf⟩ := al
  have hl1 := FirstPass_success file _ m1 r1 e1 h1 hr1
  obtain ⟨-, -, -, n4, -⟩ := FirstPass_loop_frame _ _ _ _ _ _ hl1
  simp only [zeroModel] at n4
  dsimp only at hlines ⊢
  have hlen : arrLen st.mdl.faces = st.pface := by
    rw [sz.2.2.2, lf]; omega
  have hdone : FacesDone (IndicesInRange st.mdl) st := by
    have h3' := h3
    unfold SecondPass at h3'
    refine SecondPass_loop_faces ops st.mdl.has_texCoords st.mdl.has_normals _
      (HoldsLine file)
      (fun buf s a b fs0 hq hc hk e1 e2 hfs0 hf0 hs =>
        inRange_step file st.mdl hlines buf s a b fs0 hq hc hk e1 e2 hfs0 hf0 hs)
      _ _ _ st ?_ ?_ ?_ ?_ h3'
    · exact allBufs_holdsLine file _ _ (fun x hx => mem_reads 128 (by omega) file hfit x hx)
        (Or.inl rfl)
    · exact (sc2.2.2.2.2.1.trans sc.2.2.2.2.1.symm)
    · exact (sc2.2.2.2.2.2.trans sc.2.2.2.2.2.symm)
    · intro fs0 hfs0
      exact ⟨fun i f hi _ => absurd hi (by simp), fun i f _ hf =>
        zf fs0 hfs0 f (List.getElem?_mem hf)⟩
  have hall : ∀ faces, st.mdl.faces = some faces → ∀ f ∈ faces, IndicesInRange st.mdl f := by
    intro faces hfaces f hf
    obtain ⟨i, hi, hget⟩ := List.getElem_of_mem hf
    have hi' : i < st.pface := by rw [← hlen, hfaces]; exact hi
    exact (hdone faces hfaces).1 i f hi' (by rw [List.getElem?_eq_getElem hi, hget])
  refine ⟨hall, ?_⟩
  have hv : st.mdl.num_verts.toNat ≤ arrLen st.mdl.vertices := by
    rw [sz.1, lv, sc.1]
  have ht : st.mdl.num_texCoords.toNat ≤ arrLen st.mdl.texCoords := by
    rw [sz.2.1, lt, sc.2.1]
  have hn : st.mdl.num_normals.toNat ≤ arrLen st.mdl.normals := by
    rw [sz.2.2.1, ln, sc.2.2.1]
  unfold RenderOBJModel
  cases hfaces : st.mdl.faces with
  | none =>
    have : st.mdl.num_faces.toNat = 0 := by
      rw [hfaces] at hlen
      simp only [arrLen] at hlen
      rw [sc.2.2.2.1]; omega
    rw [this]; exact ⟨[], rfl⟩
  | some faces =>
    refine faces_defined ops st.mdl faces hfaces (hall faces hfaces) hv ht hn _ 0 ?_
    rw [hfaces] at hlen
    simp only [arrLen] at hlen
    rw [sc.2.2.2.1]; omega

/-- Witness of C1 (amended) on `texturedFile`. -/
theorem ReadOBJModel_counts_witness :
    ∃ r1 m1 e1 a b c d, FirstPass texturedFile (zeroModel Int) = some (r1, m1, e1) ∧
      texturedLoaded.read = some (a, b, c, d) ∧
      (a : Int) = m1.num_verts ∧ (b : Int) = m1.num_texCoords ∧
      (c : Int) = m1.num_normals ∧ (d : Int) = m1.num_faces ∧
      texturedLoaded.mdl.num_verts = m1.num_verts ∧
      texturedLoaded.mdl.num_texCoords = m1.num_texCoords ∧
      texturedLoaded.mdl.num_normals = m1.num_normals ∧
      texturedLoaded.mdl.num_faces = m1.num_faces :=
  ReadOBJModel_counts intOps (oneFile texturedFile) [] "model.obj" (zeroModel Int)
    texturedFile texturedLoaded (by decide) (by decide) (by decide) (by decide)
    texturedFile_loaded rfl

/-- Witness of C2 (amended) on `texturedFile`. -/
theorem ReadOBJModel_indices_in_range_witness :
    (∀ faces, texturedLoaded.mdl.faces = some faces →
      ∀ f ∈ faces, IndicesInRange texturedLoaded.mdl f) ∧
    ∃ calls, RenderOBJModel intOps texturedLoaded.mdl = some calls :=
  ReadOBJModel_indices_in_range intOps (oneFile texturedFile) [] "model.obj" (zeroModel Int)
    texturedFile texturedLoaded (by decide) (by decide) (by decide) texturedFile_loaded rfl
    texturedFile_faceLines

/-- Witness of C8 (amended) on `texturedFile`. -/
theorem ReadOBJModel_face_shape_witness :
    (arrLen texturedLoaded.mdl.faces : Int) = texturedLoaded.mdl.num_faces ∧
    ∀ faces, texturedLoaded.mdl.faces = some faces → ∀ f ∈ faces,
      3 ≤ f.num_elems ∧ (f.type = GL_TRIANGLES ↔ f.num_elems = 3) ∧
      (f.type = GL_QUADS ↔ f.num_elems = 4) ∧ (f.type = GL_POLYGON ↔ 4 < f.num_elems) ∧
      (∃ l, f.vert_indices = some l ∧ (l.length : Int) = f.num_elems) ∧
      (texturedLoaded.mdl.has_texCoords ≠ 0 →
        ∃ l, f.uvw_indices = some l ∧ (l.length : Int) = f.num_elems) ∧
      (texturedLoaded.mdl.has_texCoords = 0 → f.uvw_indices = none) ∧
      (texturedLoaded.mdl.has_normals ≠ 0 →
        ∃ l, f.norm_indices = some l ∧ (l.length : Int) = f.num_elems) ∧
      (texturedLoaded.mdl.has_normals = 0 → f.norm_indices = none) :=
  ReadOBJModel_face_shape intOps (oneFile texturedFile) [] "model.obj" (zeroModel Int)
    texturedFile texturedLoaded (by decide) (by decide) (by decide) (by decide)
    texturedFile_loaded rfl

end ObjTest
